import Mathlib

/-!
# The dependency engine (`worker/dependency/engine.go`)

A shallow embedding of the engine's loop goroutine and of the handlers it
calls.  The loop is the single writer of the engine state, so every handler is
a function from engine states to engine states.  The two kinds of side effect
a handler has on the outside world, launching a `runWorker` goroutine and
calling `Kill` on a worker, are appended to two trace fields of the state.
-/

namespace Dependency

/-! ## Go values -/

/-- Non-nil Go error values.  `ErrMissing` is the package sentinel,
`ErrDying` is `tomb.ErrDying`, `New` stands for `errors.New` / `errors.Errorf`
(and for any error a worker makes up), `Annotate` for `errors.Annotatef` and
`Trace` for `errors.Trace`. -/
inductive Err where
  | ErrMissing
  | ErrDying
  | New (msg : String)
  | Annotate (cause : Err) (msg : String)
  | Trace (cause : Err)
  deriving DecidableEq, Repr

/-- The verb `%q` of the format functions: the string between double quotes
(the escaping of characters that need it is not modelled). -/
def quoted (name : String) : String :=
  String.singleton (Char.ofNat 34) ++ name ++ String.singleton (Char.ofNat 34)

/-- The Go interface type `error`; `none` is `nil`. -/
abbrev error := Option Err

/-- A `time.Duration`, in nanoseconds. -/
abbrev Duration := Int

/-- Values of type `interface{}` as they occur in a status report. -/
inductive Value where
  | bool (b : Bool)
  | int (n : Int)
  | str (s : String)
  | map (entries : List (String × Value))
  deriving Repr

/-- A non-nil `worker.Worker`.  `report` is `some v` when the worker also
implements `Reporter`, and then `v` is what its `Report()` returns. -/
structure Worker where
  id : Nat
  report : Option Value
  deriving Repr

/-- The non-nil value of an `out interface{}` parameter (a pointer the output
function is to fill in). -/
abbrev Out := Nat

/-! ## Go maps with string keys -/

/-- A Go `map[string]V`, kept as an association list. -/
structure Map (V : Type) where
  entries : List (String × V)

namespace Map

variable {V : Type}

/-- The empty map literal. -/
def empty : Map V := ⟨[]⟩

/-- Lookup in an association list. -/
def lookup : List (String × V) → String → Option V
  | [], _ => none
  | (k, v) :: rest, name => if k = name then some v else lookup rest name

/-- Store in an association list: overwrite the entry for the key, or add one. -/
def store : List (String × V) → String → V → List (String × V)
  | [], name, v => [(name, v)]
  | (k, w) :: rest, name, v =>
    if k = name then (name, v) :: rest else (k, w) :: store rest name v

/-- The two-result lookup `v, found := m[name]`. -/
def get? (m : Map V) (name : String) : Option V := lookup m.entries name

/-- The one-result lookup `m[name]`: the zero value when the key is absent. -/
def index [Inhabited V] (m : Map V) (name : String) : V := (m.get? name).getD default

/-- The assignment `m[name] = v`. -/
def set (m : Map V) (name : String) (v : V) : Map V := ⟨store m.entries name v⟩

/-- The keys a `range` over the map visits. -/
def keys (m : Map V) : List String := m.entries.map Prod.fst

/-- The builtin `len(m)`. -/
def len (m : Map V) : Nat := m.entries.length

end Map

/-! ## Manifolds -/

/-- The type `GetResourceFunc`: `func(name string, out interface{}) error`. -/
abbrev GetResourceFunc := String → Option Out → error

/-- The type `StartFunc`: `func(getResource GetResourceFunc) (worker.Worker, error)`. -/
abbrev StartFunc := GetResourceFunc → Option Worker × error

/-- The type `OutputFunc`: `func(in worker.Worker, out interface{}) error`. -/
abbrev OutputFunc := Worker → Option Out → error

/-- The struct `Manifold`; `Start` and `Output` are func values and may be nil. -/
structure Manifold where
  Inputs : List String
  Start : Option StartFunc
  Output : Option OutputFunc

instance : Inhabited Manifold := ⟨⟨[], none, none⟩⟩

/-- The type `Manifolds`: `map[string]Manifold`. -/
abbrev Manifolds := Map Manifold

/-! ## Engine configuration -/

/-- The struct `EngineConfig`. -/
structure EngineConfig where
  IsFatal : Option (error → Bool)
  MoreImportant : Option (error → error → error)
  ErrorDelay : Duration
  BounceDelay : Duration

/-- The method `EngineConfig.Validate`. -/
def EngineConfig.Validate (config : EngineConfig) : error :=
  if config.IsFatal.isNone then
    some (Err.New "engineconfig validation failed: IsFatal not specified")
  else if config.MoreImportant.isNone then
    some (Err.New "engineconfig validation failed: MoreImportant not specified")
  else if config.ErrorDelay ≤ 0 then
    some (Err.New "engineconfig validation failed: ErrorDelay needs to be >= 0")
  else if config.BounceDelay ≤ 0 then
    some (Err.New "engineconfig validation failed: BounceDelay needs to be >= 0")
  else none

/-! ## The tomb -/

/-- The part of a `tomb.Tomb` the engine relies on: whether the dying channel
is closed, whether the dead channel is closed, and the recorded reason. -/
structure Tomb where
  dying : Bool
  dead : Bool
  reason : error

/-- The zero tomb: alive. -/
def Tomb.alive : Tomb := ⟨false, false, none⟩

/-- The tomb a call of `Tomb.Kill` leaves when it returns: the tomb is dying, and
only the first non-nil reason is recorded; the reason `ErrDying` never replaces
the recorded one (on a dying tomb that call changes nothing). -/
def Tomb.killed (t : Tomb) (reason : error) : Tomb :=
  if reason = some Err.ErrDying then { t with dying := true }
  else { t with dying := true, reason := if t.reason.isNone then reason else t.reason }

/-- The method `Tomb.Kill` of the tomb library; `none` when it panics:
`Kill(ErrDying)` on a tomb that is still alive is a runtime error. -/
def Tomb.Kill (t : Tomb) (reason : error) : Option Tomb :=
  if reason = some Err.ErrDying ∧ t.dying = false then none else some (t.killed reason)

/-- The method `Tomb.Done`: the tomb becomes dead. -/
def Tomb.Done (t : Tomb) : Tomb := { t with dying := true, dead := true }

/-! ## Engine state -/

/-- The struct `workerInfo`. -/
structure workerInfo where
  starting : Bool
  stopping : Bool
  worker : Option Worker

instance : Inhabited workerInfo := ⟨⟨false, false, none⟩⟩

/-- The method `workerInfo.stopped`. -/
def workerInfo.stopped (info : workerInfo) : Bool :=
  if info.worker.isSome then false
  else if info.starting then false
  else true

/-- The arguments of one `go engine.runWorker(name, delay, start, getResource)`. -/
structure runWorkerCall where
  name : String
  delay : Duration
  start : Option StartFunc
  getResource : GetResourceFunc

/-- The struct `engine`.  The channel fields are represented by the tickets of
the loop below; `goroutines` and `kills` are the traces of the runners launched
and of the workers whose `Kill` method was called, oldest first. -/
structure engine where
  tomb : Tomb
  config : EngineConfig
  worstError : error
  manifolds : Manifolds
  dependents : Map (List String)
  current : Map workerInfo
  goroutines : List runWorkerCall
  kills : List Worker

/-- The function `NewEngine`: the engine, or nil and the traced validation error. -/
def NewEngine (config : EngineConfig) : Option engine × error :=
  match config.Validate with
  | some err => (none, some (Err.Trace err))
  | none =>
    (some
      { tomb := Tomb.alive
        config := config
        worstError := none
        manifolds := Map.empty
        dependents := Map.empty
        current := Map.empty
        goroutines := []
        kills := [] },
     none)

namespace engine

/-- The method `engine.isDying`. -/
def isDying (e : engine) : Bool := e.tomb.dying

/-- The call `engine.tomb.Kill(reason)` where it cannot panic: the reason is nil
or an error built at the call, never `ErrDying`. -/
def tombKill (e : engine) (reason : error) : engine := { e with tomb := e.tomb.killed reason }

/-- The call `engine.tomb.Kill(reason)` with a reason handed in by a runner;
`none` when `Tomb.Kill` panics. -/
def killTomb (e : engine) (reason : error) : Option engine :=
  (e.tomb.Kill reason).map fun t => { e with tomb := t }

/-- The method `engine.allStopped`. -/
def allStopped (e : engine) : Bool := e.current.entries.all (fun p => p.2.stopped)

/-- The method `engine.getResourceFunc`: the two snapshot maps are built from
the engine state at the call, and the returned closure only reads them. -/
def getResourceFunc (e : engine) (_name : String) (inputs : List String) : GetResourceFunc :=
  let outputs : Map (Option OutputFunc) :=
    inputs.foldl (fun acc resourceName => acc.set resourceName (e.manifolds.index resourceName).Output)
      Map.empty
  let workers : Map (Option Worker) :=
    inputs.foldl (fun acc resourceName => acc.set resourceName (e.current.index resourceName).worker)
      Map.empty
  fun resourceName out =>
    match workers.index resourceName with
    | none => some Err.ErrMissing
    | some input =>
      match outputs.index resourceName with
      | none => if out.isSome then some Err.ErrMissing else none
      | some convert => convert input out

/-- The method `engine.requestStart`. -/
def requestStart (e : engine) (name : String) (delay : Duration) : engine :=
  let found := e.manifolds.get? name
  let manifold := found.getD default
  let e1 := if found.isNone then e.tombKill (some (Err.New ("fatal: unknown manifold " ++ quoted name))) else e
  let info := e1.current.index name
  let e2 :=
    if !info.stopped then
      e1.tombKill (some (Err.New ("fatal: trying to start a second " ++ quoted name ++ " manifold worker")))
    else e1
  if e2.isDying then e2
  else
    let e3 := { e2 with current := e2.current.set name { info with starting := true } }
    let getResource := e3.getResourceFunc name manifold.Inputs
    { e3 with goroutines := e3.goroutines ++ [⟨name, delay, manifold.Start, getResource⟩] }

/-- The method `engine.requestStop`. -/
def requestStop (e : engine) (name : String) : engine :=
  let info := e.current.index name
  if info.stopping || info.stopped then e
  else
    let e1 := match info.worker with
      | some w => { e with kills := e.kills ++ [w] }
      | none => e
    { e1 with current := e1.current.set name { info with stopping := true } }

/-- The method `engine.bounceDependents`. -/
def bounceDependents (e : engine) (name : String) : engine :=
  (e.dependents.index name).foldl
    (fun acc dependentName =>
      if (acc.current.index dependentName).stopped then
        acc.requestStart dependentName acc.config.BounceDelay
      else acc.requestStop dependentName)
    e

/-- The method `engine.gotStarted`; the first case falls through into the second. -/
def gotStarted (e : engine) (name : String) (worker : Worker) : engine :=
  let info := e.current.index name
  if info.worker.isSome then
    let e1 := e.tombKill (some (Err.New ("fatal: unexpected " ++ quoted name ++ " manifold worker start")))
    { e1 with kills := e1.kills ++ [worker] }
  else if info.stopping || e.isDying then
    { e with kills := e.kills ++ [worker] }
  else
    let e1 := { e with current := e.current.set name { info with starting := false, worker := some worker } }
    e1.bounceDependents name

/-- The first part of `engine.gotStopped`: the checks for reasons to stop the
engine.  The result is `none` when the call panics: `config.IsFatal` or
`config.MoreImportant` is a nil func, or the fatal error handed to `tomb.Kill`
is `ErrDying` while the tomb is still alive. -/
def stoppedChecks (e : engine) (name : String) (err : error) : Option engine :=
  if (e.current.index name).stopped then
    some (e.tombKill (some (Err.New ("fatal: unexpected " ++ quoted name ++ " manifold worker stop"))))
  else
    match e.config.IsFatal with
    | none => none
    | some isFatal =>
      if isFatal err then
        if e.worstError.isNone then
          match e.config.MoreImportant with
          | none => none
          | some moreImportant =>
            ({ e with worstError := moreImportant err e.worstError } : engine).killTomb err
        else e.killTomb err
      else some e

/-- The restart decision of `engine.gotStopped`, taken on the info copied at
its start: a worker the engine told to stop is started again, otherwise the
error is interpreted. -/
def stoppedRestart (e : engine) (name : String) (info : workerInfo) (err : error) : engine :=
  if info.stopping then e.requestStart name e.config.BounceDelay
  else
    match err with
    | none => e
    | some Err.ErrMissing => e
    | some _ => e.requestStart name e.config.ErrorDelay

/-- The method `engine.gotStopped`; `none` when it panics. -/
def gotStopped (e : engine) (name : String) (err : error) : Option engine :=
  let info := e.current.index name
  (e.stoppedChecks name err).map fun e1 =>
    let e2 := { e1 with current := e1.current.set name default }
    if e2.isDying then e2
    else
      let e3 := e2.stoppedRestart name info err
      if info.worker.isSome then e3.bounceDependents name else e3

/-- The method `engine.gotReport`. -/
def gotReport (e : engine) : Map Value :=
  let workers : Map Value :=
    e.current.entries.foldl
      (fun acc p =>
        let worker : Map Value :=
          (Map.empty.set "starting" (Value.bool p.2.starting)).set "stopping" (Value.bool p.2.stopping)
        let worker :=
          match p.2.worker.bind Worker.report with
          | some r => worker.set "report" r
          | none => worker
        acc.set p.1 (Value.map worker.entries))
      Map.empty
  ((Map.empty.set "is-dying" (Value.bool e.isDying)).set "manifold-count"
    (Value.int e.manifolds.len)).set "workers" (Value.map workers.entries)

/-- The method `engine.Wait` once the tomb is dead; `none` while it blocks. -/
def Wait (e : engine) : Option error :=
  if e.tomb.dead then some e.worstError else none

/-- The method `engine.Kill`. -/
def Kill (e : engine) : engine := e.tombKill none

end engine

section installing

-- The package function `Validate` (the cycle check over a manifold set) is a
-- parameter of every definition that calls it.
variable (Validate : Manifolds → error)

/-- The method `engine.checkAcyclic`. -/
def engine.checkAcyclic (e : engine) (name : String) (manifold : Manifold) : error :=
  let manifolds : Manifolds :=
    e.manifolds.entries.foldl (fun acc p => acc.set p.1 p.2) (Map.empty.set name manifold)
  Validate manifolds

/-- The loop of `engine.gotInstall` that extends `dependents` for each input. -/
def engine.addDependents (e : engine) (name : String) (inputs : List String) : engine :=
  inputs.foldl
    (fun acc input => { acc with dependents := acc.dependents.set input (acc.dependents.index input ++ [name]) })
    e

/-- The assignments of `engine.gotInstall` once both checks have passed: the
manifold is recorded, `dependents` is extended and an empty info is created. -/
def engine.recordManifold (e : engine) (name : String) (manifold : Manifold) : engine :=
  let e1 := { e with manifolds := e.manifolds.set name manifold }
  let e2 := e1.addDependents name manifold.Inputs
  { e2 with current := e2.current.set name default }

/-- The method `engine.gotInstall`. -/
def engine.gotInstall (e : engine) (name : String) (manifold : Manifold) : engine × error :=
  if (e.manifolds.get? name).isSome then
    (e, some (Err.New (quoted name ++ " manifold already installed")))
  else
    match e.checkAcyclic Validate name manifold with
    | some err => (e, some (Err.Annotate err ("cannot install " ++ quoted name ++ " manifold")))
    | none => ((e.recordManifold name manifold).requestStart name 0, none)

/-! ## The loop goroutine -/

/-- What the loop's `select` can receive: the dying signal, or a ticket on one
of the four channels. -/
inductive ticket where
  | dying
  | install (name : String) (manifold : Manifold)
  | started (name : String) (worker : Worker)
  | stopped (name : String) (err : error)
  | report

/-- The state of the goroutine `NewEngine` launches: the engine, whether the
local variable `oneShotDying` still holds the dying channel, and the value
`engine.loop` returned (`none` while it runs; the loop never returns nil). -/
structure loopState where
  eng : engine
  oneShotDying : Bool
  result : error

/-- The goroutine as `NewEngine` launches it. -/
def loopState.start (e : engine) : loopState := ⟨e, true, none⟩

/-- The `select` statement of `engine.loop` on the case that fires; `none` when
that case is not ready (the dying case before the tomb is dying or after it
was taken once) or when the handler panics.  The dying case ranges over the
keys of `current` in the order of the association list; `requestStop` only
touches the entry of its own name, so the order only shows in the kill trace. -/
def loopState.select (s : loopState) : ticket → Option loopState
  | ticket.dying =>
    if s.oneShotDying && s.eng.isDying then
      some { s with oneShotDying := false, eng := s.eng.current.keys.foldl engine.requestStop s.eng }
    else none
  | ticket.install name manifold => some { s with eng := (s.eng.gotInstall Validate name manifold).1 }
  | ticket.started name worker => some { s with eng := s.eng.gotStarted name worker }
  | ticket.stopped name err => (s.eng.gotStopped name err).map fun e => { s with eng := e }
  | ticket.report => some s

/-- The value `engine.loop` returns when it finds the engine dying and all
workers stopped. -/
def engine.loopResult (e : engine) : error :=
  if e.worstError.isNone then some Err.ErrDying else e.worstError

/-- One iteration of `engine.loop`: the select, then the termination check.
When the loop returns, the goroutine of `NewEngine` kills the tomb with the
returned value, which cannot panic on a tomb that is dying, and marks it done.
`none` when the loop has already returned. -/
def loopState.turn (s : loopState) (t : ticket) : Option loopState :=
  if s.result.isSome then none
  else
    (s.select Validate t).map fun s1 =>
      if s1.eng.isDying && s1.eng.allStopped then
        { s1 with
          result := s1.eng.loopResult
          eng := { s1.eng with tomb := (s1.eng.tomb.killed s1.eng.loopResult).Done } }
      else s1

/-- The two cases of the `select` in the method `engine.Install`. -/
inductive installCase where
  | dying
  | sent

/-- The method `engine.Install`: the new state and the returned error, for the
case of its `select` that fires; `none` when that case cannot fire. -/
def loopState.Install (s : loopState) (name : String) (manifold : Manifold) :
    installCase → Option (loopState × error)
  | installCase.dying =>
    if s.eng.isDying then some (s, some (Err.New "engine is shutting down")) else none
  | installCase.sent =>
    (s.turn Validate (ticket.install name manifold)).map fun s1 =>
      (s1, (s.eng.gotInstall Validate name manifold).2)

/-- What can happen to a running engine: some goroutine calls `Kill`, or the
loop receives a ticket. -/
inductive action where
  | Kill
  | recv (t : ticket)

/-- One step of the engine. -/
def loopState.step (s : loopState) : action → Option loopState
  | action.Kill => some { s with eng := s.eng.Kill }
  | action.recv t => s.turn Validate t

/-- A sequence of steps. -/
def loopState.exec (s : loopState) : List action → Option loopState
  | [] => some s
  | a :: rest => (s.step Validate a).bind fun s1 => s1.exec rest

/-- The states of the loop reachable from a new engine. -/
def Reachable (s : loopState) : Prop :=
  ∃ config e acts, NewEngine config = (some e, none) ∧ (loopState.start e).exec Validate acts = some s

end installing

/-! ## The installed graph -/

/-- An edge of the graph of a manifold set: from a manifold of the set to one
of its inputs. -/
def inputEdge (ms : Manifolds) (a b : String) : Prop :=
  ∃ m, ms.get? a = some m ∧ b ∈ m.Inputs

/-- The graph of a manifold set contains a cycle. -/
def HasCycle (ms : Manifolds) : Prop :=
  ∃ n, Relation.TransGen (inputEdge ms) n n

/-! ## Sample data for the worked examples -/

/-- A cycle check that only accepts a manifold set in which no input names a
manifold of the set; it rejects every set with a cycle. -/
def strictValidate (ms : Manifolds) : error :=
  if ms.entries.any (fun p => p.2.Inputs.any (fun input => (ms.get? input).isSome)) then
    some (Err.New "cycle detected")
  else none

/-- A fatal error of low rank. -/
def fatalLow : Err := Err.New "fatal: low"

/-- A fatal error of high rank. -/
def fatalHigh : Err := Err.New "fatal: high"

/-- An `IsFatal` func that matches the two fatal errors. -/
def sampleIsFatal (err : error) : Bool := err = some fatalLow || err = some fatalHigh

/-- A `MoreImportant` func that ranks `fatalHigh` above everything and
otherwise prefers its first non-nil argument. -/
def sampleMoreImportant (a b : error) : error :=
  if a = some fatalHigh || b = some fatalHigh then some fatalHigh
  else if a.isSome then a else b

/-- A config whose `IsFatal` matches the two fatal errors and whose
`MoreImportant` ranks `fatalHigh` above everything and otherwise prefers its
first non-nil argument. -/
def sampleConfig : EngineConfig :=
  { IsFatal := some sampleIsFatal
    MoreImportant := some sampleMoreImportant
    ErrorDelay := 1000
    BounceDelay := 10 }

/-- The engine `NewEngine sampleConfig` returns. -/
def sampleEngine : engine :=
  { tomb := Tomb.alive
    config := sampleConfig
    worstError := none
    manifolds := Map.empty
    dependents := Map.empty
    current := Map.empty
    goroutines := []
    kills := [] }

/-- A manifold without inputs. -/
def leaf : Manifold := ⟨[], none, none⟩

/-- Two workers. -/
def worker1 : Worker := ⟨1, none⟩

/-- The second worker. -/
def worker2 : Worker := ⟨2, none⟩

/-- The state the sample engine is in after a sequence of steps (the new engine
again when the sequence cannot be run). -/
def sampleRun (acts : List action) : loopState :=
  ((loopState.start sampleEngine).exec strictValidate acts).getD (loopState.start sampleEngine)

/-- Two installs and a started worker. -/
def installSteps : List action :=
  [action.recv (ticket.install "a" leaf),
   action.recv (ticket.install "b" ⟨["c"], none, none⟩),
   action.recv (ticket.started "a" worker1)]

/-- A worker runs, the engine is killed, the worker exits cleanly. -/
def cleanShutdownSteps : List action :=
  [action.recv (ticket.install "a" leaf),
   action.recv (ticket.started "a" worker1),
   action.Kill,
   action.recv ticket.dying,
   action.recv (ticket.stopped "a" none)]

/-- Two runners fail to start, the first with the low fatal error and the
second with the high one. -/
def twoFatalSteps : List action :=
  [action.recv (ticket.install "a" leaf),
   action.recv (ticket.install "b" leaf),
   action.recv (ticket.stopped "a" (some fatalLow)),
   action.recv (ticket.stopped "b" (some fatalHigh))]

/-- A second worker is reported for a name that already holds one; the engine
then shuts down and the recorded worker exits cleanly. -/
def duplicateStartSteps : List action :=
  [action.recv (ticket.install "a" leaf),
   action.recv (ticket.started "a" worker1),
   action.recv (ticket.started "a" worker2),
   action.recv ticket.dying,
   action.recv (ticket.stopped "a" none)]

/-- A runner is starting when the engine is killed. -/
def killedWhileStartingSteps : List action :=
  [action.recv (ticket.install "a" leaf), action.Kill]

/-! ## The fold of the specification -/

/-- The errors carried by the stopped tickets of a run that satisfy `IsFatal`,
in the order the loop received them. -/
def fatalErrorsObserved (isFatal : error → Bool) : List action → List error
  | [] => []
  | action.recv (ticket.stopped _ err) :: rest =>
    if isFatal err then err :: fatalErrorsObserved isFatal rest
    else fatalErrorsObserved isFatal rest
  | _ :: rest => fatalErrorsObserved isFatal rest

/-- The left fold of `MoreImportant` over a list of errors, starting from nil,
each step being the call `MoreImportant(err, worstError)`. -/
def foldMoreImportant (moreImportant : error → error → error) (errs : List error) : error :=
  errs.foldl (fun worstError err => moreImportant err worstError) none

/-- A manifold is installed and its runner is starting. -/
def startingSteps : List action :=
  [action.recv (ticket.install "a" leaf)]

/-- A manifold is installed and its worker is running. -/
def runningSteps : List action :=
  [action.recv (ticket.install "a" leaf), action.recv (ticket.started "a" worker1)]

/-- A runner is starting when the engine is killed and the loop handles the
dying signal. -/
def stopWhileStartingSteps : List action :=
  [action.recv (ticket.install "a" leaf), action.Kill, action.recv ticket.dying]

/-- A manifold that names the same input twice is installed. -/
def doubleInputSteps : List action :=
  [action.recv (ticket.install "b" ⟨["a", "a"], none, none⟩)]

/-! ## Runs that only deliver tickets for installed names -/

/-- A started or stopped ticket names an installed manifold; every other ticket
passes. -/
def ticket.forInstalled (e : engine) : ticket → Bool
  | ticket.started name _ => (e.manifolds.get? name).isSome
  | ticket.stopped name _ => (e.manifolds.get? name).isSome
  | _ => true

/-- The same for a step. -/
def action.forInstalled (e : engine) : action → Bool
  | action.Kill => true
  | action.recv t => t.forInstalled e

/-- Along the run from a state, every started and every stopped ticket names a
manifold that is installed when the loop receives the ticket. -/
def loopState.installedOnly (Validate : Manifolds → error) (s : loopState) : List action → Bool
  | [] => true
  | a :: rest =>
    a.forInstalled s.eng &&
      match s.step Validate a with
      | some s1 => s1.installedOnly Validate rest
      | none => true

/-- A cycle check that accepts every manifold set. -/
def acceptAll (_ : Manifolds) : error := none

/-- A worker error that the sample `IsFatal` does not match. -/
def transientError : Err := Err.New "connection lost"

/-! ## The snapshot of the resource accessor -/

/-- The map `workers` that `getResourceFunc` builds: for each input, the worker
recorded for it at the call. -/
def engine.snapshotWorkers (e : engine) (inputs : List String) : Map (Option Worker) :=
  inputs.foldl (fun acc resourceName => acc.set resourceName (e.current.index resourceName).worker)
    Map.empty

/-- The map `outputs` that `getResourceFunc` builds: for each input, the output
func of the manifold installed under it at the call. -/
def engine.snapshotOutputs (e : engine) (inputs : List String) : Map (Option OutputFunc) :=
  inputs.foldl (fun acc resourceName => acc.set resourceName (e.manifolds.index resourceName).Output)
    Map.empty

/-- An output func that fills in a pointer and fails when it is given none. -/
def sampleOutput : OutputFunc := fun _ out =>
  if out.isSome then none else some (Err.New "out should be a pointer")

/-- A manifold with an output func is installed and its worker is running. -/
def adapterSteps : List action :=
  [action.recv (ticket.install "a" ⟨[], none, some sampleOutput⟩),
   action.recv (ticket.started "a" worker1)]

/-! ## The loop of `bounceDependents` -/

/-- The body of the loop of `engine.bounceDependents` for one dependent. -/
def engine.bounceStep (e : engine) (dependentName : String) : engine :=
  if (e.current.index dependentName).stopped then
    e.requestStart dependentName e.config.BounceDelay
  else e.requestStop dependentName

/-- The loop of `engine.bounceDependents` over a list of dependents. -/
def engine.bounceLoop (e : engine) : List String → engine
  | [] => e
  | dependentName :: rest => (e.bounceStep dependentName).bounceLoop rest

/-- Three installs, the second and third naming the first as an input; the
runner of `b` then fails for a missing dependency and the worker of `c` is
reported. -/
def fanSteps : List action :=
  [action.recv (ticket.install "a" leaf),
   action.recv (ticket.install "b" ⟨["a"], none, none⟩),
   action.recv (ticket.install "c" ⟨["a"], none, none⟩),
   action.recv (ticket.stopped "b" (some Err.ErrMissing)),
   action.recv (ticket.started "c" worker2)]

/-- The state of the sample engine after `fanSteps`, under the cycle check that
accepts everything: `a` is starting, `b` is stopped and `c` is running. -/
def fanState : loopState :=
  ((loopState.start sampleEngine).exec acceptAll fanSteps).getD (loopState.start sampleEngine)

/-! ## Replacing the ranking func -/

/-- The engine with the `MoreImportant` func of its config replaced. -/
def engine.withMoreImportant (e : engine) (moreImportant : error → error → error) : engine :=
  { e with config := { e.config with MoreImportant := some moreImportant } }

/-! ## The runner goroutine -/

/-- The outcomes of the two `select` statements of a runner: whether the dying
channel wins against the delay, and whether it wins against the send on the
started channel. -/
structure runnerRace where
  dyingBeforeDelay : Bool
  dyingBeforeSend : Bool

/-- What one runner does that others can observe: how often it called the start
func, the workers whose `Kill` method it called, and the tickets it sent to the
loop, oldest first. -/
structure runnerTrace where
  startCalls : Nat
  kills : List Worker
  sent : List ticket

/-- The closure `startWorkerAndWait` of `engine.runWorker`, with the trace of
what it did and the error it returns; `wait` is the result of the `Wait` method
of a worker.  The result is `none` when the closure panics: the start func is
nil, or it returns a nil worker with a nil error. -/
def engine.startWorkerAndWait (name : String) (_delay : Duration) (start : Option StartFunc)
    (getResource : GetResourceFunc) (race : runnerRace) (wait : Worker → error) :
    Option (runnerTrace × error) :=
  if race.dyingBeforeDelay then some (⟨0, [], []⟩, some Err.ErrDying)
  else
    match start with
    | none => none
    | some start =>
      match start getResource with
      | (_, some err) => some (⟨1, [], []⟩, some err)
      | (none, none) => none
      | (some worker, none) =>
        if race.dyingBeforeSend then some (⟨1, [worker], []⟩, wait worker)
        else some (⟨1, [], [ticket.started name worker]⟩, wait worker)

/-- The method `engine.runWorker`: whatever `startWorkerAndWait` returns is sent
on the stopped channel. -/
def engine.runWorker (name : String) (delay : Duration) (start : Option StartFunc)
    (getResource : GetResourceFunc) (race : runnerRace) (wait : Worker → error) :
    Option runnerTrace :=
  (engine.startWorkerAndWait name delay start getResource race wait).map fun r =>
    { r.1 with sent := r.1.sent ++ [ticket.stopped name r.2] }

/-- Whether a ticket is a started ticket. -/
def ticket.isStarted : ticket → Bool
  | ticket.started _ _ => true
  | _ => false

/-- Whether a ticket is a stopped ticket. -/
def ticket.isStopped : ticket → Bool
  | ticket.stopped _ _ => true
  | _ => false

/-- A start func that returns the first sample worker. -/
def sampleStart : StartFunc := fun _ => (some worker1, none)

/-- A start func that fails with the transient error. -/
def failingStart : StartFunc := fun _ => (none, some (Err.New "connection lost"))

/-- The exit error of the sample workers: the first exits cleanly, any other
with the low fatal error. -/
def sampleWait (w : Worker) : error := if w.id = 1 then none else some fatalLow

/-! ## The stop requests of a shutdown -/

/-- The worker whose `Kill` method `requestStop(name)` calls: the recorded
worker, unless the info is already stopping. -/
def engine.toStop (e : engine) (name : String) : Option Worker :=
  if (e.current.index name).stopping then none else (e.current.index name).worker

/-! ## The parts of a report -/

/-- The mapping `worker` that the loop of `gotReport` builds for one info. -/
def workerInfo.reportMap (info : workerInfo) : Map Value :=
  let worker : Map Value :=
    (Map.empty.set "starting" (Value.bool info.starting)).set "stopping" (Value.bool info.stopping)
  match info.worker.bind Worker.report with
  | some r => worker.set "report" r
  | none => worker

/-- The mapping `workers` that the loop of `gotReport` builds. -/
def engine.reportWorkers (e : engine) : Map Value :=
  e.current.entries.foldl (fun acc p => acc.set p.1 (Value.map p.2.reportMap.entries)) Map.empty

/-- A worker with the reporter capability. -/
def reportingWorker : Worker := ⟨3, some (Value.str "busy")⟩

/-! ## Runners and their stopped tickets -/

/-- The number of runners launched for a name so far. -/
def engine.launched (e : engine) (name : String) : Nat :=
  e.goroutines.countP (fun g => g.name = name)

/-- The number of stopped tickets for a name among the steps of a run. -/
def stoppedTickets (name : String) : List action → Nat
  | [] => 0
  | action.recv (ticket.stopped n _) :: rest =>
    (if n = name then 1 else 0) + stoppedTickets name rest
  | _ :: rest => stoppedTickets name rest

/-- Every runner launched for a name has delivered its stopped ticket, except
possibly one while the info of the name is not stopped; `delivered` counts the
stopped tickets the loop has handled.  No runner is launched for a name that
is not installed. -/
def Accounted (e : engine) (delivered : String → Nat) : Prop :=
  ∀ n, e.launched n ≤ delivered n + (if (e.current.index n).stopped then 0 else 1) ∧
    (e.manifolds.get? n = none → e.launched n = 0)

/-! ## A config for which every error is fatal -/

/-- A config whose `IsFatal` accepts every error. -/
def fatalAllConfig : EngineConfig :=
  { IsFatal := some (fun _ => true)
    MoreImportant := some sampleMoreImportant
    ErrorDelay := 1000
    BounceDelay := 10 }

/-- The engine `NewEngine fatalAllConfig` returns. -/
def fatalAllEngine : engine :=
  { tomb := Tomb.alive
    config := fatalAllConfig
    worstError := none
    manifolds := Map.empty
    dependents := Map.empty
    current := Map.empty
    goroutines := []
    kills := [] }

/-- The state the engine for which every error is fatal is in after a sequence
of steps, if the sequence can be run. -/
def fatalAllRun (acts : List action) : Option loopState :=
  (loopState.start fatalAllEngine).exec acceptAll acts

/-! ## A run that leaves a dependent stopped -/

/-- The manifold `b` names `a` as its input; the runner of `b` fails for the
missing dependency, the worker of `a` is reported, and the restarted runner of
`b` fails the same way: `a` holds a worker and `b` is stopped. -/
def stoppedDependentSteps : List action :=
  [action.recv (ticket.install "a" leaf),
   action.recv (ticket.install "b" ⟨["a"], none, none⟩),
   action.recv (ticket.stopped "b" (some Err.ErrMissing)),
   action.recv (ticket.started "a" worker1),
   action.recv (ticket.stopped "b" (some Err.ErrMissing))]

/-- The state of the sample engine after `stoppedDependentSteps`, under the
cycle check that accepts everything. -/
def stoppedDependentState : loopState :=
  ((loopState.start sampleEngine).exec acceptAll stoppedDependentSteps).getD
    (loopState.start sampleEngine)

/-! ## Lemmas on maps -/

namespace Map

variable {V : Type}

theorem lookup_store_self (l : List (String × V)) (k : String) (v : V) :
    lookup (store l k v) k = some v := by
  induction l with
  | nil => simp [store, lookup]
  | cons p rest ih =>
    obtain ⟨k1, w⟩ := p
    by_cases h : k1 = k
    · simp [store, lookup, h]
    · simp [store, lookup, h, ih]

theorem lookup_store_ne (l : List (String × V)) (k k2 : String) (v : V) (h : k ≠ k2) :
    lookup (store l k v) k2 = lookup l k2 := by
  induction l with
  | nil => simp [store, lookup, h]
  | cons p rest ih =>
    obtain ⟨k1, w⟩ := p
    by_cases h1 : k1 = k
    · subst h1
      simp [store, lookup, h]
    · simp [store, lookup, h1, ih]

theorem mem_store (l : List (String × V)) (k : String) (v : V) (p : String × V)
    (hp : p ∈ store l k v) : p = (k, v) ∨ p ∈ l := by
  induction l with
  | nil => simpa [store] using hp
  | cons q rest ih =>
    obtain ⟨k1, w⟩ := q
    by_cases h1 : k1 = k
    · simp only [store, h1, if_true, List.mem_cons] at hp
      rcases hp with hp | hp
      · exact Or.inl hp
      · exact Or.inr (List.mem_cons_of_mem _ hp)
    · simp only [store, h1, if_false, List.mem_cons] at hp
      rcases hp with hp | hp
      · exact Or.inr (by simp [hp])
      · rcases ih hp with h | h
        · exact Or.inl h
        · exact Or.inr (List.mem_cons_of_mem _ h)

theorem lookup_mem (l : List (String × V)) (k : String) (v : V) (h : lookup l k = some v) :
    (k, v) ∈ l := by
  induction l with
  | nil => simp [lookup] at h
  | cons p rest ih =>
    obtain ⟨k1, w⟩ := p
    by_cases h1 : k1 = k
    · simp only [lookup, h1, if_true, Option.some.injEq] at h
      simp [h1, h]
    · simp only [lookup, h1, if_false] at h
      exact List.mem_cons_of_mem _ (ih h)

theorem lookup_eq_none (l : List (String × V)) (k : String) (h : k ∉ l.map Prod.fst) :
    lookup l k = none := by
  induction l with
  | nil => rfl
  | cons p rest ih =>
    obtain ⟨k1, w⟩ := p
    simp only [List.map_cons, List.mem_cons, not_or] at h
    simp only [lookup, if_neg (Ne.symm h.1)]
    exact ih h.2

theorem mem_keys_of_lookup (l : List (String × V)) (k : String) (v : V) (h : lookup l k = some v) :
    k ∈ l.map Prod.fst :=
  List.mem_map.mpr ⟨(k, v), lookup_mem l k v h, rfl⟩

theorem keys_store (l : List (String × V)) (k : String) (v : V) :
    (store l k v).map Prod.fst =
      if k ∈ l.map Prod.fst then l.map Prod.fst else l.map Prod.fst ++ [k] := by
  induction l with
  | nil => simp [store]
  | cons p rest ih =>
    obtain ⟨k1, w⟩ := p
    by_cases h1 : k1 = k
    · simp [store, h1]
    · have h2 : ¬ k = k1 := fun h => h1 h.symm
      simp only [store, h1, if_false, List.map_cons, ih, List.mem_cons, h2, false_or]
      split_ifs <;> simp

theorem nodup_keys_store (l : List (String × V)) (k : String) (v : V)
    (h : (l.map Prod.fst).Nodup) : ((store l k v).map Prod.fst).Nodup := by
  rw [keys_store]
  split_ifs with hk
  · exact h
  · exact List.Nodup.append h (List.nodup_singleton k) (by simpa using hk)

/-- Copying an association list with distinct keys into a map, entry by entry,
yields a map that agrees with the list where the list has a key and with the
initial map elsewhere. -/
theorem get?_foldl_set (l : List (String × V)) (h : (l.map Prod.fst).Nodup) (init : Map V)
    (k : String) :
    (l.foldl (fun acc p => acc.set p.1 p.2) init).get? k =
      match lookup l k with
      | some v => some v
      | none => init.get? k := by
  induction l generalizing init with
  | nil => rfl
  | cons p rest ih =>
    obtain ⟨k1, w⟩ := p
    simp only [List.map_cons, List.nodup_cons] at h
    simp only [List.foldl_cons]
    rw [ih h.2]
    by_cases h1 : k1 = k
    · subst h1
      rw [lookup_eq_none rest k1 h.1]
      simp [lookup, get?, set, lookup_store_self]
    · simp only [lookup, if_neg h1]
      cases lookup rest k with
      | some v => rfl
      | none => exact lookup_store_ne init.entries k1 k w h1

theorem keys_set (m : Map V) (k : String) (v : V) :
    (m.set k v).keys = if k ∈ m.keys then m.keys else m.keys ++ [k] :=
  keys_store m.entries k v

theorem mem_keys_iff (m : Map V) (k : String) : k ∈ m.keys ↔ (m.get? k).isSome = true := by
  constructor
  · intro h
    cases hl : lookup m.entries k with
    | none =>
      obtain ⟨p, hp, hk⟩ := List.mem_map.mp h
      have : ∀ (l : List (String × V)), p ∈ l → lookup l p.1 ≠ none := by
        intro l
        induction l with
        | nil => intro hx; cases hx
        | cons q rest ih =>
          intro hx
          obtain ⟨k1, w⟩ := q
          by_cases h1 : k1 = p.1
          · simp [lookup, h1]
          · simp only [lookup, h1, if_false]
            rcases List.mem_cons.mp hx with hx | hx
            · exact absurd (by rw [hx]) h1
            · exact ih hx
      rw [← hk] at hl
      exact absurd hl (this m.entries hp)
    | some v => simp [get?, hl]
  · intro h
    cases hl : lookup m.entries k with
    | none => simp [get?, hl] at h
    | some v => exact mem_keys_of_lookup m.entries k v hl

theorem keys_set_of_mem (m : Map V) (k : String) (v : V) (h : k ∈ m.keys) :
    (m.set k v).keys = m.keys := by
  rw [keys_set, if_pos h]

@[simp] theorem get?_set_self (m : Map V) (k : String) (v : V) : (m.set k v).get? k = some v :=
  lookup_store_self m.entries k v

theorem get?_set_ne (m : Map V) (k k2 : String) (v : V) (h : k ≠ k2) :
    (m.set k v).get? k2 = m.get? k2 :=
  lookup_store_ne m.entries k k2 v h

@[simp] theorem index_set_self [Inhabited V] (m : Map V) (k : String) (v : V) :
    (m.set k v).index k = v := by
  simp [index]

theorem index_set_ne [Inhabited V] (m : Map V) (k k2 : String) (v : V) (h : k ≠ k2) :
    (m.set k v).index k2 = m.index k2 := by
  simp [index, get?_set_ne m k k2 v h]

theorem mem_set (m : Map V) (k : String) (v : V) (p : String × V)
    (hp : p ∈ (m.set k v).entries) : p = (k, v) ∨ p ∈ m.entries :=
  mem_store m.entries k v p hp

end Map

/-! ## Frame lemmas: what each handler leaves alone -/

@[simp] theorem workerInfo.default_eq : (default : workerInfo) = ⟨false, false, none⟩ := rfl

@[simp] theorem workerInfo.stopped_zero : (⟨false, false, none⟩ : workerInfo).stopped = true := rfl

namespace engine

@[simp] theorem tombKill_manifolds (e : engine) (r : error) : (e.tombKill r).manifolds = e.manifolds := rfl
@[simp] theorem tombKill_dependents (e : engine) (r : error) : (e.tombKill r).dependents = e.dependents := rfl
@[simp] theorem tombKill_current (e : engine) (r : error) : (e.tombKill r).current = e.current := rfl
@[simp] theorem tombKill_config (e : engine) (r : error) : (e.tombKill r).config = e.config := rfl
@[simp] theorem tombKill_worstError (e : engine) (r : error) : (e.tombKill r).worstError = e.worstError := rfl
@[simp] theorem tombKill_goroutines (e : engine) (r : error) : (e.tombKill r).goroutines = e.goroutines := rfl
@[simp] theorem tombKill_kills (e : engine) (r : error) : (e.tombKill r).kills = e.kills := rfl

@[simp] theorem tombKill_isDying (e : engine) (r : error) : (e.tombKill r).isDying = true := by
  unfold tombKill isDying Tomb.killed
  split_ifs <;> rfl

theorem requestStart_manifolds (e : engine) (name : String) (delay : Duration) :
    (e.requestStart name delay).manifolds = e.manifolds := by
  unfold requestStart
  dsimp only
  split_ifs <;> rfl

theorem requestStart_dependents (e : engine) (name : String) (delay : Duration) :
    (e.requestStart name delay).dependents = e.dependents := by
  unfold requestStart
  dsimp only
  split_ifs <;> rfl

theorem requestStart_config (e : engine) (name : String) (delay : Duration) :
    (e.requestStart name delay).config = e.config := by
  unfold requestStart
  dsimp only
  split_ifs <;> rfl

theorem requestStart_worstError (e : engine) (name : String) (delay : Duration) :
    (e.requestStart name delay).worstError = e.worstError := by
  unfold requestStart
  dsimp only
  split_ifs <;> rfl

theorem requestStop_manifolds (e : engine) (name : String) :
    (e.requestStop name).manifolds = e.manifolds := by
  unfold requestStop
  dsimp only
  split_ifs
  · rfl
  · cases (e.current.index name).worker <;> rfl

theorem requestStop_dependents (e : engine) (name : String) :
    (e.requestStop name).dependents = e.dependents := by
  unfold requestStop
  dsimp only
  split_ifs
  · rfl
  · cases (e.current.index name).worker <;> rfl

theorem requestStop_config (e : engine) (name : String) :
    (e.requestStop name).config = e.config := by
  unfold requestStop
  dsimp only
  split_ifs
  · rfl
  · cases (e.current.index name).worker <;> rfl

theorem requestStop_worstError (e : engine) (name : String) :
    (e.requestStop name).worstError = e.worstError := by
  unfold requestStop
  dsimp only
  split_ifs
  · rfl
  · cases (e.current.index name).worker <;> rfl

theorem requestStop_tomb (e : engine) (name : String) :
    (e.requestStop name).tomb = e.tomb := by
  unfold requestStop
  dsimp only
  split_ifs
  · rfl
  · cases (e.current.index name).worker <;> rfl

theorem foldl_inv {α : Type} (P : engine → Prop) (f : engine → α → engine)
    (hf : ∀ e a, P e → P (f e a)) (l : List α) (e : engine) (he : P e) : P (l.foldl f e) := by
  induction l generalizing e with
  | nil => exact he
  | cons a rest ih => exact ih (f e a) (hf e a he)

theorem bounceDependents_manifolds (e : engine) (name : String) :
    (e.bounceDependents name).manifolds = e.manifolds := by
  unfold bounceDependents
  refine foldl_inv (fun x => x.manifolds = e.manifolds) _ ?_ _ e rfl
  intro x a hx
  dsimp only
  split_ifs
  · rw [requestStart_manifolds, hx]
  · rw [requestStop_manifolds, hx]

theorem bounceDependents_dependents (e : engine) (name : String) :
    (e.bounceDependents name).dependents = e.dependents := by
  unfold bounceDependents
  refine foldl_inv (fun x => x.dependents = e.dependents) _ ?_ _ e rfl
  intro x a hx
  dsimp only
  split_ifs
  · rw [requestStart_dependents, hx]
  · rw [requestStop_dependents, hx]

theorem bounceDependents_config (e : engine) (name : String) :
    (e.bounceDependents name).config = e.config := by
  unfold bounceDependents
  refine foldl_inv (fun x => x.config = e.config) _ ?_ _ e rfl
  intro x a hx
  dsimp only
  split_ifs
  · rw [requestStart_config, hx]
  · rw [requestStop_config, hx]

theorem bounceDependents_worstError (e : engine) (name : String) :
    (e.bounceDependents name).worstError = e.worstError := by
  unfold bounceDependents
  refine foldl_inv (fun x => x.worstError = e.worstError) _ ?_ _ e rfl
  intro x a hx
  dsimp only
  split_ifs
  · rw [requestStart_worstError, hx]
  · rw [requestStop_worstError, hx]

theorem gotStarted_manifolds (e : engine) (name : String) (w : Worker) :
    (e.gotStarted name w).manifolds = e.manifolds := by
  unfold gotStarted
  dsimp only
  split_ifs
  · rfl
  · rfl
  · rw [bounceDependents_manifolds]

theorem gotStarted_config (e : engine) (name : String) (w : Worker) :
    (e.gotStarted name w).config = e.config := by
  unfold gotStarted
  dsimp only
  split_ifs
  · rfl
  · rfl
  · rw [bounceDependents_config]

theorem gotStarted_worstError (e : engine) (name : String) (w : Worker) :
    (e.gotStarted name w).worstError = e.worstError := by
  unfold gotStarted
  dsimp only
  split_ifs
  · rfl
  · rfl
  · rw [bounceDependents_worstError]

theorem stoppedRestart_manifolds (e : engine) (name : String) (info : workerInfo) (err : error) :
    (e.stoppedRestart name info err).manifolds = e.manifolds := by
  unfold stoppedRestart
  split_ifs
  · rw [requestStart_manifolds]
  · split <;> first | rfl | rw [requestStart_manifolds]

theorem stoppedRestart_config (e : engine) (name : String) (info : workerInfo) (err : error) :
    (e.stoppedRestart name info err).config = e.config := by
  unfold stoppedRestart
  split_ifs
  · rw [requestStart_config]
  · split <;> first | rfl | rw [requestStart_config]

theorem stoppedRestart_worstError (e : engine) (name : String) (info : workerInfo) (err : error) :
    (e.stoppedRestart name info err).worstError = e.worstError := by
  unfold stoppedRestart
  split_ifs
  · rw [requestStart_worstError]
  · split <;> first | rfl | rw [requestStart_worstError]

/-- When the call of `tomb.Kill` returns, it leaves the killed tomb. -/
theorem killTomb_eq_some (e e1 : engine) (r : error) (h : e.killTomb r = some e1) :
    e1 = e.tombKill r := by
  unfold killTomb Tomb.Kill at h
  split_ifs at h
  · cases h
  · exact (Option.some.inj h).symm

/-- The call of `tomb.Kill` returns for every reason but `ErrDying`, and for
every reason on a dying tomb. -/
theorem killTomb_of (e : engine) (r : error)
    (h : r ≠ some Err.ErrDying ∨ e.isDying = true) : e.killTomb r = some (e.tombKill r) := by
  have hc : ¬ (r = some Err.ErrDying ∧ e.tomb.dying = false) := by
    intro hx
    rcases h with h | h
    · exact h hx.1
    · have hd : e.tomb.dying = true := h
      rw [hd] at hx
      cases hx.2
  unfold killTomb Tomb.Kill
  rw [if_neg hc]
  rfl

/-- The call of `tomb.Kill` with `ErrDying` panics on a tomb that is alive. -/
theorem killTomb_errDying (e : engine) (h : e.isDying = false) :
    e.killTomb (some Err.ErrDying) = none := by
  have hd : e.tomb.dying = false := h
  unfold killTomb Tomb.Kill
  rw [if_pos ⟨rfl, hd⟩]
  rfl

/-- The outcomes of `stoppedChecks`: the engine is untouched, or its tomb is
killed, possibly after `worstError` was assigned. -/
theorem stoppedChecks_shape (e e1 : engine) (name : String) (err : error)
    (h : e.stoppedChecks name err = some e1) :
    e1 = e ∨ (∃ r, e1 = e.tombKill r) ∨
      (∃ w r, e1 = { e with worstError := w }.tombKill r) := by
  unfold stoppedChecks at h
  by_cases h1 : (e.current.index name).stopped = true
  · rw [if_pos h1] at h
    exact Or.inr (Or.inl ⟨_, (Option.some.inj h).symm⟩)
  · rw [if_neg h1] at h
    cases hf : e.config.IsFatal with
    | none => rw [hf] at h; cases h
    | some isFatal =>
      rw [hf] at h
      dsimp only at h
      by_cases h2 : isFatal err = true
      · rw [if_pos h2] at h
        by_cases h3 : e.worstError.isNone = true
        · rw [if_pos h3] at h
          cases hm : e.config.MoreImportant with
          | none => rw [hm] at h; cases h
          | some moreImportant =>
            rw [hm] at h
            exact Or.inr (Or.inr ⟨_, _, killTomb_eq_some _ _ _ h⟩)
        · rw [if_neg h3] at h
          exact Or.inr (Or.inl ⟨_, killTomb_eq_some _ _ _ h⟩)
      · rw [if_neg h2] at h
        exact Or.inl (Option.some.inj h).symm

theorem stoppedChecks_manifolds (e e1 : engine) (name : String) (err : error)
    (h : e.stoppedChecks name err = some e1) : e1.manifolds = e.manifolds := by
  rcases stoppedChecks_shape e e1 name err h with rfl | ⟨r, rfl⟩ | ⟨w, r, rfl⟩ <;> rfl

theorem stoppedChecks_config (e e1 : engine) (name : String) (err : error)
    (h : e.stoppedChecks name err = some e1) : e1.config = e.config := by
  rcases stoppedChecks_shape e e1 name err h with rfl | ⟨r, rfl⟩ | ⟨w, r, rfl⟩ <;> rfl

theorem stoppedChecks_current (e e1 : engine) (name : String) (err : error)
    (h : e.stoppedChecks name err = some e1) : e1.current = e.current := by
  rcases stoppedChecks_shape e e1 name err h with rfl | ⟨r, rfl⟩ | ⟨w, r, rfl⟩ <;> rfl

/-- The shape of a successful `gotStopped`. -/
theorem gotStopped_eq_some (e e4 : engine) (name : String) (err : error)
    (h : e.gotStopped name err = some e4) :
    ∃ e1, e.stoppedChecks name err = some e1 ∧
      e4 = (let e2 := { e1 with current := e1.current.set name default }
            if e2.isDying then e2
            else
              let e3 := e2.stoppedRestart name (e.current.index name) err
              if (e.current.index name).worker.isSome then e3.bounceDependents name else e3) := by
  unfold gotStopped at h
  dsimp only at h
  cases hc : e.stoppedChecks name err with
  | none => rw [hc] at h; cases h
  | some e1 =>
    rw [hc] at h
    exact ⟨e1, rfl, by simpa using h.symm⟩

theorem gotStopped_manifolds (e e4 : engine) (name : String) (err : error)
    (h : e.gotStopped name err = some e4) : e4.manifolds = e.manifolds := by
  obtain ⟨e1, h1, rfl⟩ := gotStopped_eq_some e e4 name err h
  dsimp only
  rw [← stoppedChecks_manifolds e e1 name err h1]
  split_ifs <;> first
    | rfl
    | rw [bounceDependents_manifolds, stoppedRestart_manifolds]
    | rw [stoppedRestart_manifolds]

theorem gotStopped_config (e e4 : engine) (name : String) (err : error)
    (h : e.gotStopped name err = some e4) : e4.config = e.config := by
  obtain ⟨e1, h1, rfl⟩ := gotStopped_eq_some e e4 name err h
  dsimp only
  rw [← stoppedChecks_config e e1 name err h1]
  split_ifs <;> first
    | rfl
    | rw [bounceDependents_config, stoppedRestart_config]
    | rw [stoppedRestart_config]

theorem addDependents_manifolds (e : engine) (name : String) (inputs : List String) :
    (e.addDependents name inputs).manifolds = e.manifolds := by
  unfold addDependents
  refine foldl_inv (fun x => x.manifolds = e.manifolds) _ ?_ _ e rfl
  intro x a hx
  exact hx

theorem addDependents_current (e : engine) (name : String) (inputs : List String) :
    (e.addDependents name inputs).current = e.current := by
  unfold addDependents
  refine foldl_inv (fun x => x.current = e.current) _ ?_ _ e rfl
  intro x a hx
  exact hx

theorem addDependents_tomb (e : engine) (name : String) (inputs : List String) :
    (e.addDependents name inputs).tomb = e.tomb := by
  unfold addDependents
  refine foldl_inv (fun x => x.tomb = e.tomb) _ ?_ _ e rfl
  intro x a hx
  exact hx

theorem addDependents_config (e : engine) (name : String) (inputs : List String) :
    (e.addDependents name inputs).config = e.config := by
  unfold addDependents
  refine foldl_inv (fun x => x.config = e.config) _ ?_ _ e rfl
  intro x a hx
  exact hx

theorem addDependents_worstError (e : engine) (name : String) (inputs : List String) :
    (e.addDependents name inputs).worstError = e.worstError := by
  unfold addDependents
  refine foldl_inv (fun x => x.worstError = e.worstError) _ ?_ _ e rfl
  intro x a hx
  exact hx

theorem addDependents_goroutines (e : engine) (name : String) (inputs : List String) :
    (e.addDependents name inputs).goroutines = e.goroutines := by
  unfold addDependents
  refine foldl_inv (fun x => x.goroutines = e.goroutines) _ ?_ _ e rfl
  intro x a hx
  exact hx

theorem addDependents_kills (e : engine) (name : String) (inputs : List String) :
    (e.addDependents name inputs).kills = e.kills := by
  unfold addDependents
  refine foldl_inv (fun x => x.kills = e.kills) _ ?_ _ e rfl
  intro x a hx
  exact hx

@[simp] theorem recordManifold_manifolds (e : engine) (name : String) (m : Manifold) :
    (e.recordManifold name m).manifolds = e.manifolds.set name m := by
  unfold recordManifold
  dsimp only
  rw [addDependents_manifolds]

@[simp] theorem recordManifold_current (e : engine) (name : String) (m : Manifold) :
    (e.recordManifold name m).current = e.current.set name default := by
  unfold recordManifold
  dsimp only
  rw [addDependents_current]

@[simp] theorem recordManifold_tomb (e : engine) (name : String) (m : Manifold) :
    (e.recordManifold name m).tomb = e.tomb := by
  unfold recordManifold
  dsimp only
  rw [addDependents_tomb]

@[simp] theorem recordManifold_config (e : engine) (name : String) (m : Manifold) :
    (e.recordManifold name m).config = e.config := by
  unfold recordManifold
  dsimp only
  rw [addDependents_config]

@[simp] theorem recordManifold_worstError (e : engine) (name : String) (m : Manifold) :
    (e.recordManifold name m).worstError = e.worstError := by
  unfold recordManifold
  dsimp only
  rw [addDependents_worstError]

@[simp] theorem recordManifold_goroutines (e : engine) (name : String) (m : Manifold) :
    (e.recordManifold name m).goroutines = e.goroutines := by
  unfold recordManifold
  dsimp only
  rw [addDependents_goroutines]

@[simp] theorem recordManifold_kills (e : engine) (name : String) (m : Manifold) :
    (e.recordManifold name m).kills = e.kills := by
  unfold recordManifold
  dsimp only
  rw [addDependents_kills]

/-- A start request for an installed, stopped name on a live engine marks the
info as starting and launches one runner. -/
theorem requestStart_ok (e : engine) (name : String) (delay : Duration) (m : Manifold)
    (hm : e.manifolds.get? name = some m) (hs : (e.current.index name).stopped = true)
    (hd : e.isDying = false) :
    e.requestStart name delay =
      { e with
        current := e.current.set name { e.current.index name with starting := true }
        goroutines := e.goroutines ++
          [⟨name, delay, m.Start,
            { e with current := e.current.set name { e.current.index name with starting := true } }.getResourceFunc
              name m.Inputs⟩] } := by
  unfold requestStart
  simp [hm, hs, hd]

/-- The same, as the facts about the launched runner. -/
theorem requestStart_launch (e : engine) (name : String) (delay : Duration) (m : Manifold)
    (hm : e.manifolds.get? name = some m) (hs : (e.current.index name).stopped = true)
    (hd : e.isDying = false) :
    ∃ g : runWorkerCall, g.name = name ∧ g.delay = delay ∧ g.start = m.Start ∧
      (e.requestStart name delay).goroutines = e.goroutines ++ [g] ∧
      (e.requestStart name delay).current =
        e.current.set name { e.current.index name with starting := true } := by
  rw [requestStart_ok e name delay m hm hs hd]
  exact ⟨_, rfl, rfl, rfl, rfl, rfl⟩

end engine

/-! ## How the handlers change `worstError` -/

namespace engine

/-- The checks of `gotStopped` only assign `worstError` on a fatal error of a
live info while no error is recorded yet, and then assign what `MoreImportant`
returns for the error and nil. -/
theorem stoppedChecks_worstError (e e1 : engine) (name : String) (err : error)
    (h : e.stoppedChecks name err = some e1) :
    e1.worstError = e.worstError ∨
      ∃ isFatal moreImportant, (e.current.index name).stopped = false ∧
        e.config.IsFatal = some isFatal ∧ isFatal err = true ∧ e.worstError = none ∧
        e.config.MoreImportant = some moreImportant ∧ e1.worstError = moreImportant err none := by
  unfold stoppedChecks at h
  by_cases h1 : (e.current.index name).stopped = true
  · rw [if_pos h1] at h
    cases h
    exact Or.inl rfl
  · rw [if_neg h1] at h
    cases hf : e.config.IsFatal with
    | none => rw [hf] at h; cases h
    | some isFatal =>
      rw [hf] at h
      dsimp only at h
      by_cases h2 : isFatal err = true
      · rw [if_pos h2] at h
        by_cases h3 : e.worstError.isNone = true
        · rw [if_pos h3] at h
          cases hm : e.config.MoreImportant with
          | none => rw [hm] at h; cases h
          | some moreImportant =>
            rw [hm] at h
            have h5 := killTomb_eq_some _ _ _ h
            subst h5
            have h4 : e.worstError = none := by simpa using h3
            exact Or.inr ⟨isFatal, moreImportant, by simpa using h1, rfl, h2, h4, rfl, by
              simp [tombKill, h4]⟩
        · rw [if_neg h3] at h
          have h5 := killTomb_eq_some _ _ _ h
          subst h5
          exact Or.inl rfl
      · rw [if_neg h2] at h
        cases h
        exact Or.inl rfl

theorem gotStopped_worstError (e e4 : engine) (name : String) (err : error)
    (h : e.gotStopped name err = some e4) :
    e4.worstError = e.worstError ∨
      ∃ isFatal moreImportant, (e.current.index name).stopped = false ∧
        e.config.IsFatal = some isFatal ∧ isFatal err = true ∧ e.worstError = none ∧
        e.config.MoreImportant = some moreImportant ∧ e4.worstError = moreImportant err none := by
  obtain ⟨e1, h1, rfl⟩ := gotStopped_eq_some e e4 name err h
  have hw : ∀ x : engine, x.worstError = e1.worstError →
      (x.worstError = e.worstError ∨
      ∃ isFatal moreImportant, (e.current.index name).stopped = false ∧
        e.config.IsFatal = some isFatal ∧ isFatal err = true ∧ e.worstError = none ∧
        e.config.MoreImportant = some moreImportant ∧ x.worstError = moreImportant err none) := by
    intro x hx
    rw [hx]
    exact stoppedChecks_worstError e e1 name err h1
  apply hw
  dsimp only
  split_ifs <;> first
    | rfl
    | rw [bounceDependents_worstError, stoppedRestart_worstError]
    | rw [stoppedRestart_worstError]

end engine

/-! ## How the handlers change `current` -/

namespace engine

/-- The value `current[name]` is the zero info or the info of an entry. -/
theorem index_current (Q : workerInfo → Prop) (e : engine) (name : String)
    (h0 : Q ⟨false, false, none⟩) (he : ∀ p ∈ e.current.entries, Q p.2) :
    Q (e.current.index name) := by
  unfold Map.index Map.get?
  cases hl : Map.lookup e.current.entries name with
  | none => exact h0
  | some v => exact he _ (Map.lookup_mem _ _ _ hl)

/-- Assigning `current[name]` an info with a property keeps the property of
all entries. -/
theorem set_current (Q : workerInfo → Prop) (m : Map workerInfo) (name : String) (v : workerInfo)
    (hv : Q v) (hm : ∀ p ∈ m.entries, Q p.2) : ∀ p ∈ (m.set name v).entries, Q p.2 := by
  intro p hp
  rcases Map.mem_set m name v p hp with h | h
  · rw [h]; exact hv
  · exact hm p h

/-- The method `requestStart` leaves `current` alone or sets `starting` in a
stopped info. -/
theorem requestStart_current (e : engine) (name : String) (delay : Duration) :
    (e.requestStart name delay).current = e.current ∨
      ((e.current.index name).stopped = true ∧
        (e.requestStart name delay).current =
          e.current.set name { e.current.index name with starting := true }) := by
  unfold requestStart
  dsimp only
  by_cases hs : (e.current.index name).stopped = true
  · cases hf : (e.manifolds.get? name).isNone <;> simp only [hf, tombKill_current, hs] <;>
      split_ifs <;> first
        | exact Or.inl rfl
        | exact Or.inr ⟨rfl, rfl⟩
        | simp_all
  · cases hf : (e.manifolds.get? name).isNone <;> simp [hf, hs]

/-- On a dying engine `requestStart` changes neither `current` nor the
runner trace. -/
theorem requestStart_dying (e : engine) (name : String) (delay : Duration)
    (hd : e.isDying = true) :
    (e.requestStart name delay).current = e.current ∧
      (e.requestStart name delay).goroutines = e.goroutines := by
  unfold requestStart
  dsimp only
  cases hf : (e.manifolds.get? name).isNone <;>
    cases hs : (e.current.index name).stopped <;>
    simp [hf, hs, hd]

/-- The method `requestStop` leaves `current` alone or sets `stopping` in an
info that is neither stopping nor stopped. -/
theorem requestStop_current (e : engine) (name : String) :
    (e.requestStop name).current = e.current ∨
      ((e.current.index name).stopping = false ∧ (e.current.index name).stopped = false ∧
        (e.requestStop name).current =
          e.current.set name { e.current.index name with stopping := true }) := by
  unfold requestStop
  dsimp only
  by_cases h : ((e.current.index name).stopping || (e.current.index name).stopped) = true
  · rw [if_pos h]
    exact Or.inl rfl
  · rw [if_neg h]
    simp only [Bool.or_eq_true, not_or, Bool.not_eq_true] at h
    refine Or.inr ⟨h.1, h.2, ?_⟩
    cases (e.current.index name).worker <;> rfl

end engine

/-! ## Invariants of the loop -/

section runs

variable (Validate : Manifolds → error)

/-- A successful install returns the recorded state after its start request. -/
theorem gotInstall_cases (e : engine) (name : String) (manifold : Manifold) :
    ((e.gotInstall Validate name manifold).1 = e ∧ (e.gotInstall Validate name manifold).2 ≠ none) ∨
      ((e.manifolds.get? name = none ∧ e.checkAcyclic Validate name manifold = none) ∧
        e.gotInstall Validate name manifold =
          ((e.recordManifold name manifold).requestStart name 0, none)) := by
  unfold engine.gotInstall
  cases hn : e.manifolds.get? name with
  | some m => simp
  | none =>
    cases hc : e.checkAcyclic Validate name manifold with
    | some err => simp
    | none => simp

/-- The shape of a turn of the loop. -/
theorem turn_eq_some (s s1 : loopState) (t : ticket) (h : s.turn Validate t = some s1) :
    s.result = none ∧ ∃ s2, s.select Validate t = some s2 ∧
      s1 = (if s2.eng.isDying && s2.eng.allStopped then
              { s2 with
                result := s2.eng.loopResult
                eng := { s2.eng with tomb := (s2.eng.tomb.killed s2.eng.loopResult).Done } }
            else s2) := by
  unfold loopState.turn at h
  split_ifs at h with hr
  refine ⟨by simpa using hr, ?_⟩
  cases hsel : s.select Validate t with
  | none => rw [hsel] at h; cases h
  | some s2 =>
    rw [hsel] at h
    exact ⟨s2, rfl, (Option.some.inj h).symm⟩

/-- A predicate on engine states that every handler preserves is preserved by
every turn of the loop. -/
theorem turn_inv (P : engine → Prop)
    (hTomb : ∀ e t, P e → P { e with tomb := t })
    (hStop : ∀ e name, P e → P (e.requestStop name))
    (hInstall : ∀ e name manifold, P e → P (e.gotInstall Validate name manifold).1)
    (hStarted : ∀ e name w, P e → P (e.gotStarted name w))
    (hStopped : ∀ e name err e1, P e → e.gotStopped name err = some e1 → P e1)
    (s s1 : loopState) (t : ticket) (hs : P s.eng) (h : s.turn Validate t = some s1) :
    P s1.eng := by
  obtain ⟨_, s2, hsel, rfl⟩ := turn_eq_some Validate s s1 t h
  · have h2 : P s2.eng := by
      cases t with
      | dying =>
        simp only [loopState.select] at hsel
        split_ifs at hsel
        cases hsel
        exact engine.foldl_inv P _ (fun e a he => hStop e a he) _ _ hs
      | install name manifold =>
        simp only [loopState.select] at hsel
        cases hsel
        exact hInstall _ _ _ hs
      | started name w =>
        simp only [loopState.select] at hsel
        cases hsel
        exact hStarted _ _ _ hs
      | stopped name err =>
        simp only [loopState.select] at hsel
        cases hg : s.eng.gotStopped name err with
        | none => rw [hg] at hsel; cases hsel
        | some e1 =>
          rw [hg] at hsel
          cases hsel
          exact hStopped _ _ _ _ hs hg
      | report =>
        simp only [loopState.select] at hsel
        cases hsel
        exact hs
    split_ifs
    · exact hTomb _ _ h2
    · exact h2

/-- The same for every step, when the predicate does not depend on the tomb. -/
theorem step_inv (P : engine → Prop)
    (hTomb : ∀ e t, P e → P { e with tomb := t })
    (hStop : ∀ e name, P e → P (e.requestStop name))
    (hInstall : ∀ e name manifold, P e → P (e.gotInstall Validate name manifold).1)
    (hStarted : ∀ e name w, P e → P (e.gotStarted name w))
    (hStopped : ∀ e name err e1, P e → e.gotStopped name err = some e1 → P e1)
    (s s1 : loopState) (a : action) (hs : P s.eng) (h : s.step Validate a = some s1) :
    P s1.eng := by
  cases a with
  | Kill =>
    simp only [loopState.step, Option.some.injEq] at h
    subst h
    exact hTomb _ _ hs
  | recv t => exact turn_inv Validate P hTomb hStop hInstall hStarted hStopped s s1 t hs h

/-- Induction along a run. -/
theorem exec_inv (Q : loopState → Prop) (A : action → Prop)
    (hstep : ∀ s a s1, A a → Q s → s.step Validate a = some s1 → Q s1)
    (acts : List action) (s s1 : loopState) (hA : ∀ a ∈ acts, A a) (hs : Q s)
    (h : s.exec Validate acts = some s1) : Q s1 := by
  induction acts generalizing s with
  | nil =>
    simp only [loopState.exec, Option.some.injEq] at h
    exact h ▸ hs
  | cons a rest ih =>
    simp only [loopState.exec] at h
    cases hst : s.step Validate a with
    | none => rw [hst] at h; cases h
    | some s2 =>
      rw [hst] at h
      exact ih s2 (fun b hb => hA b (List.mem_cons_of_mem _ hb))
        (hstep s a s2 (hA a (List.mem_cons_self _ _)) hs hst) h

/-- A predicate on engine states that holds of every new engine and that every
handler preserves holds in every reachable state. -/
theorem reachable_inv (P : engine → Prop)
    (hNew : ∀ config e, NewEngine config = (some e, none) → P e)
    (hTomb : ∀ e t, P e → P { e with tomb := t })
    (hStop : ∀ e name, P e → P (e.requestStop name))
    (hInstall : ∀ e name manifold, P e → P (e.gotInstall Validate name manifold).1)
    (hStarted : ∀ e name w, P e → P (e.gotStarted name w))
    (hStopped : ∀ e name err e1, P e → e.gotStopped name err = some e1 → P e1)
    (s : loopState) (h : Reachable Validate s) : P s.eng := by
  obtain ⟨config, e, acts, hnew, hrun⟩ := h
  exact exec_inv Validate (fun x => P x.eng) (fun _ => True)
    (fun x a x1 _ hx hst => step_inv Validate P hTomb hStop hInstall hStarted hStopped x x1 a hx hst)
    acts (loopState.start e) s (fun _ _ => trivial) (hNew config e hnew) hrun

/-- What `NewEngine` returns when it returns an engine. -/
theorem newEngine_eq (config : EngineConfig) (e : engine) (h : NewEngine config = (some e, none)) :
    e = ⟨Tomb.alive, config, none, Map.empty, Map.empty, Map.empty, [], []⟩ ∧
      config.Validate = none := by
  unfold NewEngine at h
  cases hv : config.Validate with
  | some err => rw [hv] at h; simp at h
  | none =>
    rw [hv] at h
    simp only [Prod.mk.injEq, Option.some.injEq, and_true] at h
    exact ⟨h.symm, rfl⟩

/-- The graph of a manifold set only depends on what lookups return. -/
theorem hasCycle_congr (ms ms2 : Manifolds) (h : ∀ k, ms.get? k = ms2.get? k)
    (hc : HasCycle ms) : HasCycle ms2 := by
  have he : inputEdge ms = inputEdge ms2 := by
    funext a b
    simp only [inputEdge, h]
  unfold HasCycle at *
  rw [← he]
  exact hc

theorem not_hasCycle_empty : ¬ HasCycle (Map.empty : Manifolds) := by
  rintro ⟨n, hn⟩
  obtain ⟨b, ⟨m, hm, _⟩, _⟩ := Relation.TransGen.head'_iff.mp hn
  simp [Map.get?, Map.empty, Map.lookup] at hm

/-- The set `checkAcyclic` hands to `Validate` has the lookups of the installed
set extended by the candidate, when the installed keys are distinct and the
candidate's name is new. -/
theorem checkAcyclic_candidate (e : engine) (name : String) (manifold : Manifold)
    (hk : (e.manifolds.entries.map Prod.fst).Nodup) (hn : e.manifolds.get? name = none) (k : String) :
    (e.manifolds.set name manifold).get? k =
      (e.manifolds.entries.foldl (fun acc p => acc.set p.1 p.2)
        ((Map.empty : Manifolds).set name manifold)).get? k := by
  rw [Map.get?_foldl_set _ hk]
  by_cases h : name = k
  · subst h
    have hl : Map.lookup e.manifolds.entries name = none := hn
    rw [hl]
    simp
  · rw [Map.get?_set_ne _ _ _ _ h]
    cases hl : Map.lookup e.manifolds.entries k with
    | some v => exact hl
    | none =>
      simp only [Map.get?_set_ne _ _ _ _ h]
      exact hl

/-- With a cycle check that rejects every set with a cycle, every handler keeps
the installed keys distinct and the installed graph acyclic. -/
theorem acyclic_inv (hV : ∀ ms, HasCycle ms → Validate ms ≠ none) (s : loopState)
    (h : Reachable Validate s) :
    (s.eng.manifolds.entries.map Prod.fst).Nodup ∧ ¬ HasCycle s.eng.manifolds := by
  refine reachable_inv Validate
    (fun e => (e.manifolds.entries.map Prod.fst).Nodup ∧ ¬ HasCycle e.manifolds)
    ?_ ?_ ?_ ?_ ?_ ?_ s h
  · intro config e hnew
    rw [(newEngine_eq config e hnew).1]
    exact ⟨List.nodup_nil, not_hasCycle_empty⟩
  · intro e t he
    exact he
  · intro e name he
    rw [engine.requestStop_manifolds]
    exact he
  · intro e name manifold he
    rcases gotInstall_cases Validate e name manifold with ⟨h1, _⟩ | ⟨⟨hn, hc⟩, h1⟩
    · rw [h1]
      exact he
    · rw [h1]
      show ((((e.recordManifold name manifold).requestStart name 0).manifolds.entries.map Prod.fst).Nodup ∧
        ¬ HasCycle ((e.recordManifold name manifold).requestStart name 0).manifolds)
      rw [engine.requestStart_manifolds, engine.recordManifold_manifolds]
      refine ⟨Map.nodup_keys_store _ _ _ he.1, fun hcyc => ?_⟩
      have hcand := hasCycle_congr _ _ (checkAcyclic_candidate e name manifold he.1 hn) hcyc
      exact hV _ hcand hc
  · intro e name w he
    rw [engine.gotStarted_manifolds]
    exact he
  · intro e name err e1 he h1
    rw [engine.gotStopped_manifolds e e1 name err h1]
    exact he

theorem gotInstall_config (e : engine) (name : String) (manifold : Manifold) :
    (e.gotInstall Validate name manifold).1.config = e.config := by
  rcases gotInstall_cases Validate e name manifold with ⟨h1, _⟩ | ⟨_, h1⟩
  · rw [h1]
  · rw [h1]
    show ((e.recordManifold name manifold).requestStart name 0).config = e.config
    rw [engine.requestStart_config, engine.recordManifold_config]

theorem gotInstall_worstError (e : engine) (name : String) (manifold : Manifold) :
    (e.gotInstall Validate name manifold).1.worstError = e.worstError := by
  rcases gotInstall_cases Validate e name manifold with ⟨h1, _⟩ | ⟨_, h1⟩
  · rw [h1]
  · rw [h1]
    show ((e.recordManifold name manifold).requestStart name 0).worstError = e.worstError
    rw [engine.requestStart_worstError, engine.recordManifold_worstError]

/-- The select statement keeps the loop's result and the config, and changes
`worstError` only through `gotStopped`. -/
theorem select_frame (s s2 : loopState) (t : ticket) (h : s.select Validate t = some s2) :
    s2.result = s.result ∧ s2.eng.config = s.eng.config ∧
      (s2.eng.worstError = s.eng.worstError ∨
        ∃ name err e4, t = ticket.stopped name err ∧ s.eng.gotStopped name err = some e4 ∧
          s2.eng.worstError = e4.worstError) := by
  cases t with
  | dying =>
    simp only [loopState.select] at h
    split_ifs at h
    cases h
    refine ⟨rfl, ?_, Or.inl ?_⟩
    · exact engine.foldl_inv (fun x => x.config = s.eng.config) _
        (fun x a hx => (engine.requestStop_config x a).trans hx) _ _ rfl
    · exact engine.foldl_inv (fun x => x.worstError = s.eng.worstError) _
        (fun x a hx => (engine.requestStop_worstError x a).trans hx) _ _ rfl
  | install name manifold =>
    simp only [loopState.select] at h
    cases h
    exact ⟨rfl, gotInstall_config Validate _ _ _, Or.inl (gotInstall_worstError Validate _ _ _)⟩
  | started name w =>
    simp only [loopState.select] at h
    cases h
    exact ⟨rfl, engine.gotStarted_config _ _ _, Or.inl (engine.gotStarted_worstError _ _ _)⟩
  | stopped name err =>
    simp only [loopState.select] at h
    cases hg : s.eng.gotStopped name err with
    | none => rw [hg] at h; cases h
    | some e4 =>
      rw [hg] at h
      cases h
      exact ⟨rfl, engine.gotStopped_config _ _ _ _ hg, Or.inr ⟨name, err, e4, rfl, hg, rfl⟩⟩
  | report =>
    simp only [loopState.select] at h
    cases h
    exact ⟨rfl, rfl, Or.inl rfl⟩

/-- A property of infos that holds of the zero info and survives the three
updates the handlers make (marking a stopped info as starting, marking a live
info as stopping, recording a worker in an info without one that is not
stopping) holds of every entry of `current` in every reachable state. -/
theorem infos_inv (Q : workerInfo → Prop) (h0 : Q ⟨false, false, none⟩)
    (hstart : ∀ i, Q i → i.stopped = true → Q { i with starting := true })
    (hstop : ∀ i, Q i → i.stopping = false → i.stopped = false → Q { i with stopping := true })
    (hrun : ∀ i w, Q i → i.worker = none → i.stopping = false →
      Q { i with starting := false, worker := some w })
    (s : loopState) (h : Reachable Validate s) : ∀ p ∈ s.eng.current.entries, Q p.2 := by
  have hRS : ∀ (e : engine) name delay, (∀ p ∈ e.current.entries, Q p.2) →
      ∀ p ∈ (e.requestStart name delay).current.entries, Q p.2 := by
    intro e name delay he
    rcases engine.requestStart_current e name delay with h1 | ⟨hs, h1⟩
    · rw [h1]; exact he
    · rw [h1]
      exact engine.set_current Q _ _ _ (hstart _ (engine.index_current Q e name h0 he) hs) he
  have hStop : ∀ (e : engine) name, (∀ p ∈ e.current.entries, Q p.2) →
      ∀ p ∈ (e.requestStop name).current.entries, Q p.2 := by
    intro e name he
    rcases engine.requestStop_current e name with h1 | ⟨hs1, hs2, h1⟩
    · rw [h1]; exact he
    · rw [h1]
      exact engine.set_current Q _ _ _ (hstop _ (engine.index_current Q e name h0 he) hs1 hs2) he
  have hB : ∀ (e : engine) name, (∀ p ∈ e.current.entries, Q p.2) →
      ∀ p ∈ (e.bounceDependents name).current.entries, Q p.2 := by
    intro e name he
    unfold engine.bounceDependents
    refine engine.foldl_inv (fun x => ∀ p ∈ x.current.entries, Q p.2) _ ?_ _ e he
    intro x a hx
    dsimp only
    split_ifs
    · exact hRS x a _ hx
    · exact hStop x a hx
  refine reachable_inv Validate (fun e => ∀ p ∈ e.current.entries, Q p.2)
    ?_ ?_ hStop ?_ ?_ ?_ s h
  · intro config e hnew
    rw [(newEngine_eq config e hnew).1]
    intro p hp
    simp [Map.empty] at hp
  · intro e t he
    exact he
  · intro e name manifold he
    rcases gotInstall_cases Validate e name manifold with ⟨h1, _⟩ | ⟨_, h1⟩
    · rw [h1]; exact he
    · rw [h1]
      refine hRS _ _ _ ?_
      rw [engine.recordManifold_current]
      exact engine.set_current Q _ _ _ h0 he
  · intro e name w he
    unfold engine.gotStarted
    dsimp only
    by_cases hw : (e.current.index name).worker.isSome = true
    · rw [if_pos hw]; exact he
    · rw [if_neg hw]
      by_cases hsd : ((e.current.index name).stopping || e.isDying) = true
      · rw [if_pos hsd]; exact he
      · rw [if_neg hsd]
        refine hB _ _ ?_
        simp only [Bool.or_eq_true, not_or, Bool.not_eq_true] at hsd
        refine engine.set_current Q _ _ _
          (hrun _ w (engine.index_current Q e name h0 he) ?_ hsd.1) he
        simpa using hw
  · intro e name err e4 he h4
    obtain ⟨e1, h1, rfl⟩ := engine.gotStopped_eq_some e e4 name err h4
    have hc := engine.stoppedChecks_current e e1 name err h1
    have h2 : ∀ p ∈ (e1.current.set name default).entries, Q p.2 := by
      rw [hc]
      exact engine.set_current Q _ _ _ h0 he
    have h3 : ∀ p ∈ (({ e1 with current := e1.current.set name default } : engine).stoppedRestart
        name (e.current.index name) err).current.entries, Q p.2 := by
      unfold engine.stoppedRestart
      split_ifs
      · exact hRS _ _ _ h2
      · split
        · exact h2
        · exact h2
        · exact hRS _ _ _ h2
    dsimp only
    split_ifs
    · exact h2
    · exact hB _ _ h3
    · exact h3

/-- The strict cycle check rejects every manifold set with a cycle. -/
theorem strictValidate_rejects (ms : Manifolds) (h : HasCycle ms) : strictValidate ms ≠ none := by
  obtain ⟨n, hn⟩ := h
  obtain ⟨b, ⟨m, hm, hb⟩, hrest⟩ := Relation.TransGen.head'_iff.mp hn
  have hbs : (ms.get? b).isSome = true := by
    rcases Relation.ReflTransGen.cases_head hrest with h1 | ⟨c, ⟨m2, hm2, _⟩, _⟩
    · rw [h1, hm]; rfl
    · rw [hm2]; rfl
  have hany : ms.entries.any (fun p => p.2.Inputs.any (fun input => (ms.get? input).isSome)) = true := by
    rw [List.any_eq_true]
    refine ⟨(n, m), Map.lookup_mem _ _ _ hm, ?_⟩
    rw [List.any_eq_true]
    exact ⟨b, hb, hbs⟩
  unfold strictValidate
  rw [if_pos hany]
  simp

/-- The states of the sample runs are reachable. -/
theorem sampleRun_reachable (acts : List action)
    (h : ((loopState.start sampleEngine).exec strictValidate acts).isSome = true) :
    Reachable strictValidate (sampleRun acts) := by
  refine ⟨sampleConfig, sampleEngine, acts, rfl, ?_⟩
  unfold sampleRun
  cases hx : (loopState.start sampleEngine).exec strictValidate acts with
  | none => rw [hx] at h; cases h
  | some s => rfl

/-- Along a run in which no stopped ticket carries a fatal error, the config
stays the one the engine was made with, no error is recorded, and the loop, if
it has returned, returned `ErrDying` and the tomb is dead. -/
theorem no_fatal_inv (config : EngineConfig) (acts : List action) (s s1 : loopState)
    (hnf : ∀ a ∈ acts, ∀ name err isFatal, a = action.recv (ticket.stopped name err) →
      config.IsFatal = some isFatal → isFatal err = false)
    (hs : s.eng.config = config ∧ s.eng.worstError = none ∧
      (s.result.isSome = true → s.result = some Err.ErrDying ∧ s.eng.tomb.dead = true))
    (h : s.exec Validate acts = some s1) :
    s1.eng.config = config ∧ s1.eng.worstError = none ∧
      (s1.result.isSome = true → s1.result = some Err.ErrDying ∧ s1.eng.tomb.dead = true) := by
  refine exec_inv Validate
    (fun x => x.eng.config = config ∧ x.eng.worstError = none ∧
      (x.result.isSome = true → x.result = some Err.ErrDying ∧ x.eng.tomb.dead = true))
    (fun a => ∀ name err isFatal, a = action.recv (ticket.stopped name err) →
      config.IsFatal = some isFatal → isFatal err = false)
    ?_ acts s s1 hnf hs h
  intro x a x1 ha hx hst
  obtain ⟨hc, hw, hr⟩ := hx
  cases a with
  | Kill =>
    simp only [loopState.step, Option.some.injEq] at hst
    subst hst
    refine ⟨hc, hw, fun h1 => ⟨(hr h1).1, ?_⟩⟩
    have hd := (hr h1).2
    simp only [engine.Kill, engine.tombKill, Tomb.killed]
    split_ifs <;> exact hd
  | recv t =>
    obtain ⟨hres, x2, hsel, rfl⟩ := turn_eq_some Validate x x1 t hst
    obtain ⟨h2r, h2c, h2w⟩ := select_frame Validate x x2 t hsel
    have hw2 : x2.eng.worstError = none := by
      rcases h2w with h2w | ⟨name, err, e4, rfl, hg, h2w⟩
      · rw [h2w, hw]
      · rw [h2w]
        rcases engine.gotStopped_worstError x.eng e4 name err hg with h3 | ⟨f, mi, _, hf, hfe, _⟩
        · rw [h3, hw]
        · rw [hc] at hf
          rw [ha name err f rfl hf] at hfe
          cases hfe
    split_ifs
    · refine ⟨h2c.trans hc, hw2, fun _ => ⟨?_, rfl⟩⟩
      simp [engine.loopResult, hw2]
    · refine ⟨h2c.trans hc, hw2, fun h1 => ?_⟩
      rw [h2r, hres] at h1
      cases h1

end runs

/-! ## What a bounce touches -/

namespace engine

theorem requestStart_kills (e : engine) (name : String) (delay : Duration) :
    (e.requestStart name delay).kills = e.kills := by
  unfold requestStart
  dsimp only
  split_ifs <;> rfl

/-- The method `requestStart` launches no runner, or exactly one, for its name
and with its delay. -/
theorem requestStart_goroutines (e : engine) (name : String) (delay : Duration) :
    (e.requestStart name delay).goroutines = e.goroutines ∨
      ∃ g : runWorkerCall, g.name = name ∧ g.delay = delay ∧
        (e.requestStart name delay).goroutines = e.goroutines ++ [g] := by
  unfold requestStart
  dsimp only
  split_ifs <;> first
    | exact Or.inl rfl
    | exact Or.inr ⟨_, rfl, rfl, rfl⟩

theorem requestStop_goroutines (e : engine) (name : String) :
    (e.requestStop name).goroutines = e.goroutines := by
  unfold requestStop
  dsimp only
  split_ifs
  · rfl
  · cases (e.current.index name).worker <;> rfl

/-- The method `requestStop` kills nothing, or exactly the worker recorded for
its name. -/
theorem requestStop_kills (e : engine) (name : String) :
    (e.requestStop name).kills = e.kills ∨
      ∃ w, (e.current.index name).worker = some w ∧ (e.requestStop name).kills = e.kills ++ [w] := by
  unfold requestStop
  dsimp only
  split_ifs
  · exact Or.inl rfl
  · cases hw : (e.current.index name).worker with
    | none => exact Or.inl rfl
    | some w => exact Or.inr ⟨w, rfl, rfl⟩

theorem requestStart_get?_ne (e : engine) (name other : String) (delay : Duration)
    (h : name ≠ other) :
    (e.requestStart name delay).current.get? other = e.current.get? other := by
  rcases requestStart_current e name delay with h1 | ⟨_, h1⟩
  · rw [h1]
  · rw [h1, Map.get?_set_ne _ _ _ _ h]

theorem requestStop_get?_ne (e : engine) (name other : String) (h : name ≠ other) :
    (e.requestStop name).current.get? other = e.current.get? other := by
  rcases requestStop_current e name with h1 | ⟨_, _, h1⟩
  · rw [h1]
  · rw [h1, Map.get?_set_ne _ _ _ _ h]

/-- The method `requestStart` changes no recorded worker and no stop request. -/
theorem requestStart_index (e : engine) (name other : String) (delay : Duration) :
    ((e.requestStart name delay).current.index other).worker = (e.current.index other).worker ∧
      ((e.requestStart name delay).current.index other).stopping =
        (e.current.index other).stopping := by
  rcases requestStart_current e name delay with h1 | ⟨_, h1⟩
  · rw [h1]
    exact ⟨rfl, rfl⟩
  · rw [h1]
    by_cases h : name = other
    · subst h
      simp
    · rw [Map.index_set_ne _ _ _ _ h]
      exact ⟨rfl, rfl⟩

/-- The method `requestStop` changes no recorded worker and no starting flag. -/
theorem requestStop_index (e : engine) (name other : String) :
    ((e.requestStop name).current.index other).worker = (e.current.index other).worker ∧
      ((e.requestStop name).current.index other).starting =
        (e.current.index other).starting := by
  rcases requestStop_current e name with h1 | ⟨_, _, h1⟩
  · rw [h1]
    exact ⟨rfl, rfl⟩
  · rw [h1]
    by_cases h : name = other
    · subst h
      simp
    · rw [Map.index_set_ne _ _ _ _ h]
      exact ⟨rfl, rfl⟩

/-- The loop of `bounceDependents` over a list of dependents: entries of other
names are left alone, no recorded worker changes, the runners launched are
runners of listed names, and the workers killed are workers recorded for
listed names. -/
theorem bounce_loop (l : List String) (e : engine) :
    (∀ other, other ∉ l →
      (l.foldl (fun acc dependentName =>
        if (acc.current.index dependentName).stopped then
          acc.requestStart dependentName acc.config.BounceDelay
        else acc.requestStop dependentName) e).current.get? other = e.current.get? other) ∧
    (∀ other,
      ((l.foldl (fun acc dependentName =>
        if (acc.current.index dependentName).stopped then
          acc.requestStart dependentName acc.config.BounceDelay
        else acc.requestStop dependentName) e).current.index other).worker =
        (e.current.index other).worker) ∧
    (∃ launched,
      (l.foldl (fun acc dependentName =>
        if (acc.current.index dependentName).stopped then
          acc.requestStart dependentName acc.config.BounceDelay
        else acc.requestStop dependentName) e).goroutines = e.goroutines ++ launched ∧
      ∀ g ∈ launched, g.name ∈ l) ∧
    (∃ killed,
      (l.foldl (fun acc dependentName =>
        if (acc.current.index dependentName).stopped then
          acc.requestStart dependentName acc.config.BounceDelay
        else acc.requestStop dependentName) e).kills = e.kills ++ killed ∧
      ∀ w ∈ killed, ∃ d ∈ l, (e.current.index d).worker = some w) := by
  induction l generalizing e with
  | nil =>
    refine ⟨fun _ _ => rfl, fun _ => rfl, ⟨[], by simp, by simp⟩, ⟨[], by simp, by simp⟩⟩
  | cons a rest ih =>
    simp only [List.foldl_cons]
    by_cases hs : (e.current.index a).stopped = true
    · rw [if_pos hs]
      obtain ⟨h1, h2, ⟨launched, h3, h3m⟩, ⟨killed, h4, h4m⟩⟩ :=
        ih (e.requestStart a e.config.BounceDelay)
      refine ⟨?_, ?_, ?_, ?_⟩
      · intro other ho
        simp only [List.mem_cons, not_or] at ho
        rw [h1 other ho.2, requestStart_get?_ne e a other _ (Ne.symm ho.1)]
      · intro other
        rw [h2 other, (requestStart_index e a other _).1]
      · rcases requestStart_goroutines e a e.config.BounceDelay with hg | ⟨g, hgn, _, hg⟩
        · exact ⟨launched, by rw [h3, hg], fun g hg => List.mem_cons_of_mem _ (h3m g hg)⟩
        · refine ⟨g :: launched, by rw [h3, hg]; simp, ?_⟩
          intro x hx
          rcases List.mem_cons.mp hx with hx | hx
          · rw [hx, hgn]; exact List.mem_cons_self _ _
          · exact List.mem_cons_of_mem _ (h3m x hx)
      · refine ⟨killed, by rw [h4, requestStart_kills], ?_⟩
        intro w hw
        obtain ⟨d, hd, hdw⟩ := h4m w hw
        exact ⟨d, List.mem_cons_of_mem _ hd, by rw [← (requestStart_index e a d _).1]; exact hdw⟩
    · rw [if_neg hs]
      obtain ⟨h1, h2, ⟨launched, h3, h3m⟩, ⟨killed, h4, h4m⟩⟩ := ih (e.requestStop a)
      refine ⟨?_, ?_, ?_, ?_⟩
      · intro other ho
        simp only [List.mem_cons, not_or] at ho
        rw [h1 other ho.2, requestStop_get?_ne e a other (Ne.symm ho.1)]
      · intro other
        rw [h2 other, (requestStop_index e a other).1]
      · exact ⟨launched, by rw [h3, requestStop_goroutines],
          fun g hg => List.mem_cons_of_mem _ (h3m g hg)⟩
      · have hrest : ∀ w ∈ killed, ∃ d ∈ a :: rest, (e.current.index d).worker = some w := by
          intro w hw
          obtain ⟨d, hd, hdw⟩ := h4m w hw
          exact ⟨d, List.mem_cons_of_mem _ hd, by rw [← (requestStop_index e a d).1]; exact hdw⟩
        rcases requestStop_kills e a with hk | ⟨w0, hw0, hk⟩
        · exact ⟨killed, by rw [h4, hk], hrest⟩
        · refine ⟨w0 :: killed, by rw [h4, hk]; simp, ?_⟩
          intro w hw
          rcases List.mem_cons.mp hw with hw | hw
          · exact ⟨a, List.mem_cons_self _ _, by rw [hw]; exact hw0⟩
          · exact hrest w hw

/-- The method `bounceDependents` only touches the dependents of its name. -/
theorem bounceDependents_frame (e : engine) (name : String) :
    (∀ other, other ∉ e.dependents.index name →
      (e.bounceDependents name).current.get? other = e.current.get? other) ∧
    (∀ other, ((e.bounceDependents name).current.index other).worker =
      (e.current.index other).worker) ∧
    (∃ launched, (e.bounceDependents name).goroutines = e.goroutines ++ launched ∧
      ∀ g ∈ launched, g.name ∈ e.dependents.index name) ∧
    (∃ killed, (e.bounceDependents name).kills = e.kills ++ killed ∧
      ∀ w ∈ killed, ∃ d ∈ e.dependents.index name, (e.current.index d).worker = some w) :=
  bounce_loop (e.dependents.index name) e

end engine

/-! ## The dependents index -/

namespace engine

theorem stoppedChecks_dependents (e e1 : engine) (name : String) (err : error)
    (h : e.stoppedChecks name err = some e1) : e1.dependents = e.dependents := by
  rcases stoppedChecks_shape e e1 name err h with rfl | ⟨r, rfl⟩ | ⟨w, r, rfl⟩ <;> rfl

theorem stoppedRestart_dependents (e : engine) (name : String) (info : workerInfo) (err : error) :
    (e.stoppedRestart name info err).dependents = e.dependents := by
  unfold stoppedRestart
  split_ifs
  · rw [requestStart_dependents]
  · split <;> first | rfl | rw [requestStart_dependents]

theorem gotStarted_dependents (e : engine) (name : String) (w : Worker) :
    (e.gotStarted name w).dependents = e.dependents := by
  unfold gotStarted
  dsimp only
  split_ifs
  · rfl
  · rfl
  · rw [bounceDependents_dependents]

theorem gotStopped_dependents (e e4 : engine) (name : String) (err : error)
    (h : e.gotStopped name err = some e4) : e4.dependents = e.dependents := by
  obtain ⟨e1, h1, rfl⟩ := gotStopped_eq_some e e4 name err h
  dsimp only
  rw [← stoppedChecks_dependents e e1 name err h1]
  split_ifs <;> first
    | rfl
    | rw [bounceDependents_dependents, stoppedRestart_dependents]
    | rw [stoppedRestart_dependents]

/-- The loop of `gotInstall` appends the name to `dependents[n]` once for each
occurrence of `n` among the inputs. -/
theorem addDependents_index (e : engine) (name : String) (inputs : List String) (n : String) :
    (e.addDependents name inputs).dependents.index n =
      e.dependents.index n ++ List.replicate (inputs.count n) name := by
  unfold addDependents
  induction inputs generalizing e with
  | nil => simp
  | cons a rest ih =>
    simp only [List.foldl_cons]
    rw [ih]
    by_cases h : a = n
    · subst h
      simp [List.replicate_succ]
    · have h2 : ¬ (a == n) = true := by simpa using h
      simp [Map.index_set_ne _ _ _ _ h, List.count_cons, h2]

theorem recordManifold_dependents_index (e : engine) (name : String) (m : Manifold) (n : String) :
    (e.recordManifold name m).dependents.index n =
      e.dependents.index n ++ List.replicate (m.Inputs.count n) name := by
  unfold recordManifold
  dsimp only
  rw [addDependents_index]

end engine

section dependentsIndex

variable (Validate : Manifolds → error)

/-- In every reachable state a name occurs in `dependents[n]` as often as `n`
occurs among the inputs of the manifold installed under that name (never, when
no manifold is installed under it). -/
theorem dependents_inv (s : loopState) (h : Reachable Validate s) :
    ∀ n d, (s.eng.dependents.index n).count d = (s.eng.manifolds.index d).Inputs.count n := by
  refine reachable_inv Validate
    (fun e => ∀ n d, (e.dependents.index n).count d = (e.manifolds.index d).Inputs.count n)
    ?_ ?_ ?_ ?_ ?_ ?_ s h
  · intro config e hnew
    rw [(newEngine_eq config e hnew).1]
    intro n d
    rfl
  · intro e t he
    exact he
  · intro e name he
    show ∀ n d, ((e.requestStop name).dependents.index n).count d =
      ((e.requestStop name).manifolds.index d).Inputs.count n
    rw [engine.requestStop_dependents, engine.requestStop_manifolds]
    exact he
  · intro e name manifold he
    rcases gotInstall_cases Validate e name manifold with ⟨h1, _⟩ | ⟨⟨hn, _⟩, h1⟩
    · rw [h1]
      exact he
    · rw [h1]
      show ∀ n d, (((e.recordManifold name manifold).requestStart name 0).dependents.index n).count d =
        (((e.recordManifold name manifold).requestStart name 0).manifolds.index d).Inputs.count n
      rw [engine.requestStart_dependents, engine.requestStart_manifolds,
        engine.recordManifold_manifolds]
      intro n d
      rw [engine.recordManifold_dependents_index, List.count_append, he n d]
      by_cases hd : name = d
      · subst hd
        have h0 : e.manifolds.index name = default := by
          simp [Map.index, hn]
        rw [h0]
        simp [List.count_replicate]
        rfl
      · rw [Map.index_set_ne _ _ _ _ hd]
        have h2 : ¬ (name == d) = true := by simpa using hd
        simp [List.count_replicate, h2]
  · intro e name w he
    show ∀ n d, ((e.gotStarted name w).dependents.index n).count d =
      ((e.gotStarted name w).manifolds.index d).Inputs.count n
    rw [engine.gotStarted_dependents, engine.gotStarted_manifolds]
    exact he
  · intro e name err e1 he h1
    show ∀ n d, (e1.dependents.index n).count d = (e1.manifolds.index d).Inputs.count n
    rw [engine.gotStopped_dependents e e1 name err h1, engine.gotStopped_manifolds e e1 name err h1]
    exact he

end dependentsIndex

/-! ## The keys of `current` -/

namespace engine

/-- A name whose info is not stopped has an entry in `current`. -/
theorem mem_keys_of_not_stopped (e : engine) (name : String)
    (h : (e.current.index name).stopped = false) : name ∈ e.current.keys := by
  rw [Map.mem_keys_iff]
  cases hg : e.current.get? name with
  | none =>
    have h0 : e.current.index name = default := by simp [Map.index, hg]
    rw [h0] at h
    simp at h
  | some v => rfl

/-- The method `requestStop` creates no entry. -/
theorem requestStop_keys (e : engine) (name : String) :
    (e.requestStop name).current.keys = e.current.keys := by
  rcases requestStop_current e name with h1 | ⟨_, hs, h1⟩
  · rw [h1]
  · rw [h1, Map.keys_set_of_mem _ _ _ (mem_keys_of_not_stopped e name hs)]

/-- The method `requestStart` only writes the entry of an installed name. -/
theorem requestStart_current_found (e : engine) (name : String) (delay : Duration) :
    (e.requestStart name delay).current = e.current ∨
      ((e.manifolds.get? name).isSome = true ∧
        (e.requestStart name delay).current =
          e.current.set name { e.current.index name with starting := true }) := by
  unfold requestStart
  dsimp only
  cases hf : (e.manifolds.get? name).isNone
  · have hf2 : (e.manifolds.get? name).isSome = true := by
      cases hg : e.manifolds.get? name with
      | none => simp [hg] at hf
      | some m => rfl
    simp only [Bool.false_eq_true, if_false]
    split_ifs <;> first
      | exact Or.inl rfl
      | exact Or.inr ⟨hf2, rfl⟩
  · refine Or.inl ?_
    cases hs : (e.current.index name).stopped <;> simp [hs]

/-- When every installed name has an entry, `requestStart` creates no entry. -/
theorem requestStart_keys (e : engine) (name : String) (delay : Duration)
    (hk : e.current.keys = e.manifolds.keys) :
    (e.requestStart name delay).current.keys = e.current.keys := by
  rcases requestStart_current_found e name delay with h1 | ⟨hf, h1⟩
  · rw [h1]
  · rw [h1, Map.keys_set_of_mem]
    rw [hk, Map.mem_keys_iff]
    exact hf

theorem bounceDependents_keys (e : engine) (name : String)
    (hk : e.current.keys = e.manifolds.keys) :
    (e.bounceDependents name).current.keys = e.current.keys := by
  unfold bounceDependents
  have h := foldl_inv
    (fun x => x.current.keys = e.current.keys ∧ x.manifolds = e.manifolds)
    (fun acc dependentName =>
      if (acc.current.index dependentName).stopped then
        acc.requestStart dependentName acc.config.BounceDelay
      else acc.requestStop dependentName)
    (by
      intro x a hx
      dsimp only
      split_ifs
      · rw [requestStart_manifolds, requestStart_keys x a _ (by rw [hx.1, hx.2, hk])]
        exact hx
      · rw [requestStop_manifolds, requestStop_keys]
        exact hx)
    (e.dependents.index name) e ⟨rfl, rfl⟩
  exact h.1

theorem gotStarted_keys (e : engine) (name : String) (w : Worker)
    (hk : e.current.keys = e.manifolds.keys) (hn : (e.manifolds.get? name).isSome = true) :
    (e.gotStarted name w).current.keys = e.current.keys := by
  have hmem : name ∈ e.current.keys := by
    rw [hk, Map.mem_keys_iff]
    exact hn
  unfold gotStarted
  dsimp only
  split_ifs
  · rfl
  · rfl
  · rw [bounceDependents_keys]
    · exact Map.keys_set_of_mem _ _ _ hmem
    · show (e.current.set name _).keys = e.manifolds.keys
      rw [Map.keys_set_of_mem _ _ _ hmem, hk]

theorem stoppedRestart_keys (e : engine) (name : String) (info : workerInfo) (err : error)
    (hk : e.current.keys = e.manifolds.keys) :
    (e.stoppedRestart name info err).current.keys = e.current.keys := by
  unfold stoppedRestart
  split_ifs
  · exact requestStart_keys e name _ hk
  · split
    · rfl
    · rfl
    · exact requestStart_keys e name _ hk

theorem gotStopped_keys (e e4 : engine) (name : String) (err : error)
    (h : e.gotStopped name err = some e4)
    (hk : e.current.keys = e.manifolds.keys) (hn : (e.manifolds.get? name).isSome = true) :
    e4.current.keys = e.current.keys := by
  have hmem : name ∈ e.current.keys := by
    rw [hk, Map.mem_keys_iff]
    exact hn
  obtain ⟨e1, h1, rfl⟩ := gotStopped_eq_some e e4 name err h
  have hc := stoppedChecks_current e e1 name err h1
  have hm := stoppedChecks_manifolds e e1 name err h1
  have h2 : (e1.current.set name default).keys = e.current.keys := by
    rw [hc]
    exact Map.keys_set_of_mem _ _ _ hmem
  have hk2 : ({ e1 with current := e1.current.set name default } : engine).current.keys =
      ({ e1 with current := e1.current.set name default } : engine).manifolds.keys := by
    show (e1.current.set name default).keys = e1.manifolds.keys
    rw [h2, hm, hk]
  have h3 := stoppedRestart_keys ({ e1 with current := e1.current.set name default } : engine)
    name (e.current.index name) err hk2
  dsimp only
  split_ifs
  · exact h2
  · rw [bounceDependents_keys]
    · rw [h3]; exact h2
    · rw [h3, stoppedRestart_manifolds]; exact hk2
  · rw [h3]; exact h2

end engine

section currentKeys

variable (Validate : Manifolds → error)

theorem gotInstall_keys (e : engine) (name : String) (manifold : Manifold)
    (hk : e.current.keys = e.manifolds.keys) :
    (e.gotInstall Validate name manifold).1.current.keys =
      (e.gotInstall Validate name manifold).1.manifolds.keys := by
  rcases gotInstall_cases Validate e name manifold with ⟨h1, _⟩ | ⟨⟨hn, _⟩, h1⟩
  · rw [h1]
    exact hk
  · rw [h1]
    show ((e.recordManifold name manifold).requestStart name 0).current.keys =
      ((e.recordManifold name manifold).requestStart name 0).manifolds.keys
    have hrec : (e.recordManifold name manifold).current.keys =
        (e.recordManifold name manifold).manifolds.keys := by
      rw [engine.recordManifold_current, engine.recordManifold_manifolds, Map.keys_set,
        Map.keys_set, hk]
    rw [engine.requestStart_keys _ _ _ hrec, engine.requestStart_manifolds]
    exact hrec

/-- A step that delivers its ticket for an installed name keeps the keys of
`current` equal to the keys of `manifolds`, and distinct. -/
theorem step_keys (s s1 : loopState) (a : action) (hg : a.forInstalled s.eng = true)
    (hk : s.eng.current.keys = s.eng.manifolds.keys ∧ s.eng.current.keys.Nodup)
    (h : s.step Validate a = some s1) :
    s1.eng.current.keys = s1.eng.manifolds.keys ∧ s1.eng.current.keys.Nodup := by
  cases a with
  | Kill =>
    simp only [loopState.step, Option.some.injEq] at h
    subst h
    exact hk
  | recv t =>
    obtain ⟨_, s2, hsel, rfl⟩ := turn_eq_some Validate s s1 t h
    have h2 : s2.eng.current.keys = s2.eng.manifolds.keys ∧ s2.eng.current.keys.Nodup := by
      cases t with
      | dying =>
        simp only [loopState.select] at hsel
        split_ifs at hsel
        cases hsel
        exact engine.foldl_inv
          (fun x => x.current.keys = x.manifolds.keys ∧ x.current.keys.Nodup) _
          (fun x n hx => by
            show (x.requestStop n).current.keys = (x.requestStop n).manifolds.keys ∧
              (x.requestStop n).current.keys.Nodup
            rw [engine.requestStop_keys, engine.requestStop_manifolds]
            exact hx) _ _ hk
      | install name manifold =>
        simp only [loopState.select] at hsel
        cases hsel
        have hkeys := gotInstall_keys Validate s.eng name manifold hk.1
        refine ⟨hkeys, ?_⟩
        show (s.eng.gotInstall Validate name manifold).1.current.keys.Nodup
        rcases gotInstall_cases Validate s.eng name manifold with ⟨h1, _⟩ | ⟨_, h1⟩
        · rw [h1]
          exact hk.2
        · rw [hkeys, h1]
          show ((s.eng.recordManifold name manifold).requestStart name 0).manifolds.keys.Nodup
          rw [engine.requestStart_manifolds, engine.recordManifold_manifolds]
          have hmn : s.eng.manifolds.keys.Nodup := by rw [← hk.1]; exact hk.2
          exact Map.nodup_keys_store _ _ _ hmn
      | started name w =>
        simp only [loopState.select] at hsel
        cases hsel
        have hn : (s.eng.manifolds.get? name).isSome = true := hg
        show (s.eng.gotStarted name w).current.keys = (s.eng.gotStarted name w).manifolds.keys ∧
          (s.eng.gotStarted name w).current.keys.Nodup
        rw [engine.gotStarted_keys s.eng name w hk.1 hn, engine.gotStarted_manifolds]
        exact hk
      | stopped name err =>
        simp only [loopState.select] at hsel
        cases hgs : s.eng.gotStopped name err with
        | none => rw [hgs] at hsel; cases hsel
        | some e4 =>
          rw [hgs] at hsel
          cases hsel
          have hn : (s.eng.manifolds.get? name).isSome = true := hg
          show e4.current.keys = e4.manifolds.keys ∧ e4.current.keys.Nodup
          rw [engine.gotStopped_keys s.eng e4 name err hgs hk.1 hn,
            engine.gotStopped_manifolds s.eng e4 name err hgs]
          exact hk
      | report =>
        simp only [loopState.select] at hsel
        cases hsel
        exact hk
    split_ifs
    · exact h2
    · exact h2

/-- The same along a run. -/
theorem exec_keys (acts : List action) (s s1 : loopState)
    (hg : s.installedOnly Validate acts = true)
    (hk : s.eng.current.keys = s.eng.manifolds.keys ∧ s.eng.current.keys.Nodup)
    (h : s.exec Validate acts = some s1) :
    s1.eng.current.keys = s1.eng.manifolds.keys ∧ s1.eng.current.keys.Nodup := by
  induction acts generalizing s with
  | nil =>
    simp only [loopState.exec, Option.some.injEq] at h
    exact h ▸ hk
  | cons a rest ih =>
    simp only [loopState.exec] at h
    simp only [loopState.installedOnly, Bool.and_eq_true] at hg
    cases hst : s.step Validate a with
    | none => rw [hst] at h; cases h
    | some s2 =>
      rw [hst] at h hg
      exact ih s2 hg.2 (step_keys Validate s s2 a hg.1 hk hst) h

end currentKeys

/-! ## A name among its own dependents -/

namespace engine

/-- After `requestStop`, the info of the name is stopping or holds no worker. -/
theorem requestStop_self (e : engine) (name : String) :
    ((e.requestStop name).current.index name).worker.isSome = true →
      ((e.requestStop name).current.index name).stopping = true := by
  rcases requestStop_current e name with h1 | ⟨_, _, h1⟩
  · rw [h1]
    have hc : ((e.current.index name).stopping || (e.current.index name).stopped) = true := by
      by_contra hc
      have h2 : e.requestStop name =
          { (match (e.current.index name).worker with
              | some w => { e with kills := e.kills ++ [w] }
              | none => e) with
            current := (match (e.current.index name).worker with
              | some w => { e with kills := e.kills ++ [w] }
              | none => e).current.set name { e.current.index name with stopping := true } } := by
        unfold requestStop
        simp only [hc, Bool.false_eq_true, if_false]
      have h3 : (e.requestStop name).current.index name =
          { e.current.index name with stopping := true } := by
        rw [h2]
        cases (e.current.index name).worker <;> simp
      have h4 : (e.current.index name).stopping = true := by
        have := congrArg workerInfo.stopping h3
        rw [h1] at this
        exact this
      simp [h4] at hc
    intro hw
    rcases Bool.or_eq_true _ _ ▸ hc with h2 | h2
    · exact h2
    · unfold workerInfo.stopped at h2
      simp [hw] at h2
  · rw [h1]
    intro _
    simp

/-- A stop request is not withdrawn by `requestStop`. -/
theorem requestStop_stopping (e : engine) (name other : String)
    (h : (e.current.index other).stopping = true) :
    ((e.requestStop name).current.index other).stopping = true := by
  rcases requestStop_current e name with h1 | ⟨_, _, h1⟩
  · rw [h1]; exact h
  · rw [h1]
    by_cases hn : name = other
    · subst hn
      simp
    · rw [Map.index_set_ne _ _ _ _ hn]
      exact h

/-- The loop of `bounceDependents` leaves every info that holds a worker
stopping if it was so before or if its name is in the list. -/
theorem bounce_loop_stopping (l : List String) (e : engine) (n : String)
    (h : ((e.current.index n).worker.isSome = true → (e.current.index n).stopping = true) ∨ n ∈ l) :
    ((l.foldl (fun acc dependentName =>
        if (acc.current.index dependentName).stopped then
          acc.requestStart dependentName acc.config.BounceDelay
        else acc.requestStop dependentName) e).current.index n).worker.isSome = true →
      ((l.foldl (fun acc dependentName =>
        if (acc.current.index dependentName).stopped then
          acc.requestStart dependentName acc.config.BounceDelay
        else acc.requestStop dependentName) e).current.index n).stopping = true := by
  induction l generalizing e with
  | nil =>
    rcases h with h | h
    · exact h
    · cases h
  | cons a rest ih =>
    simp only [List.foldl_cons]
    apply ih
    by_cases hs : (e.current.index a).stopped = true
    · rw [if_pos hs]
      have hidx := requestStart_index e a n e.config.BounceDelay
      rcases h with h | h
      · left
        rw [hidx.1, hidx.2]
        exact h
      · rcases List.mem_cons.mp h with h | h
        · left
          subst h
          rw [hidx.1]
          intro hw
          unfold workerInfo.stopped at hs
          simp [hw] at hs
        · exact Or.inr h
    · rw [if_neg hs]
      rcases h with h | h
      · left
        intro hw
        rw [(requestStop_index e a n).1] at hw
        exact requestStop_stopping e a n (h hw)
      · rcases List.mem_cons.mp h with h | h
        · left
          subst h
          exact requestStop_self e n
        · exact Or.inr h

theorem bounceDependents_stopping (e : engine) (name n : String)
    (h : ((e.current.index n).worker.isSome = true → (e.current.index n).stopping = true) ∨
      n ∈ e.dependents.index name) :
    ((e.bounceDependents name).current.index n).worker.isSome = true →
      ((e.bounceDependents name).current.index n).stopping = true :=
  bounce_loop_stopping (e.dependents.index name) e n h

theorem requestStart_stopping (e : engine) (name n : String) (delay : Duration)
    (h : (e.current.index n).worker.isSome = true → (e.current.index n).stopping = true) :
    ((e.requestStart name delay).current.index n).worker.isSome = true →
      ((e.requestStart name delay).current.index n).stopping = true := by
  have hidx := requestStart_index e name n delay
  rw [hidx.1, hidx.2]
  exact h

theorem stoppedRestart_stopping (e : engine) (name n : String) (info : workerInfo) (err : error)
    (h : (e.current.index n).worker.isSome = true → (e.current.index n).stopping = true) :
    ((e.stoppedRestart name info err).current.index n).worker.isSome = true →
      ((e.stoppedRestart name info err).current.index n).stopping = true := by
  unfold stoppedRestart
  split_ifs
  · exact requestStart_stopping e name n _ h
  · split
    · exact h
    · exact h
    · exact requestStart_stopping e name n _ h

end engine

section selfDependents

variable (Validate : Manifolds → error)

/-- In every reachable state, an info that holds a worker and belongs to a name
that is one of its own dependents is stopping: the bounce that follows the
recording of the worker has already asked it to stop. -/
theorem self_dependent_inv (s : loopState) (h : Reachable Validate s) :
    ∀ n, n ∈ s.eng.dependents.index n → (s.eng.current.index n).worker.isSome = true →
      (s.eng.current.index n).stopping = true := by
  refine reachable_inv Validate
    (fun e => ∀ n, n ∈ e.dependents.index n → (e.current.index n).worker.isSome = true →
      (e.current.index n).stopping = true)
    ?_ ?_ ?_ ?_ ?_ ?_ s h
  · intro config e hnew
    rw [(newEngine_eq config e hnew).1]
    intro n hn
    cases hn
  · intro e t he
    exact he
  · intro e name he n hn hw
    rw [engine.requestStop_dependents] at hn
    rw [(engine.requestStop_index e name n).1] at hw
    exact engine.requestStop_stopping e name n (he n hn hw)
  · intro e name manifold he
    rcases gotInstall_cases Validate e name manifold with ⟨h1, _⟩ | ⟨_, h1⟩
    · rw [h1]
      exact he
    · rw [h1]
      intro n hn
      show (((e.recordManifold name manifold).requestStart name 0).current.index n).worker.isSome = true →
        (((e.recordManifold name manifold).requestStart name 0).current.index n).stopping = true
      apply engine.requestStart_stopping
      have hn2 : n ∈ e.dependents.index n ++ List.replicate (manifold.Inputs.count n) name := by
        have hn1 : n ∈ ((e.recordManifold name manifold).requestStart name 0).dependents.index n := hn
        rw [engine.requestStart_dependents, engine.recordManifold_dependents_index] at hn1
        exact hn1
      rw [engine.recordManifold_current]
      by_cases hname : name = n
      · subst hname
        simp
      · rw [Map.index_set_ne _ _ _ _ hname]
        rcases List.mem_append.mp hn2 with h2 | h2
        · exact he n h2
        · exact absurd (List.eq_of_mem_replicate h2).symm hname
  · intro e name w he n hn
    rw [engine.gotStarted_dependents] at hn
    unfold engine.gotStarted
    dsimp only
    split_ifs
    · exact he n hn
    · exact he n hn
    · apply engine.bounceDependents_stopping
      by_cases hname : name = n
      · subst hname
        exact Or.inr hn
      · left
        show ((e.current.set name _).index n).worker.isSome = true →
          ((e.current.set name _).index n).stopping = true
        rw [Map.index_set_ne _ _ _ _ hname]
        exact he n hn
  · intro e name err e4 he h4 n hn
    rw [engine.gotStopped_dependents e e4 name err h4] at hn
    obtain ⟨e1, h1, rfl⟩ := engine.gotStopped_eq_some e e4 name err h4
    have hc := engine.stoppedChecks_current e e1 name err h1
    have h2 : (({ e1 with current := e1.current.set name default } : engine).current.index n).worker.isSome = true →
        (({ e1 with current := e1.current.set name default } : engine).current.index n).stopping = true := by
      show ((e1.current.set name default).index n).worker.isSome = true →
        ((e1.current.set name default).index n).stopping = true
      rw [hc]
      by_cases hname : name = n
      · subst hname
        simp
      · rw [Map.index_set_ne _ _ _ _ hname]
        exact he n hn
    have h3 := engine.stoppedRestart_stopping
      ({ e1 with current := e1.current.set name default } : engine) name n (e.current.index name) err h2
    dsimp only
    split_ifs
    · exact h2
    · exact engine.bounceDependents_stopping _ name n (Or.inl h3)
    · exact h3

end selfDependents

/-! ## A stopped ticket on a live engine -/

namespace engine

/-- On a live engine, for a name whose info is not stopped and an error that is
not fatal, `gotStopped` resets the info, takes the restart decision and then
bounces the dependents if the info held a worker. -/
theorem gotStopped_live (e : engine) (name : String) (err : error) (isFatal : error → Bool)
    (hd : e.isDying = false) (hns : (e.current.index name).stopped = false)
    (hf : e.config.IsFatal = some isFatal) (hnf : isFatal err = false) :
    e.gotStopped name err =
      some (if (e.current.index name).worker.isSome then
          (({ e with current := e.current.set name default } : engine).stoppedRestart name
            (e.current.index name) err).bounceDependents name
        else
          ({ e with current := e.current.set name default } : engine).stoppedRestart name
            (e.current.index name) err) := by
  have hc : e.stoppedChecks name err = some e := by
    unfold stoppedChecks
    simp [hns, hf, hnf]
  have hd2 : ({ e with current := e.current.set name default } : engine).isDying = false := hd
  unfold gotStopped
  simp only [hc, Option.map_some', hd2, Bool.false_eq_true, if_false]

end engine

/-! ## The resource accessor -/

/-- A map filled from a list of names holds, for a listed name, the value
computed for it, and is otherwise as it was. -/
theorem Map.index_foldl_set {V : Type} [Inhabited V] (f : String → V) (l : List String)
    (init : Map V) (k : String) :
    (l.foldl (fun acc name => acc.set name (f name)) init).index k =
      if k ∈ l then f k else init.index k := by
  induction l generalizing init with
  | nil => simp
  | cons a rest ih =>
    simp only [List.foldl_cons]
    rw [ih]
    by_cases hk : k ∈ rest
    · simp [hk]
    · by_cases ha : a = k
      · subst ha
        simp [hk]
      · have hka : ¬ k = a := fun h => ha h.symm
        simp [hk, hka, Map.index_set_ne _ _ _ _ ha]

namespace engine

/-- The snapshot holds the recorded worker for a listed name and nothing for
any other name. -/
theorem snapshotWorkers_index (e : engine) (inputs : List String) (r : String) :
    (e.snapshotWorkers inputs).index r =
      if r ∈ inputs then (e.current.index r).worker else none := by
  unfold snapshotWorkers
  rw [Map.index_foldl_set (fun resourceName => (e.current.index resourceName).worker)]
  rfl

/-- The snapshot holds the output func of the installed manifold for a listed
name and nothing for any other name. -/
theorem snapshotOutputs_index (e : engine) (inputs : List String) (r : String) :
    (e.snapshotOutputs inputs).index r =
      if r ∈ inputs then (e.manifolds.index r).Output else none := by
  unfold snapshotOutputs
  rw [Map.index_foldl_set (fun resourceName => (e.manifolds.index resourceName).Output)]
  rfl

/-- The closure `getResourceFunc` returns, in terms of the two snapshot maps. -/
theorem getResourceFunc_eq (e : engine) (name : String) (inputs : List String)
    (r : String) (out : Option Out) :
    e.getResourceFunc name inputs r out =
      match (e.snapshotWorkers inputs).index r with
      | none => some Err.ErrMissing
      | some input =>
        match (e.snapshotOutputs inputs).index r with
        | none => if out.isSome then some Err.ErrMissing else none
        | some convert => convert input out := rfl

end engine

/-! ## A stopped ticket on a dying engine -/

/-- A config that passes `Validate` has both funcs. -/
theorem EngineConfig.funcs_of_valid (config : EngineConfig) (h : config.Validate = none) :
    ∃ isFatal moreImportant, config.IsFatal = some isFatal ∧
      config.MoreImportant = some moreImportant := by
  unfold EngineConfig.Validate at h
  cases hf : config.IsFatal with
  | none => simp [hf] at h
  | some isFatal =>
    cases hm : config.MoreImportant with
    | none => simp [hf, hm] at h
    | some moreImportant => exact ⟨isFatal, moreImportant, rfl, rfl⟩

namespace engine

/-- With a valid config the checks of `gotStopped` do not panic, unless the
error is `ErrDying` and the tomb is still alive. -/
theorem stoppedChecks_some (e : engine) (name : String) (err : error)
    (hv : e.config.Validate = none) (hk : err ≠ some Err.ErrDying ∨ e.isDying = true) :
    ∃ e1, e.stoppedChecks name err = some e1 := by
  obtain ⟨isFatal, moreImportant, hf, hm⟩ := e.config.funcs_of_valid hv
  unfold stoppedChecks
  rw [hf, hm]
  dsimp only
  split_ifs
  · exact ⟨_, rfl⟩
  · exact ⟨_, killTomb_of _ _ hk⟩
  · exact ⟨_, killTomb_of _ _ hk⟩
  · exact ⟨_, rfl⟩

theorem stoppedChecks_goroutines (e e1 : engine) (name : String) (err : error)
    (h : e.stoppedChecks name err = some e1) : e1.goroutines = e.goroutines := by
  rcases stoppedChecks_shape e e1 name err h with rfl | ⟨r, rfl⟩ | ⟨w, r, rfl⟩ <;> rfl

theorem stoppedChecks_kills (e e1 : engine) (name : String) (err : error)
    (h : e.stoppedChecks name err = some e1) : e1.kills = e.kills := by
  rcases stoppedChecks_shape e e1 name err h with rfl | ⟨r, rfl⟩ | ⟨w, r, rfl⟩ <;> rfl

/-- The checks of `gotStopped` leave a dying engine dying. -/
theorem stoppedChecks_dying (e e1 : engine) (name : String) (err : error)
    (h : e.stoppedChecks name err = some e1) (hd : e.isDying = true) : e1.isDying = true := by
  rcases stoppedChecks_shape e e1 name err h with rfl | ⟨r, rfl⟩ | ⟨w, r, rfl⟩
  · exact hd
  · exact tombKill_isDying e r
  · exact tombKill_isDying _ r

/-- On a dying engine `gotStopped` resets the info of the name after its checks
and does nothing else. -/
theorem gotStopped_dying (e e4 : engine) (name : String) (err : error)
    (h : e.gotStopped name err = some e4) (hd : e.isDying = true) :
    e4.isDying = true ∧ e4.current = e.current.set name default ∧
      e4.goroutines = e.goroutines ∧ e4.kills = e.kills := by
  obtain ⟨e1, h1, rfl⟩ := gotStopped_eq_some e e4 name err h
  have hd1 := stoppedChecks_dying e e1 name err h1 hd
  have hd2 : ({ e1 with current := e1.current.set name default } : engine).isDying = true := hd1
  dsimp only
  rw [if_pos hd2]
  exact ⟨hd1, by rw [← stoppedChecks_current e e1 name err h1],
    stoppedChecks_goroutines e e1 name err h1, stoppedChecks_kills e e1 name err h1⟩

end engine

/-! ## The restart decision -/

namespace engine

theorem stoppedRestart_kills (e : engine) (name : String) (info : workerInfo) (err : error) :
    (e.stoppedRestart name info err).kills = e.kills := by
  unfold stoppedRestart
  split_ifs
  · rw [requestStart_kills]
  · split <;> first | rfl | rw [requestStart_kills]

theorem stoppedRestart_get?_ne (e : engine) (name other : String) (info : workerInfo)
    (err : error) (h : name ≠ other) :
    (e.stoppedRestart name info err).current.get? other = e.current.get? other := by
  unfold stoppedRestart
  split_ifs
  · exact requestStart_get?_ne e name other _ h
  · split
    · rfl
    · rfl
    · exact requestStart_get?_ne e name other _ h

end engine

/-! ## A stopped ticket for a stopped info -/

/-- For a stopped info `gotStopped` kills the tomb and resets the entry. -/
theorem engine.gotStopped_stopped (e : engine) (name : String) (err : error)
    (hs : (e.current.index name).stopped = true) :
    ∃ e1, (e.gotStopped name err = some e1 ∧ e1.dependents = e.dependents ∧
      e1.kills = e.kills ∧ e1.current = e.current.set name default) ∧ e1.isDying = true ∧
      e1.goroutines = e.goroutines ∧ e1.manifolds = e.manifolds := by
  have heq : e.gotStopped name err =
      some { e.tombKill (some (Err.New ("fatal: unexpected " ++ quoted name ++ " manifold worker stop"))) with
        current := e.current.set name default } := by
    unfold engine.gotStopped engine.stoppedChecks
    simp only [hs, if_true, Option.map_some']
    have hd : ({ e.tombKill (some (Err.New ("fatal: unexpected " ++ quoted name ++ " manifold worker stop"))) with
        current := e.current.set name default } : engine).isDying = true :=
      engine.tombKill_isDying e _
    simp only [engine.tombKill_current]
    rw [if_pos hd]
  exact ⟨_, ⟨heq, rfl, rfl, rfl⟩, engine.tombKill_isDying e _, rfl, rfl⟩

/-! ## A dying engine starts nothing -/

namespace engine

theorem requestStart_isDying (e : engine) (name : String) (delay : Duration)
    (hd : e.isDying = true) : (e.requestStart name delay).isDying = true := by
  unfold requestStart
  dsimp only
  cases hf : (e.manifolds.get? name).isNone <;>
    cases hs : (e.current.index name).stopped <;>
    simp [hf, hs, hd]

/-- On a dying engine a start request for an installed name with a stopped info
returns the state it was given. -/
theorem requestStart_dying_noop (e : engine) (name : String) (delay : Duration) (m : Manifold)
    (hd : e.isDying = true) (hm : e.manifolds.get? name = some m)
    (hs : (e.current.index name).stopped = true) : e.requestStart name delay = e := by
  unfold requestStart
  simp [hm, hs, hd]

/-- The method `requestStop` changes no info from stopped to not stopped or back. -/
theorem requestStop_stopped (e : engine) (name other : String) :
    ((e.requestStop name).current.index other).stopped = (e.current.index other).stopped := by
  obtain ⟨h1, h2⟩ := requestStop_index e name other
  unfold workerInfo.stopped
  rw [h1, h2]

end engine

section dyingRuns

variable (Validate : Manifolds → error)

/-- A step taken on a dying engine leaves it dying, launches no runner and
leaves every stopped info stopped. -/
theorem step_dying (s s1 : loopState) (a : action) (hd : s.eng.isDying = true)
    (h : s.step Validate a = some s1) :
    s1.eng.isDying = true ∧ s1.eng.goroutines = s.eng.goroutines ∧
      ∀ n, (s.eng.current.index n).stopped = true → (s1.eng.current.index n).stopped = true := by
  cases a with
  | Kill =>
    simp only [loopState.step, Option.some.injEq] at h
    subst h
    exact ⟨engine.tombKill_isDying _ _, rfl, fun n hn => hn⟩
  | recv t =>
    obtain ⟨_, s2, hsel, rfl⟩ := turn_eq_some Validate s s1 t h
    have h2 : s2.eng.isDying = true ∧ s2.eng.goroutines = s.eng.goroutines ∧
        ∀ n, (s.eng.current.index n).stopped = true → (s2.eng.current.index n).stopped = true := by
      cases t with
      | dying =>
        simp only [loopState.select] at hsel
        split_ifs at hsel
        cases hsel
        exact engine.foldl_inv
          (fun x => x.isDying = true ∧ x.goroutines = s.eng.goroutines ∧
            ∀ n, (s.eng.current.index n).stopped = true → (x.current.index n).stopped = true) _
          (fun x k hx =>
            ⟨by
              have ht := engine.requestStop_tomb x k
              unfold engine.isDying
              rw [ht]
              exact hx.1,
             by rw [engine.requestStop_goroutines]; exact hx.2.1,
             fun n hn => by rw [engine.requestStop_stopped]; exact hx.2.2 n hn⟩) _ _
          ⟨hd, rfl, fun n hn => hn⟩
      | install name manifold =>
        simp only [loopState.select] at hsel
        cases hsel
        rcases gotInstall_cases Validate s.eng name manifold with ⟨h1, _⟩ | ⟨_, h1⟩
        · show (s.eng.gotInstall Validate name manifold).1.isDying = true ∧
            (s.eng.gotInstall Validate name manifold).1.goroutines = s.eng.goroutines ∧
            ∀ n, (s.eng.current.index n).stopped = true →
              ((s.eng.gotInstall Validate name manifold).1.current.index n).stopped = true
          rw [h1]
          exact ⟨hd, rfl, fun n hn => hn⟩
        · show (s.eng.gotInstall Validate name manifold).1.isDying = true ∧
            (s.eng.gotInstall Validate name manifold).1.goroutines = s.eng.goroutines ∧
            ∀ n, (s.eng.current.index n).stopped = true →
              ((s.eng.gotInstall Validate name manifold).1.current.index n).stopped = true
          rw [h1]
          have hd2 : (s.eng.recordManifold name manifold).isDying = true := by
            simpa [engine.isDying] using hd
          obtain ⟨hc, hg⟩ := engine.requestStart_dying (s.eng.recordManifold name manifold) name 0 hd2
          refine ⟨engine.requestStart_isDying _ _ _ hd2, ?_, ?_⟩
          · show ((s.eng.recordManifold name manifold).requestStart name 0).goroutines = s.eng.goroutines
            rw [hg, engine.recordManifold_goroutines]
          · intro n hn
            show (((s.eng.recordManifold name manifold).requestStart name 0).current.index n).stopped = true
            rw [hc, engine.recordManifold_current]
            by_cases hname : name = n
            · subst hname
              simp
            · rw [Map.index_set_ne _ _ _ _ hname]
              exact hn
      | started name w =>
        simp only [loopState.select] at hsel
        cases hsel
        show (s.eng.gotStarted name w).isDying = true ∧
          (s.eng.gotStarted name w).goroutines = s.eng.goroutines ∧
          ∀ n, (s.eng.current.index n).stopped = true →
            ((s.eng.gotStarted name w).current.index n).stopped = true
        unfold engine.gotStarted
        dsimp only
        by_cases hw : (s.eng.current.index name).worker.isSome = true
        · rw [if_pos hw]
          exact ⟨engine.tombKill_isDying _ _, rfl, fun n hn => hn⟩
        · rw [if_neg hw]
          have hor : ((s.eng.current.index name).stopping || s.eng.isDying) = true := by
            simp [hd]
          rw [if_pos hor]
          exact ⟨hd, rfl, fun n hn => hn⟩
      | stopped name err =>
        simp only [loopState.select] at hsel
        cases hgs : s.eng.gotStopped name err with
        | none => rw [hgs] at hsel; cases hsel
        | some e4 =>
          rw [hgs] at hsel
          cases hsel
          obtain ⟨h1, h2, h3, _⟩ := engine.gotStopped_dying s.eng e4 name err hgs hd
          refine ⟨h1, h3, ?_⟩
          intro n hn
          show (e4.current.index n).stopped = true
          rw [h2]
          by_cases hname : name = n
          · subst hname
            simp
          · rw [Map.index_set_ne _ _ _ _ hname]
            exact hn
      | report =>
        simp only [loopState.select] at hsel
        cases hsel
        exact ⟨hd, rfl, fun n hn => hn⟩
    split_ifs
    · exact ⟨rfl, h2.2.1, h2.2.2⟩
    · exact h2

/-- Along a run from a dying engine no runner is ever launched. -/
theorem exec_dying (acts : List action) (s s1 : loopState) (hd : s.eng.isDying = true)
    (h : s.exec Validate acts = some s1) :
    s1.eng.isDying = true ∧ s1.eng.goroutines = s.eng.goroutines :=
  exec_inv Validate (fun x => x.eng.isDying = true ∧ x.eng.goroutines = s.eng.goroutines)
    (fun _ => True)
    (fun x a x1 _ hx hst =>
      ⟨(step_dying Validate x x1 a hx.1 hst).1,
        (step_dying Validate x x1 a hx.1 hst).2.1.trans hx.2⟩)
    acts s s1 (fun _ _ => trivial) ⟨hd, rfl⟩ h

end dyingRuns

/-! ## Workers that were asked to stop -/

namespace engine

/-- The two outcomes of `requestStop`. -/
theorem requestStop_shape (e : engine) (name : String) :
    (((e.current.index name).stopping = true ∨ (e.current.index name).stopped = true) ∧
      e.requestStop name = e) ∨
    ((e.current.index name).stopping = false ∧ (e.current.index name).stopped = false ∧
      e.requestStop name =
        { e with
          current := e.current.set name
            ⟨(e.current.index name).starting, true, (e.current.index name).worker⟩
          kills := e.kills ++ (e.current.index name).worker.toList }) := by
  by_cases hc : ((e.current.index name).stopping || (e.current.index name).stopped) = true
  · left
    refine ⟨by simpa using hc, ?_⟩
    unfold requestStop
    simp only [hc, if_true]
  · right
    simp only [Bool.or_eq_true, not_or, Bool.not_eq_true] at hc
    refine ⟨hc.1, hc.2, ?_⟩
    unfold requestStop
    simp only [hc.1, hc.2, Bool.or_self, Bool.false_eq_true, if_false]
    cases (e.current.index name).worker with
    | none => simp
    | some w => rfl

/-- After `requestStop` every worker of a stopping info has been killed, if
that was so before. -/
theorem requestStop_asked (e : engine) (name : String)
    (h : ∀ n w, (e.current.index n).stopping = true → (e.current.index n).worker = some w →
      w ∈ e.kills) :
    ∀ n w, ((e.requestStop name).current.index n).stopping = true →
      ((e.requestStop name).current.index n).worker = some w → w ∈ (e.requestStop name).kills := by
  rcases requestStop_shape e name with ⟨_, h1⟩ | ⟨_, _, h1⟩
  · rw [h1]
    exact h
  · rw [h1]
    intro n w hs hw
    show w ∈ e.kills ++ (e.current.index name).worker.toList
    by_cases hn : name = n
    · subst hn
      have hw2 : (e.current.index name).worker = some w := by
        simpa using hw
      rw [hw2]
      simp
    · have hidx : ((e.current.set name
          ⟨(e.current.index name).starting, true, (e.current.index name).worker⟩).index n) =
          e.current.index n := Map.index_set_ne _ _ _ _ hn
      have hs2 : (e.current.index n).stopping = true := by rw [← hidx]; exact hs
      have hw2 : (e.current.index n).worker = some w := by rw [← hidx]; exact hw
      exact List.mem_append_left _ (h n w hs2 hw2)

theorem requestStart_asked (e : engine) (name : String) (delay : Duration)
    (h : ∀ n w, (e.current.index n).stopping = true → (e.current.index n).worker = some w →
      w ∈ e.kills) :
    ∀ n w, ((e.requestStart name delay).current.index n).stopping = true →
      ((e.requestStart name delay).current.index n).worker = some w →
      w ∈ (e.requestStart name delay).kills := by
  intro n w hs hw
  obtain ⟨h1, h2⟩ := requestStart_index e name n delay
  rw [requestStart_kills]
  rw [h1] at hw
  rw [h2] at hs
  exact h n w hs hw

theorem bounceDependents_asked (e : engine) (name : String)
    (h : ∀ n w, (e.current.index n).stopping = true → (e.current.index n).worker = some w →
      w ∈ e.kills) :
    ∀ n w, ((e.bounceDependents name).current.index n).stopping = true →
      ((e.bounceDependents name).current.index n).worker = some w →
      w ∈ (e.bounceDependents name).kills := by
  unfold bounceDependents
  refine foldl_inv
    (fun x => ∀ n w, (x.current.index n).stopping = true → (x.current.index n).worker = some w →
      w ∈ x.kills) _ ?_ _ e h
  intro x a hx
  dsimp only
  split_ifs
  · exact requestStart_asked x a _ hx
  · exact requestStop_asked x a hx

theorem stoppedRestart_asked (e : engine) (name : String) (info : workerInfo) (err : error)
    (h : ∀ n w, (e.current.index n).stopping = true → (e.current.index n).worker = some w →
      w ∈ e.kills) :
    ∀ n w, ((e.stoppedRestart name info err).current.index n).stopping = true →
      ((e.stoppedRestart name info err).current.index n).worker = some w →
      w ∈ (e.stoppedRestart name info err).kills := by
  unfold stoppedRestart
  split_ifs
  · exact requestStart_asked e name _ h
  · split
    · exact h
    · exact h
    · exact requestStart_asked e name _ h

end engine

section askedToStop

variable (Validate : Manifolds → error)

/-- In every reachable state the worker of every stopping info has had its
`Kill` method called. -/
theorem asked_to_stop_inv (s : loopState) (h : Reachable Validate s) :
    ∀ n w, (s.eng.current.index n).stopping = true → (s.eng.current.index n).worker = some w →
      w ∈ s.eng.kills := by
  refine reachable_inv Validate
    (fun e => ∀ n w, (e.current.index n).stopping = true → (e.current.index n).worker = some w →
      w ∈ e.kills)
    ?_ ?_ ?_ ?_ ?_ ?_ s h
  · intro config e hnew
    rw [(newEngine_eq config e hnew).1]
    intro n w hs
    cases hs
  · intro e t he
    exact he
  · intro e name he
    exact engine.requestStop_asked e name he
  · intro e name manifold he
    rcases gotInstall_cases Validate e name manifold with ⟨h1, _⟩ | ⟨_, h1⟩
    · rw [h1]
      exact he
    · rw [h1]
      apply engine.requestStart_asked
      intro n w hs hw
      rw [engine.recordManifold_kills]
      rw [engine.recordManifold_current] at hs hw
      by_cases hname : name = n
      · subst hname
        simp at hs
      · rw [Map.index_set_ne _ _ _ _ hname] at hs hw
        exact he n w hs hw
  · intro e name w0 he
    unfold engine.gotStarted
    dsimp only
    by_cases hw : (e.current.index name).worker.isSome = true
    · rw [if_pos hw]
      intro n w hs hw2
      exact List.mem_append_left _ (he n w hs hw2)
    · rw [if_neg hw]
      by_cases hsd : ((e.current.index name).stopping || e.isDying) = true
      · rw [if_pos hsd]
        intro n w hs hw2
        exact List.mem_append_left _ (he n w hs hw2)
      · rw [if_neg hsd]
        simp only [Bool.or_eq_true, not_or, Bool.not_eq_true] at hsd
        apply engine.bounceDependents_asked
        intro n w hs hw2
        by_cases hname : name = n
        · subst hname
          have hs2 : (e.current.index name).stopping = true := by simpa using hs
          rw [hsd.1] at hs2
          cases hs2
        · have hidx : ((e.current.set name
              { e.current.index name with starting := false, worker := some w0 }).index n) =
              e.current.index n := Map.index_set_ne _ _ _ _ hname
          have hs3 : (e.current.index n).stopping = true := by rw [← hidx]; exact hs
          have hw3 : (e.current.index n).worker = some w := by rw [← hidx]; exact hw2
          exact he n w hs3 hw3
  · intro e name err e4 he h4
    obtain ⟨e1, h1, rfl⟩ := engine.gotStopped_eq_some e e4 name err h4
    have hc := engine.stoppedChecks_current e e1 name err h1
    have hk := engine.stoppedChecks_kills e e1 name err h1
    have h2 : ∀ n w,
        (({ e1 with current := e1.current.set name default } : engine).current.index n).stopping = true →
        (({ e1 with current := e1.current.set name default } : engine).current.index n).worker = some w →
        w ∈ ({ e1 with current := e1.current.set name default } : engine).kills := by
      intro n w hs hw
      show w ∈ e1.kills
      rw [hk]
      have hs1 : ((e1.current.set name default).index n).stopping = true := hs
      have hw1 : ((e1.current.set name default).index n).worker = some w := hw
      rw [hc] at hs1 hw1
      by_cases hname : name = n
      · subst hname
        simp at hs1
      · rw [Map.index_set_ne _ _ _ _ hname] at hs1 hw1
        exact he n w hs1 hw1
    have h3 := engine.stoppedRestart_asked
      ({ e1 with current := e1.current.set name default } : engine) name (e.current.index name) err h2
    dsimp only
    split_ifs
    · exact h2
    · exact engine.bounceDependents_asked _ name h3
    · exact h3

end askedToStop

/-! ## The effect of a bounce -/

theorem Map.index_congr {V : Type} [Inhabited V] (m1 m2 : Map V) (k : String)
    (h : m1.get? k = m2.get? k) : m1.index k = m2.index k := by
  unfold Map.index
  rw [h]

namespace engine

theorem bounceLoop_eq_foldl (l : List String) (e : engine) :
    e.bounceLoop l =
      l.foldl (fun acc dependentName =>
        if (acc.current.index dependentName).stopped then
          acc.requestStart dependentName acc.config.BounceDelay
        else acc.requestStop dependentName) e := by
  induction l generalizing e with
  | nil => rfl
  | cons a rest ih =>
    simp only [bounceLoop, List.foldl_cons]
    rw [ih]
    rfl

theorem bounceDependents_eq_loop (e : engine) (name : String) :
    e.bounceDependents name = e.bounceLoop (e.dependents.index name) := by
  rw [bounceLoop_eq_foldl]
  rfl

theorem requestStart_starting (e : engine) (name n : String) (delay : Duration)
    (h : (e.current.index n).starting = true) :
    ((e.requestStart name delay).current.index n).starting = true := by
  rcases requestStart_current e name delay with h1 | ⟨_, h1⟩
  · rw [h1]; exact h
  · rw [h1]
    by_cases hn : name = n
    · subst hn
      simp
    · rw [Map.index_set_ne _ _ _ _ hn]
      exact h

/-- One turn of the loop withdraws no flag and no kill. -/
theorem bounceStep_mono (e : engine) (a n : String) :
    ((e.current.index n).starting = true → ((e.bounceStep a).current.index n).starting = true) ∧
    ((e.current.index n).stopping = true → ((e.bounceStep a).current.index n).stopping = true) ∧
    (∀ w ∈ e.kills, w ∈ (e.bounceStep a).kills) := by
  unfold bounceStep
  split_ifs
  · refine ⟨requestStart_starting e a n _, ?_, ?_⟩
    · intro h
      rw [(requestStart_index e a n _).2]
      exact h
    · intro w hw
      rw [requestStart_kills]
      exact hw
  · refine ⟨?_, requestStop_stopping e a n, ?_⟩
    · intro h
      rw [(requestStop_index e a n).2]
      exact h
    · intro w hw
      rcases requestStop_kills e a with hk | ⟨w0, _, hk⟩
      · rw [hk]; exact hw
      · rw [hk]; exact List.mem_append_left _ hw

theorem bounceLoop_mono (l : List String) (e : engine) (n : String) :
    ((e.current.index n).starting = true → ((e.bounceLoop l).current.index n).starting = true) ∧
    ((e.current.index n).stopping = true → ((e.bounceLoop l).current.index n).stopping = true) ∧
    (∀ w ∈ e.kills, w ∈ (e.bounceLoop l).kills) := by
  induction l generalizing e with
  | nil => exact ⟨fun h => h, fun h => h, fun w hw => hw⟩
  | cons a rest ih =>
    simp only [bounceLoop]
    obtain ⟨s1, s2, s3⟩ := bounceStep_mono e a n
    obtain ⟨i1, i2, i3⟩ := ih (e.bounceStep a)
    exact ⟨fun h => i1 (s1 h), fun h => i2 (s2 h), fun w hw => i3 w (s3 w hw)⟩

/-- One turn of the loop leaves the info of every other name alone, and the
manifolds and the config. -/
theorem bounceStep_frame (e : engine) (a : String) :
    (∀ other, a ≠ other → (e.bounceStep a).current.index other = e.current.index other) ∧
      (e.bounceStep a).manifolds = e.manifolds ∧ (e.bounceStep a).config = e.config := by
  unfold bounceStep
  split_ifs
  · exact ⟨fun other ho => Map.index_congr _ _ _ (requestStart_get?_ne e a other _ ho),
      requestStart_manifolds _ _ _, requestStart_config _ _ _⟩
  · exact ⟨fun other ho => Map.index_congr _ _ _ (requestStop_get?_ne e a other ho),
      requestStop_manifolds _ _, requestStop_config _ _⟩

/-- One turn of the loop keeps the workers of stopping infos killed. -/
theorem bounceStep_asked (e : engine) (a : String)
    (h : ∀ n w, (e.current.index n).stopping = true → (e.current.index n).worker = some w →
      w ∈ e.kills) :
    ∀ n w, ((e.bounceStep a).current.index n).stopping = true →
      ((e.bounceStep a).current.index n).worker = some w → w ∈ (e.bounceStep a).kills := by
  unfold bounceStep
  split_ifs
  · exact requestStart_asked e a _ h
  · exact requestStop_asked e a h

/-- One turn of the loop on a live engine, for an installed dependent: a
stopped dependent is started with the bounce delay, any other is stopping
afterwards and its worker has been killed. -/
theorem bounceStep_effect (e : engine) (a : String) (hd : e.isDying = false)
    (hinst : (e.manifolds.get? a).isSome = true)
    (hK : ∀ n w, (e.current.index n).stopping = true → (e.current.index n).worker = some w →
      w ∈ e.kills) :
    (e.bounceStep a).isDying = false ∧
    ((e.current.index a).stopped = true →
      ((e.bounceStep a).current.index a).starting = true ∧
      ∃ g : runWorkerCall, g.name = a ∧ g.delay = e.config.BounceDelay ∧
        (e.bounceStep a).goroutines = e.goroutines ++ [g]) ∧
    ((e.current.index a).stopped = false →
      ((e.bounceStep a).current.index a).stopping = true ∧
      (e.bounceStep a).goroutines = e.goroutines ∧
      ∀ w, (e.current.index a).worker = some w → w ∈ (e.bounceStep a).kills) := by
  by_cases hs : (e.current.index a).stopped = true
  · obtain ⟨m, hm⟩ := Option.isSome_iff_exists.mp hinst
    have hstep : e.bounceStep a = e.requestStart a e.config.BounceDelay := by
      unfold bounceStep
      rw [if_pos hs]
    obtain ⟨g, hg1, hg2, _, hg4, hg5⟩ := requestStart_launch e a e.config.BounceDelay m hm hs hd
    refine ⟨?_, ?_, ?_⟩
    · rw [hstep, requestStart_ok e a _ m hm hs hd]
      exact hd
    · intro _
      rw [hstep]
      refine ⟨?_, g, hg1, hg2, hg4⟩
      rw [hg5]
      simp
    · intro hns
      rw [hs] at hns
      cases hns
  · have hns : (e.current.index a).stopped = false := by simpa using hs
    have hstep : e.bounceStep a = e.requestStop a := by
      unfold bounceStep
      rw [if_neg hs]
    refine ⟨?_, ?_, ?_⟩
    · rw [hstep]
      unfold isDying
      rw [requestStop_tomb]
      exact hd
    · intro h
      exact absurd h hs
    · intro _
      rw [hstep]
      rcases requestStop_shape e a with ⟨hor, h1⟩ | ⟨_, _, h1⟩
      · have hstop : (e.current.index a).stopping = true := by
          rcases hor with h | h
          · exact h
          · exact absurd h hs
        rw [h1]
        exact ⟨hstop, rfl, fun w hw => hK a w hstop hw⟩
      · rw [h1]
        refine ⟨by simp, rfl, ?_⟩
        intro w hw
        show w ∈ e.kills ++ (e.current.index a).worker.toList
        rw [hw]
        simp

/-- The loop of `bounceDependents` on a live engine, over installed dependents:
the engine stays live; the runners launched are runners of listed names with
the bounce delay; every listed name whose info was stopped is starting and has
a runner among those launched; every other listed name is stopping and its
worker, if it had one, has been killed. -/
theorem bounceLoop_effect (l : List String) (e : engine) (hd : e.isDying = false)
    (hinst : ∀ d ∈ l, (e.manifolds.get? d).isSome = true)
    (hK : ∀ n w, (e.current.index n).stopping = true → (e.current.index n).worker = some w →
      w ∈ e.kills) :
    (e.bounceLoop l).isDying = false ∧
    ∃ launched, (e.bounceLoop l).goroutines = e.goroutines ++ launched ∧
      (∀ g ∈ launched, g.name ∈ l ∧ g.delay = e.config.BounceDelay) ∧
      ∀ d ∈ l,
        ((e.current.index d).stopped = true →
          ((e.bounceLoop l).current.index d).starting = true ∧ ∃ g ∈ launched, g.name = d) ∧
        ((e.current.index d).stopped = false →
          ((e.bounceLoop l).current.index d).stopping = true ∧
          ∀ w, (e.current.index d).worker = some w → w ∈ (e.bounceLoop l).kills) := by
  induction l generalizing e with
  | nil =>
    exact ⟨hd, [], by simp [bounceLoop], by simp, by simp⟩
  | cons a rest ih =>
    simp only [bounceLoop]
    obtain ⟨f1, f2, f3⟩ := bounceStep_frame e a
    obtain ⟨s1, s2, s3⟩ := bounceStep_effect e a hd (hinst a (List.mem_cons_self _ _)) hK
    have hinst1 : ∀ d ∈ rest, ((e.bounceStep a).manifolds.get? d).isSome = true := by
      intro d hd1
      rw [f2]
      exact hinst d (List.mem_cons_of_mem _ hd1)
    obtain ⟨i1, launched, i2, i3, i4⟩ :=
      ih (e.bounceStep a) s1 hinst1 (bounceStep_asked e a hK)
    rw [f3] at i3
    have hgo : ∃ first, (e.bounceStep a).goroutines = e.goroutines ++ first ∧
        (∀ g ∈ first, g.name = a ∧ g.delay = e.config.BounceDelay) ∧
        ((e.current.index a).stopped = true → ∃ g ∈ first, g.name = a) := by
      by_cases hs : (e.current.index a).stopped = true
      · obtain ⟨_, g, hg1, hg2, hg3⟩ := s2 hs
        refine ⟨[g], hg3, ?_, fun _ => ⟨g, List.mem_singleton_self g, hg1⟩⟩
        intro x hx
        rw [List.mem_singleton.mp hx]
        exact ⟨hg1, hg2⟩
      · have hns : (e.current.index a).stopped = false := by simpa using hs
        exact ⟨[], by rw [(s3 hns).2.1]; simp, by simp, fun h => absurd h hs⟩
    obtain ⟨first, hfirst, hfirstm, hfirsts⟩ := hgo
    refine ⟨i1, first ++ launched, by rw [i2, hfirst, List.append_assoc], ?_, ?_⟩
    · intro g hg
      rcases List.mem_append.mp hg with hg | hg
      · exact ⟨by rw [(hfirstm g hg).1]; exact List.mem_cons_self _ _, (hfirstm g hg).2⟩
      · exact ⟨List.mem_cons_of_mem _ (i3 g hg).1, (i3 g hg).2⟩
    · intro d hdl
      obtain ⟨m1, m2, m3⟩ := bounceLoop_mono rest (e.bounceStep a) d
      by_cases hda : d = a
      · subst hda
        constructor
        · intro hs
          obtain ⟨g, hg, hgn⟩ := hfirsts hs
          exact ⟨m1 (s2 hs).1, g, List.mem_append_left _ hg, hgn⟩
        · intro hns
          exact ⟨m2 (s3 hns).1, fun w hw => m3 w ((s3 hns).2.2 w hw)⟩
      · have hdr : d ∈ rest := by
          rcases List.mem_cons.mp hdl with h | h
          · exact absurd h hda
          · exact h
        have hidx := f1 d (fun h => hda h.symm)
        obtain ⟨j1, j2⟩ := i4 d hdr
        rw [hidx] at j1 j2
        constructor
        · intro hs
          obtain ⟨k1, g, hg, hgn⟩ := j1 hs
          exact ⟨k1, g, List.mem_append_right _ hg, hgn⟩
        · exact j2

end engine

/-! ## Dependents are installed -/

section dependentsInstalled

variable (Validate : Manifolds → error)

/-- In every reachable state every name in a list of dependents is installed. -/
theorem dependents_installed (s : loopState) (h : Reachable Validate s) (n d : String)
    (hd : d ∈ s.eng.dependents.index n) : (s.eng.manifolds.get? d).isSome = true := by
  have hc := dependents_inv Validate s h n d
  have hpos : 0 < (s.eng.dependents.index n).count d := List.count_pos_iff.mpr hd
  rw [hc] at hpos
  cases hg : s.eng.manifolds.get? d with
  | some m => rfl
  | none =>
    have h0 : s.eng.manifolds.index d = default := by simp [Map.index, hg]
    rw [h0] at hpos
    have h1 : (default : Manifold).Inputs = [] := rfl
    rw [h1] at hpos
    simp at hpos

end dependentsInstalled

/-! ## The recorded error is kept -/

namespace engine

/-- The error `gotStopped` leaves recorded is the one its checks leave. -/
theorem gotStopped_map_worstError (e : engine) (name : String) (err : error) :
    (e.gotStopped name err).map engine.worstError =
      (e.stoppedChecks name err).map engine.worstError := by
  cases hc : e.stoppedChecks name err with
  | none =>
    unfold gotStopped
    rw [hc]
    rfl
  | some e1 =>
    have hsome : ∃ e4, e.gotStopped name err = some e4 := by
      unfold gotStopped
      rw [hc]
      exact ⟨_, rfl⟩
    obtain ⟨e4, h4⟩ := hsome
    obtain ⟨e1b, h1, rfl⟩ := gotStopped_eq_some e e4 name err h4
    rw [hc] at h1
    cases h1
    rw [h4]
    simp only [Option.map_some', Option.some.injEq]
    split_ifs <;> first
      | rfl
      | rw [bounceDependents_worstError, stoppedRestart_worstError]
      | rw [stoppedRestart_worstError]

/-- The checks of `gotStopped` only use the values of `MoreImportant` whose
second argument is nil. -/
theorem stoppedChecks_withMoreImportant (e : engine) (name : String) (err : error)
    (mi1 mi2 : error → error → error) (h : ∀ x, mi1 x none = mi2 x none) :
    ((e.withMoreImportant mi1).stoppedChecks name err).map engine.worstError =
      ((e.withMoreImportant mi2).stoppedChecks name err).map engine.worstError := by
  unfold stoppedChecks withMoreImportant
  dsimp only
  by_cases hs : (e.current.index name).stopped = true
  · simp only [hs, if_true]
    rfl
  · simp only [hs, Bool.false_eq_true, if_false]
    cases e.config.IsFatal with
    | none => rfl
    | some isFatal =>
      dsimp only
      by_cases hf : isFatal err = true
      · simp only [hf, if_true]
        by_cases hw : e.worstError.isNone = true
        · simp only [hw, if_true]
          have hn : e.worstError = none := by simpa using hw
          simp only [killTomb, Tomb.Kill]
          split_ifs <;> simp [hn, h err]
        · simp only [hw, Bool.false_eq_true, if_false]
          simp only [killTomb, Tomb.Kill]
          split_ifs <;> rfl
      · simp only [hf, Bool.false_eq_true, if_false]
        rfl

end engine

section stickyError

variable (Validate : Manifolds → error)

/-- A step does not change a recorded error. -/
theorem step_worstError (s s1 : loopState) (a : action) (x : Err)
    (hx : s.eng.worstError = some x) (h : s.step Validate a = some s1) :
    s1.eng.worstError = some x := by
  cases a with
  | Kill =>
    simp only [loopState.step, Option.some.injEq] at h
    subst h
    exact hx
  | recv t =>
    obtain ⟨_, s2, hsel, rfl⟩ := turn_eq_some Validate s s1 t h
    have h2 : s2.eng.worstError = some x := by
      obtain ⟨_, _, hw⟩ := select_frame Validate s s2 t hsel
      rcases hw with hw | ⟨name, err, e4, _, hg, hw⟩
      · rw [hw, hx]
      · rw [hw]
        rcases engine.gotStopped_worstError s.eng e4 name err hg with h3 | ⟨_, _, _, _, _, hn, _⟩
        · rw [h3, hx]
        · rw [hx] at hn
          cases hn
    split_ifs
    · exact h2
    · exact h2

end stickyError

/-! ## A fatal error -/

namespace engine

/-- What `gotStopped` does with the first fatal error of a worker that was not
stopped: the error is ranked against nil and recorded, the tomb is killed, the
info is reset, and the call returns at the dying check. -/
theorem gotStopped_fatal (e : engine) (name : String) (err : error)
    (isFatal : error → Bool) (moreImportant : error → error → error)
    (hw : e.worstError = none) (hns : (e.current.index name).stopped = false)
    (hf : e.config.IsFatal = some isFatal) (hfe : isFatal err = true)
    (hm : e.config.MoreImportant = some moreImportant)
    (hk : err ≠ some Err.ErrDying ∨ e.isDying = true) :
    e.gotStopped name err =
      some { e with
        worstError := moreImportant err none
        tomb := e.tomb.killed err
        current := e.current.set name default } := by
  have hc : e.stoppedChecks name err =
      some ({ e with worstError := moreImportant err none }.tombKill err) := by
    unfold stoppedChecks
    simp only [hns, hf, hfe, hw, hm, Bool.false_eq_true, if_false, if_true, Option.isNone_none]
    exact killTomb_of _ _ hk
  unfold gotStopped
  rw [hc]
  simp only [Option.map_some', Option.some.injEq]
  have hd : ({ ({ e with worstError := moreImportant err none } : engine).tombKill err with
      current := (({ e with worstError := moreImportant err none } : engine).tombKill
        err).current.set name default } : engine).isDying = true :=
    tombKill_isDying _ err
  rw [if_pos hd]
  rfl

end engine

/-! ## The launched runners are kept -/

namespace engine

/-- The closure `getResourceFunc` returns only depends on the workers and the
output funcs of the listed inputs. -/
theorem getResourceFunc_congr (e1 e2 : engine) (name1 name2 : String) (inputs : List String)
    (h : ∀ r ∈ inputs, (e1.current.index r).worker = (e2.current.index r).worker ∧
      (e1.manifolds.index r).Output = (e2.manifolds.index r).Output) :
    e1.getResourceFunc name1 inputs = e2.getResourceFunc name2 inputs := by
  funext r out
  rw [getResourceFunc_eq, getResourceFunc_eq, snapshotWorkers_index, snapshotWorkers_index,
    snapshotOutputs_index, snapshotOutputs_index]
  by_cases hr : r ∈ inputs
  · rw [if_pos hr, if_pos hr, if_pos hr, if_pos hr, (h r hr).1, (h r hr).2]
  · rw [if_neg hr, if_neg hr, if_neg hr, if_neg hr]

theorem requestStart_launched (e : engine) (name : String) (delay : Duration) :
    ∃ launched, (e.requestStart name delay).goroutines = e.goroutines ++ launched := by
  rcases requestStart_goroutines e name delay with h | ⟨g, _, _, h⟩
  · exact ⟨[], by rw [h, List.append_nil]⟩
  · exact ⟨[g], h⟩

theorem stoppedRestart_launched (e : engine) (name : String) (info : workerInfo) (err : error) :
    ∃ launched, (e.stoppedRestart name info err).goroutines = e.goroutines ++ launched := by
  unfold stoppedRestart
  split_ifs
  · exact requestStart_launched e name _
  · split
    · exact ⟨[], (List.append_nil _).symm⟩
    · exact ⟨[], (List.append_nil _).symm⟩
    · exact requestStart_launched e name _

theorem bounceDependents_launched (e : engine) (name : String) :
    ∃ launched, (e.bounceDependents name).goroutines = e.goroutines ++ launched := by
  obtain ⟨_, _, ⟨launched, h, _⟩, _⟩ := bounceDependents_frame e name
  exact ⟨launched, h⟩

theorem gotStarted_launched (e : engine) (name : String) (w : Worker) :
    ∃ launched, (e.gotStarted name w).goroutines = e.goroutines ++ launched := by
  unfold gotStarted
  dsimp only
  split_ifs
  · exact ⟨[], (List.append_nil _).symm⟩
  · exact ⟨[], (List.append_nil _).symm⟩
  · exact bounceDependents_launched _ name

theorem gotStopped_launched (e e4 : engine) (name : String) (err : error)
    (h : e.gotStopped name err = some e4) :
    ∃ launched, e4.goroutines = e.goroutines ++ launched := by
  obtain ⟨e1, h1, rfl⟩ := gotStopped_eq_some e e4 name err h
  have hg := stoppedChecks_goroutines e e1 name err h1
  dsimp only
  split_ifs
  · exact ⟨[], by rw [List.append_nil]; exact hg⟩
  · obtain ⟨l1, hl1⟩ := stoppedRestart_launched
      ({ e1 with current := e1.current.set name default } : engine) name (e.current.index name) err
    obtain ⟨l2, hl2⟩ := bounceDependents_launched
      (({ e1 with current := e1.current.set name default } : engine).stoppedRestart name
        (e.current.index name) err) name
    refine ⟨l1 ++ l2, ?_⟩
    rw [hl2, hl1, List.append_assoc]
    show e1.goroutines ++ (l1 ++ l2) = _
    rw [hg]
  · obtain ⟨l1, hl1⟩ := stoppedRestart_launched
      ({ e1 with current := e1.current.set name default } : engine) name (e.current.index name) err
    refine ⟨l1, ?_⟩
    rw [hl1]
    show e1.goroutines ++ l1 = _
    rw [hg]

end engine

section launched

variable (Validate : Manifolds → error)

theorem gotInstall_launched (e : engine) (name : String) (manifold : Manifold) :
    ∃ launched, (e.gotInstall Validate name manifold).1.goroutines = e.goroutines ++ launched := by
  rcases gotInstall_cases Validate e name manifold with ⟨h, _⟩ | ⟨_, h⟩
  · exact ⟨[], by rw [h, List.append_nil]⟩
  · rw [h]
    obtain ⟨l, hl⟩ := engine.requestStart_launched (e.recordManifold name manifold) name 0
    exact ⟨l, by rw [hl, engine.recordManifold_goroutines]⟩

/-- A step only appends to the list of launched runners. -/
theorem step_launched (s s1 : loopState) (a : action) (h : s.step Validate a = some s1) :
    ∃ launched, s1.eng.goroutines = s.eng.goroutines ++ launched := by
  refine step_inv Validate (fun e => ∃ launched, e.goroutines = s.eng.goroutines ++ launched)
    ?_ ?_ ?_ ?_ ?_ s s1 a ⟨[], (List.append_nil _).symm⟩ h
  · intro e t he
    exact he
  · intro e name ⟨l, hl⟩
    exact ⟨l, by rw [engine.requestStop_goroutines, hl]⟩
  · intro e name manifold ⟨l, hl⟩
    obtain ⟨l1, hl1⟩ := gotInstall_launched Validate e name manifold
    exact ⟨l ++ l1, by rw [hl1, hl, List.append_assoc]⟩
  · intro e name w ⟨l, hl⟩
    obtain ⟨l1, hl1⟩ := engine.gotStarted_launched e name w
    exact ⟨l ++ l1, by rw [hl1, hl, List.append_assoc]⟩
  · intro e name err e1 ⟨l, hl⟩ hg
    obtain ⟨l1, hl1⟩ := engine.gotStopped_launched e e1 name err hg
    exact ⟨l ++ l1, by rw [hl1, hl, List.append_assoc]⟩

/-- A run only appends to the list of launched runners. -/
theorem exec_launched (acts : List action) (s s1 : loopState)
    (h : s.exec Validate acts = some s1) :
    ∃ launched, s1.eng.goroutines = s.eng.goroutines ++ launched := by
  refine exec_inv Validate
    (fun x => ∃ launched, x.eng.goroutines = s.eng.goroutines ++ launched) (fun _ => True)
    ?_ acts s s1 (fun _ _ => trivial) ⟨[], (List.append_nil _).symm⟩ h
  intro x a x1 _ ⟨l, hl⟩ hst
  obtain ⟨l1, hl1⟩ := step_launched Validate x x1 a hst
  exact ⟨l ++ l1, by rw [hl1, hl, List.append_assoc]⟩

end launched

/-! ## The runner -/

namespace engine

/-- The runner when the dying channel wins against the delay. -/
theorem runWorker_dying (name : String) (delay : Duration) (start : Option StartFunc)
    (getResource : GetResourceFunc) (race : runnerRace) (wait : Worker → error)
    (hd : race.dyingBeforeDelay = true) :
    engine.runWorker name delay start getResource race wait =
      some ⟨0, [], [ticket.stopped name (some Err.ErrDying)]⟩ := by
  unfold engine.runWorker engine.startWorkerAndWait
  rw [if_pos hd]
  rfl

/-- The runner when the start func returns an error. -/
theorem runWorker_failed (name : String) (delay : Duration) (start : StartFunc)
    (getResource : GetResourceFunc) (race : runnerRace) (wait : Worker → error) (err : Err)
    (hd : race.dyingBeforeDelay = false) (hs : (start getResource).2 = some err) :
    engine.runWorker name delay (some start) getResource race wait =
      some ⟨1, [], [ticket.stopped name (some err)]⟩ := by
  unfold engine.runWorker engine.startWorkerAndWait
  rcases hr : start getResource with ⟨w, x⟩
  rw [hr] at hs
  cases hs
  simp only [hd, Bool.false_eq_true, if_false, hr]
  rfl

/-- The runner when the start func returns a worker. -/
theorem runWorker_started (name : String) (delay : Duration) (start : StartFunc)
    (getResource : GetResourceFunc) (race : runnerRace) (wait : Worker → error) (w : Worker)
    (hd : race.dyingBeforeDelay = false) (hs : start getResource = (some w, none)) :
    engine.runWorker name delay (some start) getResource race wait =
      some ⟨1, if race.dyingBeforeSend then [w] else [],
        (if race.dyingBeforeSend then [] else [ticket.started name w]) ++
          [ticket.stopped name (wait w)]⟩ := by
  unfold engine.runWorker engine.startWorkerAndWait
  rw [hd]
  simp only [Bool.false_eq_true, if_false, hs]
  cases race.dyingBeforeSend <;> rfl

/-- The tickets a runner sends: a stopped ticket, or a started ticket and then
a stopped ticket, all for its own name. -/
theorem runWorker_sent (name : String) (delay : Duration) (start : Option StartFunc)
    (getResource : GetResourceFunc) (race : runnerRace) (wait : Worker → error)
    (hc : race.dyingBeforeDelay = true ∨ ∃ f, start = some f ∧
      ((f getResource).2 = none → (f getResource).1.isSome = true)) :
    ∃ tr, engine.runWorker name delay start getResource race wait = some tr ∧
      ∃ err, tr.sent = [ticket.stopped name err] ∨
        ∃ w, tr.sent = [ticket.started name w, ticket.stopped name err] := by
  by_cases hd : race.dyingBeforeDelay = true
  · exact ⟨_, runWorker_dying name delay _ getResource race wait hd, _, Or.inl rfl⟩
  · have hc2 : ∃ f, start = some f ∧
        ((f getResource).2 = none → (f getResource).1.isSome = true) := by
      rcases hc with hc | hc
      · exact absurd hc hd
      · exact hc
    clear hc
    obtain ⟨start, rfl, hc⟩ := hc2
    have hd : race.dyingBeforeDelay = false := by simpa using hd
    rcases hr : start getResource with ⟨w, x⟩
    cases x with
    | some err =>
      exact ⟨_, runWorker_failed name delay start getResource race wait err hd (by rw [hr]),
        _, Or.inl rfl⟩
    | none =>
      rw [hr] at hc
      cases w with
      | none => exact absurd (hc rfl) (by simp)
      | some w =>
        refine ⟨_, runWorker_started name delay start getResource race wait w hd hr, wait w, ?_⟩
        cases race.dyingBeforeSend
        · exact Or.inr ⟨w, rfl⟩
        · exact Or.inl rfl

end engine

/-! ## The keys of `current` stay distinct -/

theorem Map.nodup_keys_set {V : Type} (m : Map V) (k : String) (v : V) (h : m.keys.Nodup) :
    (m.set k v).keys.Nodup :=
  Map.nodup_keys_store m.entries k v h

namespace engine

theorem requestStart_nodup (e : engine) (name : String) (delay : Duration)
    (h : e.current.keys.Nodup) : (e.requestStart name delay).current.keys.Nodup := by
  rcases requestStart_current e name delay with h1 | ⟨_, h1⟩
  · rw [h1]; exact h
  · rw [h1]; exact Map.nodup_keys_set _ _ _ h

theorem requestStop_nodup (e : engine) (name : String)
    (h : e.current.keys.Nodup) : (e.requestStop name).current.keys.Nodup := by
  rw [requestStop_keys]
  exact h

theorem bounceDependents_nodup (e : engine) (name : String)
    (h : e.current.keys.Nodup) : (e.bounceDependents name).current.keys.Nodup := by
  unfold bounceDependents
  refine foldl_inv (fun x => x.current.keys.Nodup) _ ?_ _ e h
  intro x d hx
  dsimp only
  split_ifs
  · exact requestStart_nodup x d _ hx
  · exact requestStop_nodup x d hx

theorem stoppedRestart_nodup (e : engine) (name : String) (info : workerInfo) (err : error)
    (h : e.current.keys.Nodup) : (e.stoppedRestart name info err).current.keys.Nodup := by
  unfold stoppedRestart
  split_ifs
  · exact requestStart_nodup e name _ h
  · split
    · exact h
    · exact h
    · exact requestStart_nodup e name _ h

theorem gotStarted_nodup (e : engine) (name : String) (w : Worker)
    (h : e.current.keys.Nodup) : (e.gotStarted name w).current.keys.Nodup := by
  unfold gotStarted
  dsimp only
  split_ifs
  · exact h
  · exact h
  · exact bounceDependents_nodup _ name (Map.nodup_keys_set _ _ _ h)

theorem gotStopped_nodup (e e4 : engine) (name : String) (err : error)
    (hg : e.gotStopped name err = some e4) (h : e.current.keys.Nodup) :
    e4.current.keys.Nodup := by
  obtain ⟨e1, h1, rfl⟩ := gotStopped_eq_some e e4 name err hg
  have hc := stoppedChecks_current e e1 name err h1
  have h2 : ({ e1 with current := e1.current.set name default } : engine).current.keys.Nodup := by
    show (e1.current.set name default).keys.Nodup
    rw [hc]
    exact Map.nodup_keys_set _ _ _ h
  dsimp only
  split_ifs
  · exact h2
  · exact bounceDependents_nodup _ name (stoppedRestart_nodup _ name _ err h2)
  · exact stoppedRestart_nodup _ name _ err h2

end engine

section distinctKeys

variable (Validate : Manifolds → error)

/-- In every reachable state the keys of `current` are distinct. -/
theorem current_nodup_inv (s : loopState) (h : Reachable Validate s) :
    s.eng.current.keys.Nodup := by
  refine reachable_inv Validate (fun e => e.current.keys.Nodup) ?_ ?_ ?_ ?_ ?_ ?_ s h
  · intro config e hnew
    rw [(newEngine_eq config e hnew).1]
    exact List.nodup_nil
  · intro e t he
    exact he
  · intro e name he
    exact engine.requestStop_nodup e name he
  · intro e name manifold he
    rcases gotInstall_cases Validate e name manifold with ⟨h1, _⟩ | ⟨_, h1⟩
    · rw [h1]; exact he
    · rw [h1]
      refine engine.requestStart_nodup _ name 0 ?_
      rw [engine.recordManifold_current]
      exact Map.nodup_keys_set _ _ _ he
  · intro e name w he
    exact engine.gotStarted_nodup e name w he
  · intro e name err e1 he hg
    exact engine.gotStopped_nodup e e1 name err hg he

end distinctKeys

/-! ## The stop requests of a shutdown -/

namespace engine

theorem worker_of_stopped (info : workerInfo) (h : info.stopped = true) : info.worker = none := by
  unfold workerInfo.stopped at h
  cases hw : info.worker with
  | none => rfl
  | some w => simp [hw] at h

/-- The method `requestStop` calls `Kill` on the worker `toStop` names, if any. -/
theorem requestStop_kills_eq (e : engine) (name : String) :
    (e.requestStop name).kills = e.kills ++ (e.toStop name).toList := by
  unfold toStop
  rcases requestStop_shape e name with ⟨h0, h1⟩ | ⟨h0, _, h1⟩
  · rw [h1]
    by_cases hs : (e.current.index name).stopping = true
    · rw [if_pos hs]
      exact (List.append_nil _).symm
    · have hst : (e.current.index name).stopped = true := by
        rcases h0 with h0 | h0
        · exact absurd h0 hs
        · exact h0
      rw [if_neg hs, worker_of_stopped _ hst]
      exact (List.append_nil _).symm
  · rw [h1, h0]
    rfl

theorem requestStop_toStop_ne (e : engine) (name other : String) (h : name ≠ other) :
    (e.requestStop name).toStop other = e.toStop other := by
  unfold toStop
  have hi : (e.requestStop name).current.index other = e.current.index other := by
    unfold Map.index
    rw [requestStop_get?_ne e name other h]
  rw [hi]

/-- After `requestStop(name)` the info of `name` is stopping or stopped. -/
theorem requestStop_marked (e : engine) (name : String) :
    ((e.requestStop name).current.index name).stopping = true ∨
      ((e.requestStop name).current.index name).stopped = true := by
  rcases requestStop_shape e name with ⟨h0, h1⟩ | ⟨_, _, h1⟩
  · rw [h1]
    exact h0
  · rw [h1]
    left
    show ((e.current.set name _).index name).stopping = true
    rw [Map.index_set_self]

/-- The stop requests for a list of names change no worker and no starting
flag, and nothing outside `current` and the trace of kills. -/
theorem stopAll_frame (l : List String) (e : engine) :
    (∀ n, ((l.foldl requestStop e).current.index n).worker = (e.current.index n).worker ∧
      ((l.foldl requestStop e).current.index n).starting = (e.current.index n).starting) ∧
    (l.foldl requestStop e).current.keys = e.current.keys ∧
    (l.foldl requestStop e).goroutines = e.goroutines ∧
    (l.foldl requestStop e).tomb = e.tomb ∧
    (l.foldl requestStop e).manifolds = e.manifolds ∧
    (l.foldl requestStop e).worstError = e.worstError := by
  refine foldl_inv
    (fun x => (∀ n, (x.current.index n).worker = (e.current.index n).worker ∧
      (x.current.index n).starting = (e.current.index n).starting) ∧
      x.current.keys = e.current.keys ∧ x.goroutines = e.goroutines ∧ x.tomb = e.tomb ∧
      x.manifolds = e.manifolds ∧ x.worstError = e.worstError) _ ?_ l e
    ⟨fun _ => ⟨rfl, rfl⟩, rfl, rfl, rfl, rfl, rfl⟩
  intro x a ⟨h1, h2, h3, h4, h5, h6⟩
  refine ⟨?_, ?_, ?_, ?_, ?_, ?_⟩
  · intro n
    obtain ⟨ha, hb⟩ := requestStop_index x a n
    rw [ha, hb]
    exact h1 n
  · rw [requestStop_keys, h2]
  · rw [requestStop_goroutines, h3]
  · rw [requestStop_tomb, h4]
  · rw [requestStop_manifolds, h5]
  · rw [requestStop_worstError, h6]

/-- After the stop requests for a list of names, the info of every listed name
is stopping or stopped, and so is every info that was before. -/
theorem stopAll_marked (l : List String) (e : engine) (n : String)
    (h : n ∈ l ∨ (e.current.index n).stopping = true ∨ (e.current.index n).stopped = true) :
    ((l.foldl requestStop e).current.index n).stopping = true ∨
      ((l.foldl requestStop e).current.index n).stopped = true := by
  induction l generalizing e with
  | nil =>
    rcases h with h | h
    · cases h
    · exact h
  | cons a rest ih =>
    rw [List.foldl_cons]
    apply ih
    by_cases hn : n ∈ rest
    · exact Or.inl hn
    · right
      rcases h with h | h | h
      · have ha : n = a := by
          rcases List.mem_cons.mp h with h | h
          · exact h
          · exact absurd h hn
        subst ha
        exact requestStop_marked e n
      · exact Or.inl (requestStop_stopping e a n h)
      · right
        rw [requestStop_stopped]
        exact h

/-- The stop requests for a list of distinct names call `Kill` once on the
worker of each listed name that holds one and was not stopping, in the order
of the list, and on nothing else. -/
theorem stopAll_kills (l : List String) (e : engine) (h : l.Nodup) :
    (l.foldl requestStop e).kills = e.kills ++ l.filterMap e.toStop := by
  induction l generalizing e with
  | nil => exact (List.append_nil _).symm
  | cons a rest ih =>
    rw [List.foldl_cons, ih (e.requestStop a) (List.nodup_cons.mp h).2, requestStop_kills_eq,
      List.append_assoc]
    congr 1
    have hc : rest.filterMap (e.requestStop a).toStop = rest.filterMap e.toStop := by
      apply List.filterMap_congr
      intro x hx
      apply requestStop_toStop_ne
      intro hax
      subst hax
      exact (List.nodup_cons.mp h).1 hx
    rw [hc]
    cases hk : e.toStop a with
    | none => simp [List.filterMap_cons, hk]
    | some w => simp [List.filterMap_cons, hk]

end engine

/-! ## The report -/

namespace Map

variable {V : Type}

theorem lookup_map {W : Type} (l : List (String × V)) (f : V → W) (k : String) :
    lookup (l.map fun p => (p.1, f p.2)) k = (lookup l k).map f := by
  induction l with
  | nil => rfl
  | cons p rest ih =>
    obtain ⟨k1, w⟩ := p
    by_cases h1 : k1 = k
    · simp [lookup, h1]
    · simp only [List.map_cons, lookup, if_neg h1]
      exact ih

/-- Copying an association list with distinct keys into a map that has none of
them appends its keys in order. -/
theorem keys_foldl_set (l : List (String × V)) (h : (l.map Prod.fst).Nodup) (init : Map V)
    (hi : ∀ k ∈ l.map Prod.fst, k ∉ init.keys) :
    (l.foldl (fun acc p => acc.set p.1 p.2) init).keys = init.keys ++ l.map Prod.fst := by
  induction l generalizing init with
  | nil => exact (List.append_nil _).symm
  | cons p rest ih =>
    obtain ⟨k1, w⟩ := p
    simp only [List.map_cons, List.nodup_cons] at h
    have hk1 : k1 ∉ init.keys := hi k1 (by simp)
    have hs : (init.set k1 w).keys = init.keys ++ [k1] := by
      rw [keys_set, if_neg hk1]
    simp only [List.foldl_cons, List.map_cons]
    rw [ih h.2 (init.set k1 w), hs, List.append_assoc]
    · rfl
    · intro k hk
      rw [hs]
      intro hmem
      rcases List.mem_append.mp hmem with hm | hm
      · exact hi k (by simp [List.mem_map.mp hk]) hm
      · have : k = k1 := by simpa using hm
        subst this
        exact h.1 hk

end Map

theorem workerInfo.reportMap_spec (info : workerInfo) :
    info.reportMap.get? "starting" = some (Value.bool info.starting) ∧
      info.reportMap.get? "stopping" = some (Value.bool info.stopping) ∧
      info.reportMap.get? "report" = info.worker.bind Worker.report ∧
      info.reportMap.keys =
        if (info.worker.bind Worker.report).isSome then ["starting", "stopping", "report"]
        else ["starting", "stopping"] := by
  unfold workerInfo.reportMap
  cases info.worker.bind Worker.report with
  | none => exact ⟨rfl, rfl, rfl, rfl⟩
  | some r => exact ⟨rfl, rfl, rfl, rfl⟩

namespace engine

/-- The report in terms of its parts. -/
theorem gotReport_eq (e : engine) :
    e.gotReport =
      ((Map.empty.set "is-dying" (Value.bool e.isDying)).set "manifold-count"
        (Value.int e.manifolds.len)).set "workers" (Value.map e.reportWorkers.entries) := rfl

/-- The mapping `workers` of a report has the keys of `current`, and under each
the mapping built for the info recorded there. -/
theorem reportWorkers_spec (e : engine) (h : e.current.keys.Nodup) :
    e.reportWorkers.keys = e.current.keys ∧
      ∀ k, e.reportWorkers.get? k =
        (e.current.get? k).map fun info => Value.map info.reportMap.entries := by
  have hfold : e.reportWorkers =
      (e.current.entries.map fun p => (p.1, Value.map p.2.reportMap.entries)).foldl
        (fun acc p => acc.set p.1 p.2) Map.empty := by
    unfold reportWorkers
    rw [List.foldl_map]
  have hkeys : (e.current.entries.map fun p => (p.1, Value.map p.2.reportMap.entries)).map
      Prod.fst = e.current.keys := by
    unfold Map.keys
    rw [List.map_map]
    rfl
  refine ⟨?_, ?_⟩
  · rw [hfold, Map.keys_foldl_set _ (by rw [hkeys]; exact h) _ (fun _ _ hk => by cases hk), hkeys]
    rfl
  · intro k
    rw [hfold, Map.get?_foldl_set _ (by rw [hkeys]; exact h),
      Map.lookup_map e.current.entries (fun info => Value.map info.reportMap.entries) k]
    unfold Map.get?
    cases Map.lookup e.current.entries k <;> rfl

end engine

/-- The loop of `bounceDependents` over a list that repeats one name whose
info holds a worker: each turn is a stop request for that name, which launches
nothing and leaves the tomb, the manifolds, every worker and every other info
as they are. -/
theorem engine.bounceLoop_busy (a : String) (k : Nat) (e : engine)
    (hw : (e.current.index a).worker.isSome = true) :
    (e.bounceLoop (List.replicate k a)).goroutines = e.goroutines ∧
      (e.bounceLoop (List.replicate k a)).tomb = e.tomb ∧
      (e.bounceLoop (List.replicate k a)).manifolds = e.manifolds ∧
      (∀ n, ((e.bounceLoop (List.replicate k a)).current.index n).worker =
        (e.current.index n).worker) ∧
      (∀ n, a ≠ n → (e.bounceLoop (List.replicate k a)).current.get? n = e.current.get? n) := by
  induction k generalizing e with
  | zero => exact ⟨rfl, rfl, rfl, fun _ => rfl, fun _ _ => rfl⟩
  | succ k ih =>
    have hns : (e.current.index a).stopped = false := by
      unfold workerInfo.stopped
      rw [hw]
      rfl
    have hstep : e.bounceStep a = e.requestStop a := by
      unfold engine.bounceStep
      rw [hns]
      rfl
    have hw1 : ((e.requestStop a).current.index a).worker.isSome = true := by
      rw [(engine.requestStop_index e a a).1]
      exact hw
    obtain ⟨i1, i2, i3, i4, i5⟩ := ih (e.requestStop a) hw1
    have heq : e.bounceLoop (List.replicate (k + 1) a) =
        (e.requestStop a).bounceLoop (List.replicate k a) := by
      show (e.bounceStep a).bounceLoop (List.replicate k a) = _
      rw [hstep]
    rw [heq]
    refine ⟨?_, ?_, ?_, ?_, ?_⟩
    · rw [i1, engine.requestStop_goroutines]
    · rw [i2, engine.requestStop_tomb]
    · rw [i3, engine.requestStop_manifolds]
    · intro n
      rw [i4 n, (engine.requestStop_index e a n).1]
    · intro n hn
      rw [i5 n hn, engine.requestStop_get?_ne e a n hn]

/-! ## A dependency that arrives late -/

section lateDependency

variable (Validate : Manifolds → error)

/-- An install that passes both checks on a live engine. -/
theorem gotInstall_ok (e : engine) (name : String) (m : Manifold)
    (hn : e.manifolds.get? name = none) (hc : e.checkAcyclic Validate name m = none) :
    e.gotInstall Validate name m = ((e.recordManifold name m).requestStart name 0, none) := by
  unfold engine.gotInstall
  rw [hn, hc]
  rfl

/-- The facts about a fresh install on a live engine: the manifold is recorded,
its info is starting and one runner is launched without delay. -/
theorem gotInstall_fresh (e : engine) (name : String) (m : Manifold)
    (hn : e.manifolds.get? name = none) (hc : e.checkAcyclic Validate name m = none)
    (hd : e.isDying = false) :
    ∃ e1 g, e.gotInstall Validate name m = (e1, none) ∧
      e1.tomb = e.tomb ∧ e1.config = e.config ∧ e1.worstError = e.worstError ∧
      e1.manifolds = e.manifolds.set name m ∧
      e1.dependents = (e.recordManifold name m).dependents ∧
      e1.current = (e.current.set name default).set name ⟨true, false, none⟩ ∧
      e1.goroutines = e.goroutines ++ [g] ∧ e1.kills = e.kills ∧
      g.name = name ∧ g.delay = 0 ∧ g.start = m.Start ∧
      g.getResource = e1.getResourceFunc name m.Inputs := by
  have hm : (e.recordManifold name m).manifolds.get? name = some m := by
    rw [engine.recordManifold_manifolds]
    exact Map.get?_set_self _ _ _
  have hi : (e.recordManifold name m).current.index name = default := by
    rw [engine.recordManifold_current]
    exact Map.index_set_self _ _ _
  have hs : ((e.recordManifold name m).current.index name).stopped = true := by
    rw [hi]
    rfl
  have hd1 : (e.recordManifold name m).isDying = false := by
    unfold engine.isDying
    rw [engine.recordManifold_tomb]
    exact hd
  have heq := engine.requestStart_ok (e.recordManifold name m) name 0 m hm hs hd1
  refine ⟨(e.recordManifold name m).requestStart name 0,
    ⟨name, 0, m.Start, ((e.recordManifold name m).requestStart name 0).getResourceFunc
      name m.Inputs⟩, gotInstall_ok Validate e name m hn hc, ?_, ?_, ?_, ?_, ?_, ?_, ?_, ?_,
    rfl, rfl, rfl, rfl⟩
  · rw [heq]
    exact engine.recordManifold_tomb e name m
  · rw [heq]
    exact engine.recordManifold_config e name m
  · rw [heq]
    exact engine.recordManifold_worstError e name m
  · rw [heq]
    exact engine.recordManifold_manifolds e name m
  · rw [heq]
  · rw [heq]
    show (e.recordManifold name m).current.set name
      { (e.recordManifold name m).current.index name with starting := true } = _
    rw [hi, engine.recordManifold_current]
    rfl
  · rw [heq]
    show (e.recordManifold name m).goroutines ++ [_] = _
    rw [engine.recordManifold_goroutines]
    rfl
  · rw [heq]
    exact engine.recordManifold_kills e name m

/-- A turn of the loop that leaves the engine alive ends in the state its
`select` produced. -/
theorem turn_live (s s2 : loopState) (t : ticket) (hr : s.result = none)
    (hsel : s.select Validate t = some s2) (hd : s2.eng.isDying = false) :
    s.turn Validate t = some s2 := by
  unfold loopState.turn
  rw [hsel]
  simp [hr, hd]

/-- The engine states of the scenario in which the input of a manifold is
installed after the manifold itself: an install of `b` with the input `a`, the
runner of `b` failing with `ErrMissing`, an install of `a`, and the worker of
`a` reported. -/
theorem late_dependency_states (cfg : EngineConfig) (isFatal : error → Bool) (a b : String)
    (mA mB : Manifold) (w : Worker) (hab : a ≠ b)
    (hf : cfg.IsFatal = some isFatal) (hnf : isFatal (some Err.ErrMissing) = false)
    (hB : mB.Inputs = [a])
    (hV1 : Validate ((Map.empty : Manifolds).set b mB) = none)
    (hV2 : Validate (((Map.empty : Manifolds).set a mA).set b mB) = none) :
    ∃ (e1 e2 e3 e4 : engine) (g0 gA g : runWorkerCall),
      (engine.gotInstall Validate
        ⟨Tomb.alive, cfg, none, Map.empty, Map.empty, Map.empty, [], []⟩ b mB).1 = e1 ∧
      e1.gotStopped b (some Err.ErrMissing) = some e2 ∧
      (e2.gotInstall Validate a mA).1 = e3 ∧ e3.gotStarted a w = e4 ∧
      e1.isDying = false ∧ e2.isDying = false ∧ e3.isDying = false ∧ e4.isDying = false ∧
      e4.current.get? b = some ⟨true, false, none⟩ ∧
      (e4.current.index a).worker = some w ∧
      e4.goroutines = [g0, gA, g] ∧
      (g0.name = b ∧ g0.delay = 0 ∧ ∀ r out, g0.getResource r out = some Err.ErrMissing) ∧
      (gA.name = a ∧ gA.delay = 0) ∧
      g.name = b ∧ g.delay = cfg.BounceDelay ∧ g.start = mB.Start ∧
      g.getResource = e4.getResourceFunc b mB.Inputs ∧
      (e4.snapshotWorkers mB.Inputs).index a = some w ∧
      (e4.snapshotOutputs mB.Inputs).index a = mA.Output := by
  -- the install of b
  obtain ⟨e1, g0, h1, ht1, hc1, _, hm1, hdep1, hcur1, hg1, hk1, hgn0, hgd0, _, hgr0⟩ :=
    gotInstall_fresh Validate ⟨Tomb.alive, cfg, none, Map.empty, Map.empty, Map.empty, [], []⟩
      b mB rfl hV1 rfl
  have hd1 : e1.isDying = false := by
    unfold engine.isDying
    rw [ht1]
    rfl
  have hidx1 : e1.current.index b = ⟨true, false, none⟩ := by
    rw [hcur1]
    exact Map.index_set_self _ _ _
  have hdeps1 : e1.dependents.index a = [b] := by
    rw [hdep1, engine.recordManifold_dependents_index, hB]
    show ([] : List String) ++ List.replicate ([a].count a) b = [b]
    simp
  -- the stopped ticket of b
  have h2 : e1.gotStopped b (some Err.ErrMissing) =
      some { e1 with current := e1.current.set b default } := by
    rw [engine.gotStopped_live e1 b (some Err.ErrMissing) isFatal hd1
      (by rw [hidx1]; rfl) (by rw [hc1]; exact hf) hnf, hidx1]
    rfl
  -- the install of a
  have hn2 : ({ e1 with current := e1.current.set b default } : engine).manifolds.get? a =
      none := by
    show e1.manifolds.get? a = none
    rw [hm1, Map.get?_set_ne _ _ _ _ (Ne.symm hab)]
    rfl
  have hc2 : ({ e1 with current := e1.current.set b default } : engine).checkAcyclic
      Validate a mA = none := by
    show Validate (e1.manifolds.entries.foldl (fun acc p => acc.set p.1 p.2)
      ((Map.empty : Manifolds).set a mA)) = none
    rw [hm1]
    exact hV2
  obtain ⟨e3, gA, h3, ht3, hc3, _, hm3, hdep3, hcur3, hg3, hk3, hgnA, hgdA, _, _⟩ :=
    gotInstall_fresh Validate { e1 with current := e1.current.set b default } a mA hn2 hc2 hd1
  have hd3 : e3.isDying = false := by
    unfold engine.isDying
    rw [ht3]
    exact hd1
  have hidx3 : e3.current.index a = ⟨true, false, none⟩ := by
    rw [hcur3]
    exact Map.index_set_self _ _ _
  have hidx3b : e3.current.index b = default := by
    rw [hcur3, Map.index_set_ne _ _ _ _ hab, Map.index_set_ne _ _ _ _ hab]
    exact Map.index_set_self _ _ _
  have hdeps3 : e3.dependents.index a = b :: List.replicate (mA.Inputs.count a) a := by
    rw [hdep3, engine.recordManifold_dependents_index]
    show e1.dependents.index a ++ _ = _
    rw [hdeps1]
    rfl
  have hmb3 : e3.manifolds.get? b = some mB := by
    rw [hm3, Map.get?_set_ne _ _ _ _ hab]
    show e1.manifolds.get? b = some mB
    rw [hm1]
    exact Map.get?_set_self _ _ _
  -- the started ticket of a
  have hib : (({ e3 with current := e3.current.set a ⟨false, false, some w⟩ } : engine).current.index b) = default := by
    show (e3.current.set a _).index b = default
    rw [Map.index_set_ne _ _ _ _ hab]
    exact hidx3b
  have hok := engine.requestStart_ok ({ e3 with current := e3.current.set a ⟨false, false, some w⟩ } : engine) b cfg.BounceDelay mB hmb3 (by rw [hib]; rfl) hd3
  rw [hib] at hok
  have hstep : e3.gotStarted a w =
      (({ e3 with current := e3.current.set a ⟨false, false, some w⟩ } : engine).requestStart b cfg.BounceDelay).bounceLoop
        (List.replicate (mA.Inputs.count a) a) := by
    have hg : e3.gotStarted a w = ({ e3 with current := e3.current.set a ⟨false, false, some w⟩ } : engine).bounceDependents a := by
      unfold engine.gotStarted
      simp only [hidx3, hd3]
      rfl
    rw [hg, engine.bounceDependents_eq_loop]
    have hl : ({ e3 with current := e3.current.set a ⟨false, false, some w⟩ } : engine).dependents.index a = b :: List.replicate (mA.Inputs.count a) a := hdeps3
    rw [hl]
    show (engine.bounceStep _ b).bounceLoop _ = _
    congr 1
    unfold engine.bounceStep
    rw [hib]
    have hcfg : e3.config.BounceDelay = cfg.BounceDelay :=
      congrArg EngineConfig.BounceDelay (hc3.trans hc1)
    show engine.requestStart _ b e3.config.BounceDelay = engine.requestStart _ b cfg.BounceDelay
    rw [hcfg]
  have hwa : ((({ e3 with current := e3.current.set a ⟨false, false, some w⟩ } : engine).requestStart b cfg.BounceDelay).current.index a).worker = some w := by
    rw [hok]
    show (((e3.current.set a ⟨false, false, some w⟩).set b _).index a).worker = some w
    rw [Map.index_set_ne _ _ _ _ (Ne.symm hab), Map.index_set_self]
  obtain ⟨hbg, hbt, hbm, hbw, hbo⟩ := engine.bounceLoop_busy a (mA.Inputs.count a)
    (({ e3 with current := e3.current.set a ⟨false, false, some w⟩ } : engine).requestStart b cfg.BounceDelay) (by rw [hwa]; rfl)
  have hwa4 : ((e3.gotStarted a w).current.index a).worker = some w := by
    rw [hstep, hbw a]
    exact hwa
  have hm4 : (e3.gotStarted a w).manifolds = e3.manifolds := by
    rw [hstep, hbm, engine.requestStart_manifolds]
  refine ⟨e1, _, e3, e3.gotStarted a w, g0, gA,
    ⟨b, cfg.BounceDelay, mB.Start,
      ({ ({ e3 with current := e3.current.set a ⟨false, false, some w⟩ } : engine) with current := ({ e3 with current := e3.current.set a ⟨false, false, some w⟩ } : engine).current.set b { (default : workerInfo) with starting := true } } :
        engine).getResourceFunc b mB.Inputs⟩,
    by rw [h1], h2, by rw [h3], rfl, hd1, hd1, hd3, ?_, ?_, hwa4, ?_, ⟨hgn0, hgd0, ?_⟩,
    ⟨hgnA, hgdA⟩, rfl, rfl, rfl, ?_, ?_, ?_⟩
  · unfold engine.isDying
    rw [hstep, hbt, hok]
    exact hd3
  · rw [hstep, hbo b hab, hok]
    exact Map.get?_set_self _ _ _
  · rw [hstep, hbg, hok]
    show e3.goroutines ++ [_] = _
    rw [hg3]
    show (e1.goroutines ++ [gA]) ++ [_] = _
    rw [hg1]
    rfl
  · intro r out
    rw [hgr0, engine.getResourceFunc_eq, engine.snapshotWorkers_index, hB]
    by_cases hr : r ∈ [a]
    · have hra : r = a := by simpa using hr
      subst hra
      rw [if_pos hr, hcur1, Map.index_set_ne _ _ _ _ (Ne.symm hab),
        Map.index_set_ne _ _ _ _ (Ne.symm hab)]
      rfl
    · rw [if_neg hr]
  · refine engine.getResourceFunc_congr _ _ b b mB.Inputs ?_
    intro r hr
    rw [hB] at hr
    have hra : r = a := by simpa using hr
    subst hra
    refine ⟨?_, ?_⟩
    · rw [hwa4]
      show (((e3.current.set r ⟨false, false, some w⟩).set b _).index r).worker = some w
      rw [Map.index_set_ne _ _ _ _ (Ne.symm hab), Map.index_set_self]
    · rw [hm4]
  · rw [engine.snapshotWorkers_index, hB, if_pos (List.mem_singleton.mpr rfl)]
    exact hwa4
  · rw [engine.snapshotOutputs_index, hB, if_pos (List.mem_singleton.mpr rfl), hm4, hm3,
      Map.index_set_self]

end lateDependency

/-! ## The tomb is only marked dead by the loop's exit -/

namespace engine

@[simp] theorem tombKill_dead (e : engine) (r : error) : (e.tombKill r).tomb.dead = e.tomb.dead := by
  unfold tombKill Tomb.killed
  dsimp only
  split_ifs <;> rfl

theorem requestStart_dead (e : engine) (name : String) (delay : Duration) :
    (e.requestStart name delay).tomb.dead = e.tomb.dead := by
  unfold requestStart
  dsimp only
  split_ifs <;> simp

theorem bounceDependents_dead (e : engine) (name : String) :
    (e.bounceDependents name).tomb.dead = e.tomb.dead := by
  unfold bounceDependents
  refine foldl_inv (fun x => x.tomb.dead = e.tomb.dead) _ ?_ _ e rfl
  intro x d hx
  dsimp only
  split_ifs
  · rw [requestStart_dead, hx]
  · rw [requestStop_tomb, hx]

theorem gotStarted_dead (e : engine) (name : String) (w : Worker) :
    (e.gotStarted name w).tomb.dead = e.tomb.dead := by
  unfold gotStarted
  dsimp only
  split_ifs
  · exact tombKill_dead e _
  · rfl
  · rw [bounceDependents_dead]

theorem stoppedRestart_dead (e : engine) (name : String) (info : workerInfo) (err : error) :
    (e.stoppedRestart name info err).tomb.dead = e.tomb.dead := by
  unfold stoppedRestart
  split_ifs
  · exact requestStart_dead e name _
  · split
    · rfl
    · rfl
    · exact requestStart_dead e name _

theorem gotStopped_dead (e e4 : engine) (name : String) (err : error)
    (h : e.gotStopped name err = some e4) : e4.tomb.dead = e.tomb.dead := by
  obtain ⟨e1, h1, rfl⟩ := gotStopped_eq_some e e4 name err h
  have h0 : e1.tomb.dead = e.tomb.dead := by
    rcases stoppedChecks_shape e e1 name err h1 with rfl | ⟨r, rfl⟩ | ⟨w, r, rfl⟩
    · rfl
    · exact tombKill_dead e r
    · exact tombKill_dead _ r
  dsimp only
  split_ifs
  · exact h0
  · rw [bounceDependents_dead, stoppedRestart_dead]
    exact h0
  · rw [stoppedRestart_dead]
    exact h0

end engine

section loopExit

variable (Validate : Manifolds → error)

theorem gotInstall_dead (e : engine) (name : String) (manifold : Manifold) :
    (e.gotInstall Validate name manifold).1.tomb.dead = e.tomb.dead := by
  rcases gotInstall_cases Validate e name manifold with ⟨h, _⟩ | ⟨_, h⟩
  · rw [h]
  · rw [h]
    show ((e.recordManifold name manifold).requestStart name 0).tomb.dead = _
    rw [engine.requestStart_dead, engine.recordManifold_tomb]

/-- The `select` of the loop does not mark the tomb dead or alive. -/
theorem select_dead (s s2 : loopState) (t : ticket) (h : s.select Validate t = some s2) :
    s2.eng.tomb.dead = s.eng.tomb.dead := by
  cases t with
  | dying =>
    simp only [loopState.select] at h
    split_ifs at h
    cases h
    exact congrArg Tomb.dead (engine.stopAll_frame _ s.eng).2.2.2.1
  | install name manifold =>
    simp only [loopState.select, Option.some.injEq] at h
    subst h
    exact gotInstall_dead Validate s.eng name manifold
  | started name worker =>
    simp only [loopState.select, Option.some.injEq] at h
    subst h
    exact engine.gotStarted_dead s.eng name worker
  | stopped name err =>
    simp only [loopState.select] at h
    cases hg : s.eng.gotStopped name err with
    | none => rw [hg] at h; cases h
    | some e4 =>
      rw [hg] at h
      cases h
      exact engine.gotStopped_dead s.eng e4 name err hg
  | report =>
    simp only [loopState.select, Option.some.injEq] at h
    subst h
    rfl

/-- What holds of a turn that makes the loop return: the engine was dying and
every info stopped. -/
theorem turn_exit (s s1 : loopState) (t : ticket) (h : s.turn Validate t = some s1)
    (hr : s1.result.isSome = true) :
    s1.eng.isDying = true ∧ s1.eng.allStopped = true ∧ s1.eng.tomb.dead = true := by
  obtain ⟨hn, s2, hsel, rfl⟩ := turn_eq_some Validate s s1 t h
  have h2 : s2.result = none := by
    rw [(select_frame Validate s s2 t hsel).1, hn]
  split_ifs at hr ⊢ with hc
  · simp only [Bool.and_eq_true] at hc
    exact ⟨rfl, hc.2, rfl⟩
  · rw [h2] at hr
    cases hr

/-- Along a run the loop has returned only if the engine is dying with every
info stopped, and the tomb is dead only if the loop has returned. -/
theorem step_exit (s s1 : loopState) (a : action) (h : s.step Validate a = some s1)
    (hs : (s.result.isSome = true → s.eng.isDying = true ∧ s.eng.allStopped = true) ∧
      (s.eng.tomb.dead = true → s.result.isSome = true)) :
    (s1.result.isSome = true → s1.eng.isDying = true ∧ s1.eng.allStopped = true) ∧
      (s1.eng.tomb.dead = true → s1.result.isSome = true) := by
  cases a with
  | Kill =>
    simp only [loopState.step, Option.some.injEq] at h
    subst h
    refine ⟨fun hr => ⟨engine.tombKill_isDying _ _, (hs.1 hr).2⟩, fun hd => hs.2 ?_⟩
    rw [← hd]
    exact (engine.tombKill_dead s.eng none).symm
  | recv t =>
    refine ⟨fun hr => ⟨(turn_exit Validate s s1 t h hr).1, (turn_exit Validate s s1 t h hr).2.1⟩,
      ?_⟩
    intro hd
    obtain ⟨hn, s2, hsel, rfl⟩ := turn_eq_some Validate s s1 t h
    have h2 : s2.eng.tomb.dead = false := by
      rw [select_dead Validate s s2 t hsel]
      cases hdd : s.eng.tomb.dead with
      | false => rfl
      | true =>
        have := hs.2 hdd
        rw [hn] at this
        cases this
    split_ifs at hd ⊢ with hc
    · show (s2.eng.loopResult).isSome = true
      unfold engine.loopResult
      split_ifs with hw
      · rfl
      · cases hww : s2.eng.worstError with
        | none => rw [hww] at hw; exact absurd rfl hw
        | some x => rfl
    · rw [h2] at hd
      cases hd

end loopExit

/-! ## Runners and their stopped tickets -/

namespace engine

/-- The two outcomes of `requestStart`: nothing is launched and `current` is
as it was, or the name is installed with a stopped info, which is marked
starting, and one runner is launched for it. -/
theorem requestStart_cases (e : engine) (name : String) (delay : Duration) :
    ((e.requestStart name delay).current = e.current ∧
      (e.requestStart name delay).goroutines = e.goroutines) ∨
    (∃ g : runWorkerCall, (e.manifolds.get? name).isSome = true ∧
      (e.current.index name).stopped = true ∧ g.name = name ∧
      (e.requestStart name delay).current =
        e.current.set name { e.current.index name with starting := true } ∧
      (e.requestStart name delay).goroutines = e.goroutines ++ [g]) := by
  by_cases hd : e.isDying = true
  · exact Or.inl (requestStart_dying e name delay hd)
  · have hd : e.isDying = false := by simpa using hd
    cases hm : e.manifolds.get? name with
    | none =>
      left
      unfold requestStart
      cases hs : (e.current.index name).stopped <;> simp [hm, hs]
    | some m =>
      by_cases hs : (e.current.index name).stopped = true
      · right
        rw [requestStart_ok e name delay m hm hs hd]
        exact ⟨_, rfl, hs, rfl, rfl, rfl⟩
      · left
        have hs : (e.current.index name).stopped = false := by simpa using hs
        unfold requestStart
        simp [hm, hs]

theorem launched_append (e e1 : engine) (g : runWorkerCall) (n : String)
    (h : e1.goroutines = e.goroutines ++ [g]) :
    e1.launched n = e.launched n + (if g.name = n then 1 else 0) := by
  unfold launched
  rw [h, List.countP_append]
  congr 1
  by_cases hg : g.name = n <;> simp [List.countP_cons, hg]

end engine

theorem Accounted.congr (e e1 : engine) (d : String → Nat)
    (hg : e1.goroutines = e.goroutines) (hc : e1.current = e.current)
    (hm : e1.manifolds = e.manifolds) (h : Accounted e d) : Accounted e1 d := by
  intro n
  unfold engine.launched
  rw [hg, hc, hm]
  exact h n

theorem Accounted.mono (e : engine) (d d1 : String → Nat) (hd : ∀ n, d n ≤ d1 n)
    (h : Accounted e d) : Accounted e d1 := by
  intro n
  exact ⟨Nat.le_trans (h n).1 (Nat.add_le_add_right (hd n) _), (h n).2⟩

theorem Accounted.requestStart (e : engine) (d : String → Nat) (name : String)
    (delay : Duration) (h : Accounted e d) : Accounted (e.requestStart name delay) d := by
  rcases engine.requestStart_cases e name delay with ⟨hc, hg⟩ | ⟨g, hm, hs, hgn, hc, hg⟩
  · exact Accounted.congr e _ d hg hc (engine.requestStart_manifolds e name delay) h
  · intro n
    rw [engine.launched_append e _ g n hg, hc, engine.requestStart_manifolds, hgn]
    by_cases hn : name = n
    · subst hn
      have h1 := (h name).1
      rw [hs, if_pos rfl] at h1
      refine ⟨?_, ?_⟩
      · rw [if_pos rfl, Map.index_set_self]
        have hns : ({ e.current.index name with starting := true } : workerInfo).stopped =
            false := by
          unfold workerInfo.stopped
          cases (e.current.index name).worker <;> rfl
        rw [hns]
        simp only [Bool.false_eq_true, if_false]
        omega
      · intro hnone
        rw [hnone] at hm
        cases hm
    · rw [if_neg hn, Map.index_set_ne _ _ _ _ hn]
      exact h n

theorem Accounted.requestStop (e : engine) (d : String → Nat) (name : String)
    (h : Accounted e d) : Accounted (e.requestStop name) d := by
  intro n
  unfold engine.launched
  rw [engine.requestStop_goroutines, engine.requestStop_stopped, engine.requestStop_manifolds]
  exact h n

theorem Accounted.bounceDependents (e : engine) (d : String → Nat) (name : String)
    (h : Accounted e d) : Accounted (e.bounceDependents name) d := by
  unfold engine.bounceDependents
  refine engine.foldl_inv (fun x => Accounted x d) _ ?_ _ e h
  intro x dep hx
  dsimp only
  split_ifs
  · exact Accounted.requestStart x d dep _ hx
  · exact Accounted.requestStop x d dep hx

/-- Writing an info that is not stopped keeps the account. -/
theorem Accounted.set_busy (e : engine) (d : String → Nat) (name : String) (v : workerInfo)
    (hv : v.stopped = false) (h : Accounted e d) :
    Accounted { e with current := e.current.set name v } d := by
  intro n
  show e.launched n ≤ d n + (if ((e.current.set name v).index n).stopped then 0 else 1) ∧
    (e.manifolds.get? n = none → e.launched n = 0)
  refine ⟨?_, (h n).2⟩
  by_cases hn : name = n
  · subst hn
    rw [Map.index_set_self, hv]
    have h1 := (h name).1
    split_ifs at h1 <;> simp only [Bool.false_eq_true, if_false] <;> omega
  · rw [Map.index_set_ne _ _ _ _ hn]
    exact (h n).1

/-- Resetting the info of a name keeps the account once its stopped ticket is
counted. -/
theorem Accounted.reset (e : engine) (d : String → Nat) (name : String) (h : Accounted e d) :
    Accounted { e with current := e.current.set name default }
      (fun n => d n + (if name = n then 1 else 0)) := by
  intro n
  show e.launched n ≤ d n + (if name = n then 1 else 0) +
      (if ((e.current.set name default).index n).stopped then 0 else 1) ∧
    (e.manifolds.get? n = none → e.launched n = 0)
  refine ⟨?_, (h n).2⟩
  by_cases hn : name = n
  · subst hn
    rw [Map.index_set_self, if_pos rfl]
    have h1 := (h name).1
    split_ifs at h1 <;> simp <;> omega
  · rw [Map.index_set_ne _ _ _ _ hn, if_neg hn]
    exact (h n).1

theorem Accounted.gotStarted (e : engine) (d : String → Nat) (name : String) (w : Worker)
    (h : Accounted e d) : Accounted (e.gotStarted name w) d := by
  unfold engine.gotStarted
  dsimp only
  split_ifs
  · exact Accounted.congr e _ d rfl rfl rfl h
  · exact Accounted.congr e _ d rfl rfl rfl h
  · exact Accounted.bounceDependents _ d name (Accounted.set_busy e d name _ rfl h)

theorem Accounted.stoppedRestart (e : engine) (d : String → Nat) (name : String)
    (info : workerInfo) (err : error) (h : Accounted e d) :
    Accounted (e.stoppedRestart name info err) d := by
  unfold engine.stoppedRestart
  split_ifs
  · exact Accounted.requestStart e d name _ h
  · split
    · exact h
    · exact h
    · exact Accounted.requestStart e d name _ h

theorem Accounted.gotStopped (e e4 : engine) (d : String → Nat) (name : String) (err : error)
    (hg : e.gotStopped name err = some e4) (h : Accounted e d) :
    Accounted e4 (fun n => d n + (if name = n then 1 else 0)) := by
  obtain ⟨e1, h1, rfl⟩ := engine.gotStopped_eq_some e e4 name err hg
  have ha : Accounted e1 d :=
    Accounted.congr e e1 d (engine.stoppedChecks_goroutines e e1 name err h1)
      (engine.stoppedChecks_current e e1 name err h1)
      (engine.stoppedChecks_manifolds e e1 name err h1) h
  have h2 := Accounted.reset e1 d name ha
  dsimp only
  split_ifs
  · exact h2
  · exact Accounted.bounceDependents _ _ name (Accounted.stoppedRestart _ _ name _ err h2)
  · exact Accounted.stoppedRestart _ _ name _ err h2

theorem Accounted.recordManifold (e : engine) (d : String → Nat) (name : String)
    (m : Manifold) (hn : e.manifolds.get? name = none) (h : Accounted e d) :
    Accounted (e.recordManifold name m) d := by
  intro n
  unfold engine.launched
  rw [engine.recordManifold_goroutines, engine.recordManifold_current,
    engine.recordManifold_manifolds]
  by_cases hk : name = n
  · subst hk
    have h0 : e.launched name = 0 := (h name).2 hn
    unfold engine.launched at h0
    rw [h0]
    exact ⟨Nat.zero_le _, fun _ => rfl⟩
  · rw [Map.index_set_ne _ _ _ _ hk, Map.get?_set_ne _ _ _ _ hk]
    exact h n

theorem stoppedTickets_cons (n : String) (a : action) (rest : List action) :
    stoppedTickets n (a :: rest) = stoppedTickets n [a] + stoppedTickets n rest := by
  cases a with
  | Kill => simp [stoppedTickets]
  | recv t => cases t <;> simp [stoppedTickets]

section accounting

variable (Validate : Manifolds → error)

theorem Accounted.gotInstall (e : engine) (d : String → Nat) (name : String) (m : Manifold)
    (h : Accounted e d) : Accounted (e.gotInstall Validate name m).1 d := by
  rcases gotInstall_cases Validate e name m with ⟨h1, _⟩ | ⟨⟨hn, _⟩, h1⟩
  · rw [h1]
    exact h
  · rw [h1]
    exact Accounted.requestStart _ d name 0 (Accounted.recordManifold e d name m hn h)

/-- A step keeps the account of runners and stopped tickets. -/
theorem step_accounted (s s1 : loopState) (a : action) (d : String → Nat)
    (h : s.step Validate a = some s1) (hs : Accounted s.eng d) :
    Accounted s1.eng (fun n => d n + stoppedTickets n [a]) := by
  cases a with
  | Kill =>
    simp only [loopState.step, Option.some.injEq] at h
    subst h
    exact Accounted.congr s.eng _ _ rfl rfl rfl hs
  | recv t =>
    obtain ⟨_, s2, hsel, rfl⟩ := turn_eq_some Validate s s1 t h
    have h2 : Accounted s2.eng (fun n => d n + stoppedTickets n [action.recv t]) := by
      cases t with
      | dying =>
        simp only [loopState.select] at hsel
        split_ifs at hsel
        cases hsel
        exact engine.foldl_inv (fun x => Accounted x d) _
          (fun x n hx => Accounted.requestStop x d n hx) _ s.eng hs
      | install name manifold =>
        simp only [loopState.select, Option.some.injEq] at hsel
        subst hsel
        exact Accounted.gotInstall Validate s.eng d name manifold hs
      | started name worker =>
        simp only [loopState.select, Option.some.injEq] at hsel
        subst hsel
        exact Accounted.gotStarted s.eng d name worker hs
      | stopped name err =>
        simp only [loopState.select] at hsel
        cases hg : s.eng.gotStopped name err with
        | none => rw [hg] at hsel; cases hsel
        | some e4 =>
          rw [hg] at hsel
          cases hsel
          exact Accounted.gotStopped s.eng e4 d name err hg hs
      | report =>
        simp only [loopState.select, Option.some.injEq] at hsel
        subst hsel
        exact hs
    split_ifs
    · exact Accounted.congr s2.eng _ _ rfl rfl rfl h2
    · exact h2

/-- A run keeps the account of runners and stopped tickets. -/
theorem exec_accounted (acts : List action) (s s1 : loopState) (d : String → Nat)
    (h : s.exec Validate acts = some s1) (hs : Accounted s.eng d) :
    Accounted s1.eng (fun n => d n + stoppedTickets n acts) := by
  induction acts generalizing s d with
  | nil =>
    simp only [loopState.exec, Option.some.injEq] at h
    subst h
    exact hs
  | cons a rest ih =>
    simp only [loopState.exec] at h
    cases hst : s.step Validate a with
    | none => rw [hst] at h; cases h
    | some s2 =>
      rw [hst] at h
      have h2 := ih s2 _ h (step_accounted Validate s s2 a d hst hs)
      refine Accounted.mono _ _ _ ?_ h2
      intro n
      rw [stoppedTickets_cons n a rest, Nat.add_assoc]

/-- Along a run the loop has returned only if the engine is dying with every
info stopped, and the tomb is dead only if the loop has returned. -/
theorem exec_exit (acts : List action) (s s1 : loopState) (h : s.exec Validate acts = some s1)
    (hs : (s.result.isSome = true → s.eng.isDying = true ∧ s.eng.allStopped = true) ∧
      (s.eng.tomb.dead = true → s.result.isSome = true)) :
    (s1.result.isSome = true → s1.eng.isDying = true ∧ s1.eng.allStopped = true) ∧
      (s1.eng.tomb.dead = true → s1.result.isSome = true) :=
  exec_inv Validate
    (fun x => (x.result.isSome = true → x.eng.isDying = true ∧ x.eng.allStopped = true) ∧
      (x.eng.tomb.dead = true → x.result.isSome = true))
    (fun _ => True) (fun x a x1 _ hx hst => step_exit Validate x x1 a hst hx)
    acts s s1 (fun _ _ => trivial) hs h

end accounting

/-- When every info is stopped, so is the info the index finds for any name. -/
theorem engine.stopped_of_allStopped (e : engine) (h : e.allStopped = true) (n : String) :
    (e.current.index n).stopped = true := by
  unfold engine.allStopped at h
  rw [List.all_eq_true] at h
  exact engine.index_current (fun i => i.stopped = true) e n rfl h

/-! ## Names with a live info along a run -/

section liveNames

variable (Validate : Manifolds → error)

/-- Along a run whose started and stopped tickets name installed manifolds, a
name whose info is not stopped is installed. -/
theorem installed_of_not_stopped (config : EngineConfig) (e : engine) (acts : List action)
    (s : loopState) (hnew : NewEngine config = (some e, none))
    (hrun : (loopState.start e).exec Validate acts = some s)
    (hg : (loopState.start e).installedOnly Validate acts = true) (name : String)
    (hns : (s.eng.current.index name).stopped = false) :
    ∃ m, s.eng.manifolds.get? name = some m := by
  have h0 := (newEngine_eq config e hnew).1
  have hk := exec_keys Validate acts (loopState.start e) s hg
    (by rw [h0]; exact ⟨rfl, List.nodup_nil⟩) hrun
  have hmem : name ∈ s.eng.manifolds.keys := by
    rw [← hk.1]
    exact engine.mem_keys_of_not_stopped s.eng name hns
  exact Option.isSome_iff_exists.mp ((Map.mem_keys_iff _ _).mp hmem)

/-- With a cycle check that rejects every set with a cycle, no name is one of
its own dependents in a reachable state. -/
theorem not_self_dependent (hV : ∀ ms, HasCycle ms → Validate ms ≠ none) (s : loopState)
    (h : Reachable Validate s) (name : String) : name ∉ s.eng.dependents.index name := by
  intro hmem
  have hpos : 0 < (s.eng.dependents.index name).count name := List.count_pos_iff.mpr hmem
  rw [dependents_inv Validate s h name name] at hpos
  cases hm : s.eng.manifolds.get? name with
  | none =>
    have hidx : s.eng.manifolds.index name = default := by
      unfold Map.index
      rw [hm]
      rfl
    rw [hidx] at hpos
    have hzero : (default : Manifold).Inputs.count name = 0 := rfl
    rw [hzero] at hpos
    exact absurd hpos (Nat.lt_irrefl 0)
  | some m =>
    have hidx : s.eng.manifolds.index name = m := by
      unfold Map.index
      rw [hm]
      rfl
    rw [hidx] at hpos
    have hin : name ∈ m.Inputs := List.count_pos_iff.mp hpos
    exact (acyclic_inv Validate hV s h).2 ⟨name, Relation.TransGen.single ⟨m, hm, hin⟩⟩

end liveNames

/-! ## What a bounce does -/

namespace engine

/-- The effect of `bounceDependents` on a live engine whose dependents of the
name are installed and whose stopping infos have had their workers killed: the
engine stays live; the runners launched are runners of dependents with the
bounce delay and the workers killed were recorded for dependents; a dependent
whose info was stopped is starting with a runner launched for it, any other
dependent is stopping with its worker still recorded and killed; the info of a
name that is not a dependent is unchanged. -/
theorem bounceDependents_effect (e : engine) (name : String) (hd : e.isDying = false)
    (hinst : ∀ d ∈ e.dependents.index name, (e.manifolds.get? d).isSome = true)
    (hK : ∀ n w, (e.current.index n).stopping = true → (e.current.index n).worker = some w →
      w ∈ e.kills) :
    (e.bounceDependents name).isDying = false ∧
    ∃ launched killed, (e.bounceDependents name).goroutines = e.goroutines ++ launched ∧
      (e.bounceDependents name).kills = e.kills ++ killed ∧
      (∀ g ∈ launched, g.name ∈ e.dependents.index name ∧ g.delay = e.config.BounceDelay) ∧
      (∀ x ∈ killed, ∃ d ∈ e.dependents.index name, (e.current.index d).worker = some x) ∧
      (∀ d ∈ e.dependents.index name,
        ((e.current.index d).stopped = true →
          ((e.bounceDependents name).current.index d).starting = true ∧
          ∃ g ∈ launched, g.name = d ∧ g.delay = e.config.BounceDelay) ∧
        ((e.current.index d).stopped = false →
          ((e.bounceDependents name).current.index d).stopping = true ∧
          ∀ x, (e.current.index d).worker = some x →
            ((e.bounceDependents name).current.index d).worker = some x ∧
            x ∈ (e.bounceDependents name).kills)) ∧
      (∀ other, other ∉ e.dependents.index name →
        (e.bounceDependents name).current.get? other = e.current.get? other) := by
  obtain ⟨hframe, hworker, _, ⟨killed, hk1, hk2⟩⟩ := bounceDependents_frame e name
  obtain ⟨hlive, launched, h1, h2, h3⟩ := bounceLoop_effect (e.dependents.index name) e hd hinst hK
  rw [← bounceDependents_eq_loop] at hlive h1 h3
  refine ⟨hlive, launched, killed, h1, hk1, h2, hk2, ?_, hframe⟩
  intro d hdm
  obtain ⟨j1, j2⟩ := h3 d hdm
  refine ⟨?_, ?_⟩
  · intro hst
    obtain ⟨k1, g, hg, hgn⟩ := j1 hst
    exact ⟨k1, g, hg, hgn, (h2 g hg).2⟩
  · intro hns
    refine ⟨(j2 hns).1, fun x hx => ⟨?_, (j2 hns).2 x hx⟩⟩
    rw [hworker d]
    exact hx

/-- On a live engine the restart decision of `gotStopped` for an installed name
whose info is stopped leaves the engine live. -/
theorem stoppedRestart_live (e : engine) (name : String) (info : workerInfo) (err : error)
    (m : Manifold) (hd : e.isDying = false) (hm : e.manifolds.get? name = some m)
    (hs : (e.current.index name).stopped = true) :
    (e.stoppedRestart name info err).isDying = false := by
  have hr : ∀ delay, (e.requestStart name delay).isDying = false := by
    intro delay
    rw [requestStart_ok e name delay m hm hs hd]
    exact hd
  unfold stoppedRestart
  split_ifs
  · exact hr _
  · split
    · exact hd
    · exact hd
    · exact hr _

end engine

/-! ## The claims -/

/-- C1: `EngineConfig.Validate` returns no error if and only if `IsFatal` and
`MoreImportant` are set and both delays are strictly positive; a config with a
zero or negative delay is rejected; and `NewEngine` returns an error and no
engine exactly when `Validate` fails (otherwise an engine and no error). -/
theorem C1_validate_iff (config : EngineConfig) :
    (config.Validate = none ↔
      (config.IsFatal.isSome ∧ config.MoreImportant.isSome ∧
        0 < config.ErrorDelay ∧ 0 < config.BounceDelay)) ∧
    ((config.ErrorDelay ≤ 0 ∨ config.BounceDelay ≤ 0) → config.Validate ≠ none) ∧
    (((NewEngine config).2 ≠ none ∧ (NewEngine config).1 = none) ↔ config.Validate ≠ none) ∧
    (((NewEngine config).2 = none ∧ (NewEngine config).1.isSome) ↔ config.Validate = none) := by
  have key : config.Validate = none ↔
      (config.IsFatal.isSome ∧ config.MoreImportant.isSome ∧
        0 < config.ErrorDelay ∧ 0 < config.BounceDelay) := by
    unfold EngineConfig.Validate
    cases config.IsFatal <;> cases config.MoreImportant <;> simp
    constructor
    · intro h
      by_cases h1 : config.ErrorDelay ≤ 0
      · simp [h1] at h
      · by_cases h2 : config.BounceDelay ≤ 0
        · simp [h1, h2] at h
        · exact ⟨not_le.mp h1, not_le.mp h2⟩
    · rintro ⟨h1, h2⟩
      simp [not_le.mpr h1, not_le.mpr h2]
  refine ⟨key, ?_, ?_, ?_⟩
  · intro h hv
    obtain ⟨_, _, h1, h2⟩ := key.mp hv
    rcases h with h | h
    · exact absurd h1 (not_lt.mpr h)
    · exact absurd h2 (not_lt.mpr h)
  · unfold NewEngine
    cases config.Validate <;> simp
  · unfold NewEngine
    cases config.Validate <;> simp

/-- C1, on the sample config with its bounce delay set to zero: rejected. -/
theorem C1_validate_iff_witness :
    ({ sampleConfig with BounceDelay := 0 } : EngineConfig).Validate ≠ none ∧
      (NewEngine { sampleConfig with BounceDelay := 0 }).1 = none :=
  have h := C1_validate_iff { sampleConfig with BounceDelay := 0 }
  have hv := h.2.1 (Or.inr (le_refl 0))
  ⟨hv, (h.2.2.1.mpr hv).2⟩

section claims

variable (Validate : Manifolds → error)

/-- C2: when `name` is already a key of `manifolds`, `gotInstall` returns an
error for every manifold and returns the engine state it was given: manifolds,
dependents, current, worstError and the tomb are unchanged and no runner is
launched. -/
theorem C2_duplicate_install (e : engine) (name : String) (manifold : Manifold)
    (h : (e.manifolds.get? name).isSome = true) :
    (e.gotInstall Validate name manifold).2 ≠ none ∧
      (e.gotInstall Validate name manifold).1 = e := by
  unfold engine.gotInstall
  simp [h]

/-- C3: when the cycle check returns an error, `gotInstall` returns an error
and the engine state it was given, with nothing modified and no start requested. -/
theorem C3_rejected_install (e : engine) (name : String) (manifold : Manifold)
    (h : e.checkAcyclic Validate name manifold ≠ none) :
    (e.gotInstall Validate name manifold).2 ≠ none ∧
      (e.gotInstall Validate name manifold).1 = e := by
  unfold engine.gotInstall
  split_ifs
  · simp
  · cases hc : e.checkAcyclic Validate name manifold with
    | none => exact absurd hc h
    | some err => simp

/-- C5: on a live engine, for a name not yet installed and a manifold the cycle
check accepts, `gotInstall` returns nil; afterwards `manifolds[name]` is the
manifold, `current[name]` is starting with no stop request and no worker, the
runner trace grew by exactly one runner, for `name` with delay 0 and the
manifold's start func, and the manifolds and current entries of every other
name are unchanged. -/
theorem C5_install_success (e : engine) (name : String) (manifold : Manifold)
    (hd : e.isDying = false) (hn : e.manifolds.get? name = none)
    (hc : e.checkAcyclic Validate name manifold = none) :
    (e.gotInstall Validate name manifold).2 = none ∧
      (e.gotInstall Validate name manifold).1.manifolds.get? name = some manifold ∧
      (e.gotInstall Validate name manifold).1.current.get? name = some ⟨true, false, none⟩ ∧
      (∃ getResource, (e.gotInstall Validate name manifold).1.goroutines =
        e.goroutines ++ [⟨name, 0, manifold.Start, getResource⟩]) ∧
      (∀ other, other ≠ name →
        (e.gotInstall Validate name manifold).1.manifolds.get? other = e.manifolds.get? other ∧
        (e.gotInstall Validate name manifold).1.current.get? other = e.current.get? other) := by
  have hres : e.gotInstall Validate name manifold =
      ((e.recordManifold name manifold).requestStart name 0, none) := by
    unfold engine.gotInstall
    simp [hn, hc]
  have hstart := engine.requestStart_ok (e.recordManifold name manifold) name 0 manifold
    (by simp) (by simp) (by simpa [engine.isDying] using hd)
  rw [hres, hstart]
  dsimp only
  refine ⟨rfl, ?_, ?_, ?_, ?_⟩
  · simp
  · simp
  · rw [engine.recordManifold_goroutines]
    exact ⟨_, rfl⟩
  · intro other ho
    constructor
    · simp [Map.get?_set_ne _ _ _ _ (Ne.symm ho)]
    · simp [Map.get?_set_ne _ _ _ _ (Ne.symm ho)]

/-- C2, on the sample engine after `a` was installed: installing `a` again. -/
theorem C2_duplicate_install_witness :
    ((sampleRun killedWhileStartingSteps).eng.manifolds.get? "a").isSome = true ∧
      ((sampleRun killedWhileStartingSteps).eng.gotInstall strictValidate "a" leaf).2 ≠ none ∧
      ((sampleRun killedWhileStartingSteps).eng.gotInstall strictValidate "a" leaf).1 =
        (sampleRun killedWhileStartingSteps).eng :=
  ⟨by decide, C2_duplicate_install strictValidate _ "a" leaf (by decide)⟩

/-- C3, on the sample engine: a manifold that names itself as an input. -/
theorem C3_rejected_install_witness :
    sampleEngine.checkAcyclic strictValidate "a" ⟨["a"], none, none⟩ ≠ none ∧
      (sampleEngine.gotInstall strictValidate "a" ⟨["a"], none, none⟩).2 ≠ none ∧
      (sampleEngine.gotInstall strictValidate "a" ⟨["a"], none, none⟩).1 = sampleEngine :=
  ⟨by decide, C3_rejected_install strictValidate sampleEngine "a" ⟨["a"], none, none⟩ (by decide)⟩

/-- C5, on the sample engine: installing a manifold without inputs. -/
theorem C5_install_success_witness :
    sampleEngine.isDying = false ∧ sampleEngine.manifolds.get? "a" = none ∧
      sampleEngine.checkAcyclic strictValidate "a" leaf = none ∧
      (sampleEngine.gotInstall strictValidate "a" leaf).2 = none ∧
      (sampleEngine.gotInstall strictValidate "a" leaf).1.current.get? "a" = some ⟨true, false, none⟩ :=
  have h := C5_install_success strictValidate sampleEngine "a" leaf rfl rfl (by decide)
  ⟨rfl, rfl, by decide, h.1, h.2.2.1⟩

/-- C4: if `Validate` rejects every manifold set whose input graph contains a
cycle, then in every state reachable from a new engine by install, started,
stopped, report and dying tickets (and calls of `Kill`) the installed graph,
with an edge from each installed manifold to each of its inputs, has no cycle. -/
theorem C4_installed_graph_acyclic (hV : ∀ ms, HasCycle ms → Validate ms ≠ none)
    (s : loopState) (h : Reachable Validate s) : ¬ HasCycle s.eng.manifolds :=
  (acyclic_inv Validate hV s h).2

/-- C10: in every state reachable from a new engine, no entry of `current` has
both `starting` set and a worker present (and neither has the value `current`
yields for any name). -/
theorem C10_starting_excludes_worker (s : loopState) (h : Reachable Validate s) :
    (∀ p ∈ s.eng.current.entries, ¬ (p.2.starting = true ∧ p.2.worker.isSome = true)) ∧
      (∀ name, ¬ ((s.eng.current.index name).starting = true ∧
        (s.eng.current.index name).worker.isSome = true)) := by
  have hall := infos_inv Validate
    (fun i => ¬ (i.starting = true ∧ i.worker.isSome = true))
    (by simp)
    (by
      intro i _ hs
      unfold workerInfo.stopped at hs
      cases hw : i.worker with
      | none => simp
      | some w => simp [hw] at hs)
    (by
      intro i hi _ _
      exact hi)
    (by
      intro i w _ _ _
      simp)
    s h
  exact ⟨hall, fun name => engine.index_current
    (fun i => ¬ (i.starting = true ∧ i.worker.isSome = true)) s.eng name (by simp) hall⟩

/-- C4, on the sample run with two installs: the strict cycle check rejects
every cycle, the state is reachable, and its graph has no cycle. -/
theorem C4_installed_graph_acyclic_witness :
    (∀ ms, HasCycle ms → strictValidate ms ≠ none) ∧
      Reachable strictValidate (sampleRun installSteps) ∧
      (sampleRun installSteps).eng.manifolds.keys = ["a", "b"] ∧
      ¬ HasCycle (sampleRun installSteps).eng.manifolds :=
  ⟨strictValidate_rejects, sampleRun_reachable installSteps (by decide), by decide,
    C4_installed_graph_acyclic strictValidate strictValidate_rejects (sampleRun installSteps)
      (sampleRun_reachable installSteps (by decide))⟩

/-- C10, on the sample run with two installs and a started worker. -/
theorem C10_starting_excludes_worker_witness :
    Reachable strictValidate (sampleRun installSteps) ∧
      (sampleRun installSteps).eng.current.keys = ["a", "b"] ∧
      ¬ (((sampleRun installSteps).eng.current.index "a").starting = true ∧
        ((sampleRun installSteps).eng.current.index "a").worker.isSome = true) :=
  ⟨sampleRun_reachable installSteps (by decide), by decide,
    (C10_starting_excludes_worker strictValidate (sampleRun installSteps)
      (sampleRun_reachable installSteps (by decide))).2 "a"⟩

/-- C9: along every run of a new engine in which no stopped ticket carries an
error that satisfies `IsFatal`, once the loop has returned it has returned the
`ErrDying` sentinel and `Wait` returns nil. -/
theorem C9_wait_nil_without_fatal (config : EngineConfig) (e : engine) (acts : List action)
    (s : loopState) (hnew : NewEngine config = (some e, none))
    (hrun : (loopState.start e).exec Validate acts = some s)
    (hnf : ∀ name err isFatal, action.recv (ticket.stopped name err) ∈ acts →
      config.IsFatal = some isFatal → isFatal err = false)
    (hret : s.result.isSome = true) :
    s.eng.Wait = some none ∧ s.result = some Err.ErrDying := by
  have h0 := (newEngine_eq config e hnew).1
  have hinv := no_fatal_inv Validate config acts (loopState.start e) s
    (fun a ha name err isFatal hq hf => hnf name err isFatal (hq ▸ ha) hf)
    ⟨by rw [h0]; rfl, by rw [h0]; rfl, by intro h1; cases h1⟩ hrun
  obtain ⟨_, hw, hr⟩ := hinv
  obtain ⟨hr1, hr2⟩ := hr hret
  refine ⟨?_, hr1⟩
  unfold engine.Wait
  rw [if_pos hr2, hw]

/-- C9, on the sample engine: a worker runs, the engine is killed, the worker
exits with nil; the loop returns `ErrDying` and `Wait` returns nil. -/
theorem C9_wait_nil_without_fatal_witness :
    (sampleRun cleanShutdownSteps).result.isSome = true ∧
      (sampleRun cleanShutdownSteps).eng.Wait = some none ∧
      (sampleRun cleanShutdownSteps).result = some Err.ErrDying :=
  ⟨by decide,
    C9_wait_nil_without_fatal strictValidate sampleConfig sampleEngine cleanShutdownSteps
      (sampleRun cleanShutdownSteps) rfl rfl
      (by
        intro name err isFatal hmem hf
        simp only [cleanShutdownSteps, List.mem_cons, List.mem_singleton, action.recv.injEq,
          ticket.stopped.injEq, reduceCtorEq, false_or, List.not_mem_nil, or_false] at hmem
        obtain ⟨_, rfl⟩ := hmem
        simp only [sampleConfig, Option.some.injEq] at hf
        subst hf
        rfl)
      (by decide)⟩

/-- C6 as stated fails: on the sample engine killed while the runner of `a`
is starting, the engine is dying, the loop is still running, and when the loop
receives the install ticket for `b` the method `Install` returns nil and `b`
is installed. -/
theorem C6_install_on_dying_counterexample :
    (sampleRun killedWhileStartingSteps).eng.isDying = true ∧
      ((sampleRun killedWhileStartingSteps).Install strictValidate "b" leaf installCase.sent).map
        (fun r => (r.2, r.1.eng.manifolds.keys)) = some (none, ["a", "b"]) := by
  decide

/-- C6, amended: on a dying engine, `Install` returns the non-nil shutdown
error and the state it was given when its select takes the dying case, which
is the only case that can fire once the loop has returned; when the loop still
receives the install ticket, `Install` returns what `gotInstall` returns: on an
error `manifolds` is unchanged, and on nil the manifold is recorded under
`name`, `current[name]` is the empty (stopped) info and no runner is launched. -/
theorem C6_install_on_dying (s : loopState) (name : String) (manifold : Manifold)
    (hd : s.eng.isDying = true) :
    s.Install Validate name manifold installCase.dying =
        some (s, some (Err.New "engine is shutting down")) ∧
      (s.result.isSome = true → s.Install Validate name manifold installCase.sent = none) ∧
      (∀ s1 err, s.Install Validate name manifold installCase.sent = some (s1, err) →
        err = (s.eng.gotInstall Validate name manifold).2 ∧
        (err ≠ none → s1.eng.manifolds = s.eng.manifolds) ∧
        (err = none → s1.eng.manifolds.get? name = some manifold ∧
          s1.eng.current.get? name = some ⟨false, false, none⟩ ∧
          s1.eng.goroutines = s.eng.goroutines)) := by
  refine ⟨?_, ?_, ?_⟩
  · simp [loopState.Install, hd]
  · intro hr
    simp [loopState.Install, loopState.turn, hr]
  · intro s1 err h
    simp only [loopState.Install, Option.map_eq_some', Prod.mk.injEq] at h
    obtain ⟨s3, hturn, rfl, rfl⟩ := h
    obtain ⟨_, s2, hsel, rfl⟩ := turn_eq_some Validate s s3 _ hturn
    simp only [loopState.select, Option.some.injEq] at hsel
    subst hsel
    have hfields : ∀ x : loopState,
        x = (if (({ s with eng := (s.eng.gotInstall Validate name manifold).1 } : loopState).eng.isDying &&
              ({ s with eng := (s.eng.gotInstall Validate name manifold).1 } : loopState).eng.allStopped) = true then
            { ({ s with eng := (s.eng.gotInstall Validate name manifold).1 } : loopState) with
              result := (s.eng.gotInstall Validate name manifold).1.loopResult
              eng := { (s.eng.gotInstall Validate name manifold).1 with
                tomb := ((s.eng.gotInstall Validate name manifold).1.tomb.killed
                  (s.eng.gotInstall Validate name manifold).1.loopResult).Done } }
          else { s with eng := (s.eng.gotInstall Validate name manifold).1 }) →
        x.eng.manifolds = (s.eng.gotInstall Validate name manifold).1.manifolds ∧
          x.eng.current = (s.eng.gotInstall Validate name manifold).1.current ∧
          x.eng.goroutines = (s.eng.gotInstall Validate name manifold).1.goroutines := by
      intro x hx
      rw [hx]
      split_ifs <;> exact ⟨rfl, rfl, rfl⟩
    obtain ⟨hm, hc, hg⟩ := hfields _ rfl
    refine ⟨rfl, ?_, ?_⟩
    · intro herr
      rw [hm]
      rcases gotInstall_cases Validate s.eng name manifold with ⟨h1, _⟩ | ⟨_, h1⟩
      · rw [h1]
      · rw [h1] at herr
        exact absurd rfl herr
    · intro herr
      rw [hm, hc, hg]
      rcases gotInstall_cases Validate s.eng name manifold with ⟨_, h2⟩ | ⟨_, h1⟩
      · exact absurd herr h2
      · rw [h1]
        have hd2 : (s.eng.recordManifold name manifold).isDying = true := by
          simpa [engine.isDying] using hd
        obtain ⟨hcur, hgo⟩ := engine.requestStart_dying (s.eng.recordManifold name manifold) name 0 hd2
        show ((s.eng.recordManifold name manifold).requestStart name 0).manifolds.get? name = some manifold ∧
          ((s.eng.recordManifold name manifold).requestStart name 0).current.get? name =
            some ⟨false, false, none⟩ ∧
          ((s.eng.recordManifold name manifold).requestStart name 0).goroutines = s.eng.goroutines
        rw [engine.requestStart_manifolds, hcur, hgo]
        simp

/-- C6 amended, on the sample engine killed while the runner of `a` is
starting: the dying case of `Install` returns the shutdown error. -/
theorem C6_install_on_dying_witness :
    (sampleRun killedWhileStartingSteps).eng.isDying = true ∧
      (sampleRun killedWhileStartingSteps).Install strictValidate "b" leaf installCase.dying =
        some (sampleRun killedWhileStartingSteps, some (Err.New "engine is shutting down")) :=
  ⟨by decide, (C6_install_on_dying strictValidate (sampleRun killedWhileStartingSteps) "b" leaf
    (by decide)).1⟩

/-- C7, evaluated: on the sample engine two runners stop with fatal errors, the
low one first.  `Wait` returns the low error, while the left fold of
`MoreImportant` over the fatal errors observed is the high one. -/
theorem C7_wait_returns_first_fatal :
    (sampleRun twoFatalSteps).eng.Wait = some (some fatalLow) ∧
      fatalErrorsObserved sampleIsFatal twoFatalSteps = [some fatalLow, some fatalHigh] ∧
      foldMoreImportant sampleMoreImportant (fatalErrorsObserved sampleIsFatal twoFatalSteps) =
        some fatalHigh := by
  decide

/-- C8 as stated fails: on the sample engine a second worker is reported for
`a`, which already holds one.  The engine becomes dying and the tomb records
the error that describes the violation, but once the loop has returned `Wait`
returns nil. -/
theorem C8_violation_counterexample :
    ((sampleRun (duplicateStartSteps.take 2)).eng.current.index "a").worker.isSome = true ∧
      (sampleRun (duplicateStartSteps.take 3)).eng.isDying = true ∧
      (sampleRun duplicateStartSteps).eng.tomb.reason =
        some (Err.New ("fatal: unexpected " ++ quoted "a" ++ " manifold worker start")) ∧
      (sampleRun duplicateStartSteps).result = some Err.ErrDying ∧
      (sampleRun duplicateStartSteps).eng.Wait = some none := by
  decide

/-- C8, amended: whenever an engine invariant violation occurs, the engine
becomes dying, the tomb is killed with an error that describes the violation
(which it records as its reason unless it holds an earlier one) and
`worstError` is left as it was: for a started ticket whose name already holds a
worker, for a stopped ticket whose name has a stopped info, and for
`requestStart` of an unknown name or of a name whose info is not stopped.
`Wait` returns `worstError`, not the reason of the tomb: along every run from a
state without a recorded error in which no stopped ticket carries a fatal
error, `Wait` returns nil whenever it returns. -/
theorem C8_violation_kills_tomb (e : engine) (name : String) :
    (∀ w, (e.current.index name).worker.isSome = true →
      (e.gotStarted name w).isDying = true ∧
      (e.gotStarted name w).tomb = e.tomb.killed
        (some (Err.New ("fatal: unexpected " ++ quoted name ++ " manifold worker start"))) ∧
      (e.gotStarted name w).worstError = e.worstError) ∧
    (∀ err, (e.current.index name).stopped = true →
      ∃ e1, e.gotStopped name err = some e1 ∧ e1.isDying = true ∧
        e1.tomb = e.tomb.killed
          (some (Err.New ("fatal: unexpected " ++ quoted name ++ " manifold worker stop"))) ∧
        e1.worstError = e.worstError) ∧
    (∀ delay, e.manifolds.get? name = none →
      (e.requestStart name delay).isDying = true ∧
      (e.requestStart name delay).tomb.reason =
        (e.tomb.killed (some (Err.New ("fatal: unknown manifold " ++ quoted name)))).reason ∧
      (e.requestStart name delay).worstError = e.worstError) ∧
    (∀ delay m, e.manifolds.get? name = some m → (e.current.index name).stopped = false →
      (e.requestStart name delay).isDying = true ∧
      (e.requestStart name delay).tomb = e.tomb.killed
        (some (Err.New ("fatal: trying to start a second " ++ quoted name ++
          " manifold worker"))) ∧
      (e.requestStart name delay).worstError = e.worstError) ∧
    (∀ msg, (e.tomb.killed (some (Err.New msg))).reason =
      if e.tomb.reason.isNone then some (Err.New msg) else e.tomb.reason) ∧
    (∀ x, e.Wait = some x → x = e.worstError) ∧
    (∀ (s s1 : loopState) (acts : List action), s.eng.worstError = none → s.result = none →
      (∀ a ∈ acts, ∀ n err isFatal, a = action.recv (ticket.stopped n err) →
        s.eng.config.IsFatal = some isFatal → isFatal err = false) →
      s.exec Validate acts = some s1 → ∀ x, s1.eng.Wait = some x → x = none) := by
  refine ⟨?_, ?_, ?_, ?_, ?_, ?_, ?_⟩
  · intro w hw
    have heq : e.gotStarted name w =
        { e.tombKill (some (Err.New ("fatal: unexpected " ++ quoted name ++
            " manifold worker start"))) with kills := e.kills ++ [w] } := by
      unfold engine.gotStarted
      simp only [hw, if_true]
      rfl
    rw [heq]
    exact ⟨engine.tombKill_isDying e _, rfl, rfl⟩
  · intro err hs
    have heq : e.gotStopped name err =
        some { e.tombKill (some (Err.New ("fatal: unexpected " ++ quoted name ++
            " manifold worker stop"))) with current := e.current.set name default } := by
      unfold engine.gotStopped engine.stoppedChecks
      simp only [hs, if_true, Option.map_some']
      have hd : ({ e.tombKill (some (Err.New ("fatal: unexpected " ++ quoted name ++
            " manifold worker stop"))) with current := e.current.set name default } :
          engine).isDying = true :=
        engine.tombKill_isDying e _
      simp only [engine.tombKill_current]
      rw [if_pos hd]
    exact ⟨_, heq, engine.tombKill_isDying e _, rfl, rfl⟩
  · intro delay hm
    refine ⟨?_, ?_, engine.requestStart_worstError e name delay⟩
    · unfold engine.requestStart
      cases hs : (e.current.index name).stopped <;> simp [hm, hs]
    · unfold engine.requestStart
      cases hs : (e.current.index name).stopped <;>
        cases hr : e.tomb.reason <;>
        simp [hm, hs, hr, engine.tombKill, Tomb.killed, engine.isDying]
  · intro delay m hm hs
    refine ⟨?_, ?_, engine.requestStart_worstError e name delay⟩
    · unfold engine.requestStart
      simp [hm, hs]
    · unfold engine.requestStart
      simp [hm, hs, engine.tombKill, Tomb.killed, engine.isDying]
  · intro msg
    simp [Tomb.killed]
  · intro x hx
    unfold engine.Wait at hx
    split_ifs at hx
    exact (Option.some.inj hx).symm
  · intro s s1 acts hw hr hnf hrun x hx
    obtain ⟨_, hw1, _⟩ := no_fatal_inv Validate s.eng.config acts s s1 hnf
      ⟨rfl, hw, fun h1 => by rw [hr] at h1; cases h1⟩ hrun
    unfold engine.Wait at hx
    split_ifs at hx
    rw [← Option.some.inj hx, hw1]

/-- C8 amended, on the sample engine whose worker of `a` is running: a second
worker reported for `a` leaves the engine dying, with the violation as the
reason of the tomb and no `worstError`. -/
theorem C8_violation_kills_tomb_witness :
    ((sampleRun runningSteps).eng.current.index "a").worker.isSome = true ∧
      ((sampleRun runningSteps).eng.gotStarted "a" worker2).isDying = true ∧
      ((sampleRun runningSteps).eng.gotStarted "a" worker2).tomb.reason =
        some (Err.New ("fatal: unexpected " ++ quoted "a" ++ " manifold worker start")) ∧
      ((sampleRun runningSteps).eng.gotStarted "a" worker2).worstError = none := by
  obtain ⟨h1, h2, h3⟩ :=
    (C8_violation_kills_tomb strictValidate (sampleRun runningSteps).eng "a").1 worker2 rfl
  refine ⟨rfl, h1, ?_, ?_⟩
  · rw [h2]
    decide
  · rw [h3]
    rfl

/-- C16: when `current[name]` holds no worker and is stopping, or the engine is
dying, `gotStarted` calls `Kill` on the incoming worker exactly once and changes
nothing else: `current` (the entry of `name` included), `manifolds`,
`dependents` and `worstError` are as before, so the entry is stopped after the
call exactly when it was before. -/
theorem C16_unwanted_worker_killed (e : engine) (name : String) (w : Worker)
    (hw : (e.current.index name).worker = none)
    (h : (e.current.index name).stopping = true ∨ e.isDying = true) :
    e.gotStarted name w = { e with kills := e.kills ++ [w] } ∧
      (e.gotStarted name w).kills = e.kills ++ [w] ∧
      (e.gotStarted name w).current = e.current ∧
      (e.gotStarted name w).manifolds = e.manifolds ∧
      (e.gotStarted name w).dependents = e.dependents ∧
      (e.gotStarted name w).worstError = e.worstError ∧
      ((e.gotStarted name w).current.index name).stopped = (e.current.index name).stopped := by
  have hor : ((e.current.index name).stopping || e.isDying) = true := by
    rcases h with h | h <;> simp [h]
  have heq : e.gotStarted name w = { e with kills := e.kills ++ [w] } := by
    unfold engine.gotStarted
    simp only [hw, Option.isSome_none, Bool.false_eq_true, if_false, hor, if_true]
  rw [heq]
  exact ⟨rfl, rfl, rfl, rfl, rfl, rfl, rfl⟩

/-- C17: when `current[name]` already holds a worker, `gotStarted` kills the
tomb (the engine is dying afterwards), calls `Kill` on the incoming worker, and
leaves `current`, and with it the worker recorded for `name`, unchanged. -/
theorem C17_duplicate_start (e : engine) (name : String) (w : Worker)
    (hw : (e.current.index name).worker.isSome = true) :
    (e.gotStarted name w).isDying = true ∧
      (e.gotStarted name w).kills = e.kills ++ [w] ∧
      (e.gotStarted name w).current = e.current ∧
      ((e.gotStarted name w).current.index name).worker = (e.current.index name).worker := by
  have heq : e.gotStarted name w =
      { e.tombKill (some (Err.New ("fatal: unexpected " ++ quoted name ++ " manifold worker start"))) with
        kills := e.kills ++ [w] } := by
    unfold engine.gotStarted
    simp only [hw, if_true]
    rfl
  rw [heq]
  refine ⟨?_, rfl, rfl, rfl⟩
  exact engine.tombKill_isDying e _

/-- C18: when `current[name]` is stopped, `gotStopped` returns for every error,
the engine is dying afterwards, no runner is launched, and every name whose
info was stopped before still has a stopped info. -/
theorem C18_unexpected_stop (e : engine) (name : String) (err : error)
    (hs : (e.current.index name).stopped = true) :
    ∃ e1, e.gotStopped name err = some e1 ∧ e1.isDying = true ∧
      e1.goroutines = e.goroutines ∧
      (∀ other, (e.current.index other).stopped = true → (e1.current.index other).stopped = true) := by
  have heq : e.gotStopped name err =
      some { e.tombKill (some (Err.New ("fatal: unexpected " ++ quoted name ++ " manifold worker stop"))) with
        current := e.current.set name default } := by
    unfold engine.gotStopped engine.stoppedChecks
    simp only [hs, if_true, Option.map_some']
    have hd : ({ e.tombKill (some (Err.New ("fatal: unexpected " ++ quoted name ++ " manifold worker stop"))) with
        current := e.current.set name default } : engine).isDying = true :=
      engine.tombKill_isDying e _
    simp only [engine.tombKill_current]
    rw [if_pos hd]
  refine ⟨_, heq, engine.tombKill_isDying e _, rfl, ?_⟩
  intro other ho
  by_cases hn : name = other
  · subst hn
    simp
  · show ((e.current.set name default).index other).stopped = true
    rw [Map.index_set_ne _ _ _ _ hn]
    exact ho

/-- C15: in every reachable state of a live engine, when `current[name]` holds
no worker and is not stopping, `gotStarted` assigns `current[name]` the info
with the worker, not starting and not stopping, calls `Kill` on no worker
itself, and then bounces the dependents of `name`: every dependent whose info
was stopped is starting, with a runner launched for it with the bounce delay;
every dependent whose info was starting or held a worker is stopping, and its
worker, if it had one, is still recorded and has been killed; the engine stays
live and the info of every other name is unchanged.  The entry of `name` is
left as assigned because `name` is not one of its own dependents, which holds
whenever the cycle check rejects every set with a cycle; the workers killed
were recorded for other names. -/
theorem C15_worker_recorded (s : loopState) (h : Reachable Validate s) (name : String)
    (w : Worker) (hd : s.eng.isDying = false) (hw : (s.eng.current.index name).worker = none)
    (hs : (s.eng.current.index name).stopping = false) :
    s.eng.gotStarted name w =
        ({ s.eng with current := s.eng.current.set name ⟨false, false, some w⟩ } :
          engine).bounceDependents name ∧
      (s.eng.gotStarted name w).isDying = false ∧
      ((∀ ms, HasCycle ms → Validate ms ≠ none) → name ∉ s.eng.dependents.index name) ∧
      (name ∉ s.eng.dependents.index name →
        (s.eng.gotStarted name w).current.get? name = some ⟨false, false, some w⟩) ∧
      ∃ launched killed,
        (s.eng.gotStarted name w).goroutines = s.eng.goroutines ++ launched ∧
        (s.eng.gotStarted name w).kills = s.eng.kills ++ killed ∧
        (∀ g ∈ launched,
          g.name ∈ s.eng.dependents.index name ∧ g.delay = s.eng.config.BounceDelay) ∧
        (name ∉ s.eng.dependents.index name →
          ∀ x ∈ killed, ∃ d ∈ s.eng.dependents.index name, d ≠ name ∧
            (s.eng.current.index d).worker = some x) ∧
        (∀ d ∈ s.eng.dependents.index name, d ≠ name →
          ((s.eng.current.index d).stopped = true →
            ((s.eng.gotStarted name w).current.index d).starting = true ∧
            ∃ g ∈ launched, g.name = d ∧ g.delay = s.eng.config.BounceDelay) ∧
          ((s.eng.current.index d).stopped = false →
            ((s.eng.gotStarted name w).current.index d).stopping = true ∧
            ∀ x, (s.eng.current.index d).worker = some x →
              ((s.eng.gotStarted name w).current.index d).worker = some x ∧
              x ∈ (s.eng.gotStarted name w).kills)) ∧
        (∀ other, other ∉ s.eng.dependents.index name → other ≠ name →
          (s.eng.gotStarted name w).current.get? other = s.eng.current.get? other) := by
  have heq : s.eng.gotStarted name w =
      ({ s.eng with current := s.eng.current.set name ⟨false, false, some w⟩ } :
        engine).bounceDependents name := by
    unfold engine.gotStarted
    simp only [hw, hs, hd, Option.isSome_none, Bool.false_eq_true, if_false, Bool.or_self]
  have hKX : ∀ n x,
      (({ s.eng with current := s.eng.current.set name ⟨false, false, some w⟩ } :
        engine).current.index n).stopping = true →
      (({ s.eng with current := s.eng.current.set name ⟨false, false, some w⟩ } :
        engine).current.index n).worker = some x →
      x ∈ ({ s.eng with current := s.eng.current.set name ⟨false, false, some w⟩ } :
        engine).kills := by
    intro n x
    show ((s.eng.current.set name ⟨false, false, some w⟩).index n).stopping = true →
      ((s.eng.current.set name ⟨false, false, some w⟩).index n).worker = some x → x ∈ s.eng.kills
    by_cases hn : name = n
    · subst hn
      rw [Map.index_set_self]
      intro hst
      cases hst
    · rw [Map.index_set_ne _ _ _ _ hn]
      exact asked_to_stop_inv Validate s h n x
  obtain ⟨hlive, launched, killed, hg, hk, hl, hkm, heff, hframe⟩ :=
    engine.bounceDependents_effect
      ({ s.eng with current := s.eng.current.set name ⟨false, false, some w⟩ } : engine) name hd
      (fun d hdm => dependents_installed Validate s h name d hdm) hKX
  have hXd : ∀ d, d ≠ name →
      ({ s.eng with current := s.eng.current.set name ⟨false, false, some w⟩ } :
        engine).current.index d = s.eng.current.index d := by
    intro d hne
    exact Map.index_set_ne _ _ _ _ (Ne.symm hne)
  refine ⟨heq, by rw [heq]; exact hlive,
    fun hV => not_self_dependent Validate hV s h name, ?_, launched, killed,
    by rw [heq]; exact hg, by rw [heq]; exact hk, hl, ?_, ?_, ?_⟩
  · intro hself
    rw [heq, hframe name hself]
    exact Map.get?_set_self _ _ _
  · intro hself x hx
    obtain ⟨d, hdm, hdw⟩ := hkm x hx
    have hne : d ≠ name := fun hdn => hself (hdn ▸ hdm)
    rw [hXd d hne] at hdw
    exact ⟨d, hdm, hne, hdw⟩
  · intro d hdm hne
    obtain ⟨j1, j2⟩ := heff d hdm
    rw [hXd d hne] at j1 j2
    rw [heq]
    exact ⟨j1, j2⟩
  · intro other ho hon
    rw [heq, hframe other ho]
    exact Map.get?_set_ne _ _ _ _ (Ne.symm hon)

/-- C15, on the sample engine with `b` and `c` depending on `a`, `a` starting,
`b` stopped and `c` running: when the worker of `a` is reported it is recorded,
`b` is started with the bounce delay and `c` is asked to stop. -/
theorem C15_worker_recorded_witness :
    Reachable acceptAll fanState ∧ fanState.eng.isDying = false ∧
      (fanState.eng.current.index "a").worker = none ∧
      (fanState.eng.current.index "a").stopping = false ∧
      fanState.eng.dependents.index "a" = ["b", "c"] ∧
      (fanState.eng.current.index "b").stopped = true ∧
      (fanState.eng.current.index "c").worker = some worker2 ∧
      ((fanState.eng.gotStarted "a" worker1).current.index "b").starting = true ∧
      ((fanState.eng.gotStarted "a" worker1).current.index "c").stopping = true ∧
      (fanState.eng.gotStarted "a" worker1).kills.map Worker.id = [2] ∧
      (fanState.eng.gotStarted "a" worker1).current.get? "a" =
        some ⟨false, false, some worker1⟩ :=
  ⟨⟨sampleConfig, sampleEngine, fanSteps, rfl, rfl⟩, rfl, rfl, rfl, by decide, rfl, rfl,
    (((C15_worker_recorded acceptAll fanState ⟨sampleConfig, sampleEngine, fanSteps, rfl, rfl⟩
      "a" worker1 rfl rfl rfl).2.2.2.2.choose_spec.choose_spec.2.2.2.2.1 "b" (by decide)
      (by decide)).1 rfl).1,
    by decide, by decide,
    (C15_worker_recorded acceptAll fanState ⟨sampleConfig, sampleEngine, fanSteps, rfl, rfl⟩
      "a" worker1 rfl rfl rfl).2.2.2.1 (by decide)⟩

/-- C16, on the sample engine killed while the runner of `a` is starting. -/
theorem C16_unwanted_worker_killed_witness :
    ((sampleRun killedWhileStartingSteps).eng.current.index "a").worker = none ∧
      (sampleRun killedWhileStartingSteps).eng.isDying = true ∧
      ((sampleRun killedWhileStartingSteps).eng.gotStarted "a" worker1).kills = [worker1] ∧
      ((sampleRun killedWhileStartingSteps).eng.gotStarted "a" worker1).current =
        (sampleRun killedWhileStartingSteps).eng.current :=
  have h := C16_unwanted_worker_killed (sampleRun killedWhileStartingSteps).eng "a" worker1 rfl
    (Or.inr rfl)
  ⟨rfl, rfl, h.2.1, h.2.2.1⟩

/-- C17, on the sample engine whose worker of `a` is running. -/
theorem C17_duplicate_start_witness :
    ((sampleRun runningSteps).eng.current.index "a").worker.isSome = true ∧
      ((sampleRun runningSteps).eng.gotStarted "a" worker2).isDying = true ∧
      ((sampleRun runningSteps).eng.gotStarted "a" worker2).kills = [worker2] :=
  have h := C17_duplicate_start (sampleRun runningSteps).eng "a" worker2 rfl
  ⟨rfl, h.1, h.2.1⟩

/-- C18, on the new sample engine: a stopped ticket for a name without a runner. -/
theorem C18_unexpected_stop_witness :
    (sampleEngine.current.index "a").stopped = true ∧
      ∃ e1, sampleEngine.gotStopped "a" none = some e1 ∧ e1.isDying = true ∧
        e1.goroutines = sampleEngine.goroutines ∧
        (∀ other, (sampleEngine.current.index other).stopped = true →
          (e1.current.index other).stopped = true) :=
  ⟨rfl, C18_unexpected_stop sampleEngine "a" none rfl⟩

/-- C11 as stated fails: on the sample engine killed while the runner of `a` is
starting, after the loop has handled the dying signal the info of `a` is
stopping and still starting, with no worker. -/
theorem C11_stopping_while_starting_counterexample :
    Reachable strictValidate (sampleRun stopWhileStartingSteps) ∧
      (sampleRun stopWhileStartingSteps).eng.current.keys = ["a"] ∧
      ((sampleRun stopWhileStartingSteps).eng.current.index "a").stopping = true ∧
      ((sampleRun stopWhileStartingSteps).eng.current.index "a").starting = true ∧
      ((sampleRun stopWhileStartingSteps).eng.current.index "a").worker.isSome = false :=
  ⟨sampleRun_reachable stopWhileStartingSteps (by decide), by decide, by decide, by decide,
    by decide⟩

/-- C11, amended: in every state reachable from a new engine, an entry of
`current` with `stopping` set is not stopped: either it holds a worker and is
not starting, or it is starting and holds no worker yet. -/
theorem C11_stopping_not_stopped (s : loopState) (h : Reachable Validate s) :
    ∀ p ∈ s.eng.current.entries, p.2.stopping = true →
      (p.2.starting = false ∧ p.2.worker.isSome = true) ∨
        (p.2.starting = true ∧ p.2.worker = none) := by
  have hall := infos_inv Validate
    (fun i => ¬ (i.starting = true ∧ i.worker.isSome = true) ∧
      (i.stopping = true → i.stopped = false))
    (by simp)
    (by
      intro i _ hs
      unfold workerInfo.stopped at hs
      cases hw : i.worker with
      | none => simp [workerInfo.stopped]
      | some w => simp [hw] at hs)
    (by
      intro i hi _ hs
      exact ⟨hi.1, fun _ => hs⟩)
    (by
      intro i w _ _ _
      simp [workerInfo.stopped])
    s h
  intro p hp hstop
  obtain ⟨h1, h2⟩ := hall p hp
  have h3 := h2 hstop
  unfold workerInfo.stopped at h3
  cases hw : p.2.worker with
  | none =>
    cases hst : p.2.starting with
    | false => simp [hw, hst] at h3
    | true => exact Or.inr ⟨rfl, rfl⟩
  | some w =>
    cases hst : p.2.starting with
    | false => exact Or.inl ⟨rfl, rfl⟩
    | true => exact absurd ⟨hst, by simp [hw]⟩ h1

/-- C11 amended, on the sample engine killed while the runner of `a` is
starting: the stopping info of `a` is starting and holds no worker. -/
theorem C11_stopping_not_stopped_witness :
    Reachable strictValidate (sampleRun stopWhileStartingSteps) ∧
      ∀ p ∈ (sampleRun stopWhileStartingSteps).eng.current.entries, p.2.stopping = true →
        (p.2.starting = false ∧ p.2.worker.isSome = true) ∨
          (p.2.starting = true ∧ p.2.worker = none) :=
  ⟨sampleRun_reachable stopWhileStartingSteps (by decide),
    C11_stopping_not_stopped strictValidate (sampleRun stopWhileStartingSteps)
      (sampleRun_reachable stopWhileStartingSteps (by decide))⟩

/-- C13: in every state reachable from a new engine, for all names `n` and
`d`, `d` occurs in `dependents[n]` if and only if a manifold is installed under
`d` and `n` occurs among its inputs, whether or not `n` itself is installed. -/
theorem C13_dependents_reverse_index (s : loopState) (h : Reachable Validate s) :
    ∀ n d, d ∈ s.eng.dependents.index n ↔
      ∃ m, s.eng.manifolds.get? d = some m ∧ n ∈ m.Inputs := by
  intro n d
  have hc := dependents_inv Validate s h n d
  rw [← List.count_pos_iff, hc, List.count_pos_iff]
  unfold Map.index
  cases hg : s.eng.manifolds.get? d with
  | none =>
    simp only [Option.getD_none]
    constructor
    · intro hx
      exact absurd hx (List.not_mem_nil n)
    · rintro ⟨m, hm, _⟩
      cases hm
  | some m =>
    simp only [Option.getD_some]
    constructor
    · intro hx
      exact ⟨m, rfl, hx⟩
    · rintro ⟨m2, hm, hx⟩
      cases hm
      exact hx

/-- C13, on the sample run with two installs: `b` names `c` as an input. -/
theorem C13_dependents_reverse_index_witness :
    Reachable strictValidate (sampleRun installSteps) ∧
      (sampleRun installSteps).eng.dependents.index "c" = ["b"] ∧
      ("b" ∈ (sampleRun installSteps).eng.dependents.index "c" ↔
        ∃ m, (sampleRun installSteps).eng.manifolds.get? "b" = some m ∧ "c" ∈ m.Inputs) :=
  ⟨sampleRun_reachable installSteps (by decide), by decide,
    C13_dependents_reverse_index strictValidate (sampleRun installSteps)
      (sampleRun_reachable installSteps (by decide)) "c" "b"⟩

/-- C14 as stated fails: after the install of a manifold `b` whose inputs name
`a` twice, `b` occurs twice in `dependents[a]`. -/
theorem C14_dependents_duplicate_counterexample :
    Reachable strictValidate (sampleRun doubleInputSteps) ∧
      (sampleRun doubleInputSteps).eng.manifolds.keys = ["b"] ∧
      (sampleRun doubleInputSteps).eng.dependents.index "a" = ["b", "b"] :=
  ⟨sampleRun_reachable doubleInputSteps (by decide), by decide, by decide⟩

/-- C14, amended: in every reachable state a name occurs in `dependents[n]`
exactly as often as `n` occurs among the inputs of the manifold installed under
that name; so no name occurs more than once in any `dependents[n]` as long as
no installed manifold names the same input twice. -/
theorem C14_dependents_multiplicity (s : loopState) (h : Reachable Validate s) :
    (∀ n d, (s.eng.dependents.index n).count d = (s.eng.manifolds.index d).Inputs.count n) ∧
      ((∀ d m, s.eng.manifolds.get? d = some m → m.Inputs.Nodup) →
        ∀ n, (s.eng.dependents.index n).Nodup) := by
  have hc := dependents_inv Validate s h
  refine ⟨hc, fun hnd n => ?_⟩
  rw [List.nodup_iff_count_le_one]
  intro d
  rw [hc n d]
  unfold Map.index
  cases hg : s.eng.manifolds.get? d with
  | none =>
    show List.count n ([] : List String) ≤ 1
    simp
  | some m =>
    simp only [Option.getD_some]
    exact List.nodup_iff_count_le_one.mp (hnd d m hg) n

/-- C14 amended, on the sample run that installs a manifold naming `a` twice. -/
theorem C14_dependents_multiplicity_witness :
    Reachable strictValidate (sampleRun doubleInputSteps) ∧
      ((sampleRun doubleInputSteps).eng.dependents.index "a").count "b" =
        ((sampleRun doubleInputSteps).eng.manifolds.index "b").Inputs.count "a" ∧
      ((sampleRun doubleInputSteps).eng.manifolds.index "b").Inputs.count "a" = 2 :=
  ⟨sampleRun_reachable doubleInputSteps (by decide),
    (C14_dependents_multiplicity strictValidate (sampleRun doubleInputSteps)
      (sampleRun_reachable doubleInputSteps (by decide))).1 "a" "b", by decide⟩

/-- C12: along every run of a new engine in which each started and each
stopped ticket names a manifold installed when the loop receives it, `current`
has exactly one entry per installed manifold and none for any other name: its
keys are distinct and a name is a key of `current` if and only if it is a key
of `manifolds`. -/
theorem C12_current_keys_installed (config : EngineConfig) (e : engine) (acts : List action)
    (s : loopState) (hnew : NewEngine config = (some e, none))
    (hrun : (loopState.start e).exec Validate acts = some s)
    (hg : (loopState.start e).installedOnly Validate acts = true) :
    s.eng.current.keys.Nodup ∧ ∀ k, k ∈ s.eng.current.keys ↔ k ∈ s.eng.manifolds.keys := by
  have h0 := (newEngine_eq config e hnew).1
  have hk := exec_keys Validate acts (loopState.start e) s hg
    (by rw [h0]; exact ⟨rfl, List.nodup_nil⟩) hrun
  exact ⟨hk.2, fun k => by rw [hk.1]⟩

/-- C12, on the sample run with two installs and a started worker. -/
theorem C12_current_keys_installed_witness :
    (sampleRun installSteps).eng.manifolds.keys = ["a", "b"] ∧
      (sampleRun installSteps).eng.current.keys.Nodup ∧
      ∀ k, k ∈ (sampleRun installSteps).eng.current.keys ↔
        k ∈ (sampleRun installSteps).eng.manifolds.keys :=
  ⟨by decide,
    C12_current_keys_installed strictValidate sampleConfig sampleEngine installSteps
      (sampleRun installSteps) rfl rfl (by decide)⟩

/-- C19: in every reachable state of a live engine, for a name whose info is
not stopped and not stopping and an error that is nil or `ErrMissing` and not
fatal, `gotStopped` returns, leaves `current[name]` empty (stopped) and launches
no runner for `name`. -/
theorem C19_clean_exit_not_restarted (s : loopState) (h : Reachable Validate s) (name : String)
    (err : error) (isFatal : error → Bool) (hd : s.eng.isDying = false)
    (hns : (s.eng.current.index name).stopped = false)
    (hstop : (s.eng.current.index name).stopping = false)
    (herr : err = none ∨ err = some Err.ErrMissing)
    (hf : s.eng.config.IsFatal = some isFatal) (hnf : isFatal err = false) :
    ∃ e1, s.eng.gotStopped name err = some e1 ∧
      e1.current.get? name = some ⟨false, false, none⟩ ∧
      ∃ launched, e1.goroutines = s.eng.goroutines ++ launched ∧
        ∀ g ∈ launched, g.name ≠ name := by
  have hlive := engine.gotStopped_live s.eng name err isFatal hd hns hf hnf
  have hrestart : ({ s.eng with current := s.eng.current.set name default } : engine).stoppedRestart
      name (s.eng.current.index name) err =
      ({ s.eng with current := s.eng.current.set name default } : engine) := by
    unfold engine.stoppedRestart
    rw [hstop]
    rcases herr with rfl | rfl <;> rfl
  rw [hrestart] at hlive
  refine ⟨_, hlive, ?_⟩
  by_cases hw : (s.eng.current.index name).worker.isSome = true
  · rw [if_pos hw]
    have hself : name ∉ s.eng.dependents.index name := by
      intro hmem
      have := self_dependent_inv Validate s h name hmem hw
      rw [hstop] at this
      cases this
    obtain ⟨h1, _, ⟨launched, h3, h3m⟩, _⟩ := engine.bounceDependents_frame
      ({ s.eng with current := s.eng.current.set name default } : engine) name
    refine ⟨?_, launched, h3, ?_⟩
    · rw [h1 name hself]
      exact Map.get?_set_self _ _ _
    · intro g hg hgn
      exact hself (hgn ▸ h3m g hg)
  · rw [if_neg hw]
    exact ⟨Map.get?_set_self _ _ _, [], by simp, by simp⟩

/-- C19, on the sample engine whose worker of `a` is running: the worker exits
with nil. -/
theorem C19_clean_exit_not_restarted_witness :
    Reachable strictValidate (sampleRun runningSteps) ∧
      ((sampleRun runningSteps).eng.current.index "a").stopped = false ∧
      ∃ e1, (sampleRun runningSteps).eng.gotStopped "a" none = some e1 ∧
        e1.current.get? "a" = some ⟨false, false, none⟩ ∧
        ∃ launched, e1.goroutines = (sampleRun runningSteps).eng.goroutines ++ launched ∧
          ∀ g ∈ launched, g.name ≠ "a" :=
  ⟨sampleRun_reachable runningSteps (by decide), rfl,
    C19_clean_exit_not_restarted strictValidate (sampleRun runningSteps)
      (sampleRun_reachable runningSteps (by decide)) "a" none sampleIsFatal rfl rfl rfl
      (Or.inl rfl) rfl rfl⟩

/-- The restart of `gotStopped`: on a live engine, for an installed name that is
not one of its own dependents and whose info is not stopped, and a non-fatal
error, `gotStopped` launches a runner for the name with delay `BounceDelay`
when the info was stopping (whatever the error), and with delay `ErrorDelay`
when it was not and the error is neither nil nor `ErrMissing`; in both cases
`current[name]` becomes starting, not stopping, without a worker, and every
other runner launched by the call is a runner of another name. -/
theorem engine.gotStopped_restart (e : engine) (name : String) (err : error)
    (isFatal : error → Bool) (m : Manifold) (hd : e.isDying = false)
    (hns : (e.current.index name).stopped = false)
    (hf : e.config.IsFatal = some isFatal) (hnf : isFatal err = false)
    (hm : e.manifolds.get? name = some m) (hself : name ∉ e.dependents.index name)
    (hcase : (e.current.index name).stopping = true ∨
      (err ≠ none ∧ err ≠ some Err.ErrMissing)) :
    ∃ e1, e.gotStopped name err = some e1 ∧
      e1.current.get? name = some ⟨true, false, none⟩ ∧
      ∃ g launched, g.name = name ∧ g.start = m.Start ∧
        g.delay = (if (e.current.index name).stopping then e.config.BounceDelay
          else e.config.ErrorDelay) ∧
        e1.goroutines = e.goroutines ++ g :: launched ∧ ∀ x ∈ launched, x.name ≠ name := by
  have hlive := engine.gotStopped_live e name err isFatal hd hns hf hnf
  have hrestart : ({ e with current := e.current.set name default } : engine).stoppedRestart
      name (e.current.index name) err =
      ({ e with current := e.current.set name default } : engine).requestStart name
        (if (e.current.index name).stopping then e.config.BounceDelay else e.config.ErrorDelay) := by
    unfold engine.stoppedRestart
    by_cases hst : (e.current.index name).stopping = true
    · simp only [hst, if_true]
    · rcases hcase with hc | ⟨hc1, hc2⟩
      · exact absurd hc hst
      · simp only [hst, Bool.false_eq_true, if_false]
        cases err with
        | none => exact absurd rfl hc1
        | some x =>
          cases x with
          | ErrMissing => exact absurd rfl hc2
          | ErrDying => rfl
          | New msg => rfl
          | Annotate cause msg => rfl
          | Trace cause => rfl
  obtain ⟨g, hg1, hg2, hg3, hg4, hg5⟩ := engine.requestStart_launch
    ({ e with current := e.current.set name default } : engine) name
    (if (e.current.index name).stopping then e.config.BounceDelay else e.config.ErrorDelay) m
    hm (by simp) hd
  have hcur : (({ e with current := e.current.set name default } : engine).requestStart name
      (if (e.current.index name).stopping then e.config.BounceDelay
        else e.config.ErrorDelay)).current.get? name = some ⟨true, false, none⟩ := by
    rw [hg5]
    simp
  rw [hrestart] at hlive
  refine ⟨_, hlive, ?_⟩
  by_cases hw : (e.current.index name).worker.isSome = true
  · rw [if_pos hw]
    obtain ⟨h1, _, ⟨launched, h3, h3m⟩, _⟩ := engine.bounceDependents_frame
      (({ e with current := e.current.set name default } : engine).requestStart name
        (if (e.current.index name).stopping then e.config.BounceDelay else e.config.ErrorDelay))
      name
    rw [engine.requestStart_dependents] at h1 h3m
    refine ⟨?_, g, launched, hg1, hg3, hg2, ?_, ?_⟩
    · rw [h1 name hself]
      exact hcur
    · rw [h3, hg4]
      simp
    · intro x hx hxn
      exact hself (hxn ▸ h3m x hx)
  · rw [if_neg hw]
    exact ⟨hcur, g, [], hg1, hg3, hg2, hg4, by simp⟩

/-- C20: along every run from a new engine whose started and stopped tickets
name installed manifolds, with a cycle check that rejects every set with a
cycle, in a state of a live engine, for a name whose info is not stopped and a
non-fatal error, `gotStopped` launches a runner for the name, with its start
func, with delay `BounceDelay` when the info was stopping (whatever the error
is, nil and `ErrMissing` included), and with delay `ErrorDelay` when it was not
and the error is neither nil nor `ErrMissing`; in both cases `current[name]`
becomes starting, not stopping, without a worker, and every other runner
launched by the call is a runner of another name. -/
theorem C20_restart_after_stop (hV : ∀ ms, HasCycle ms → Validate ms ≠ none)
    (config : EngineConfig) (e : engine) (acts : List action) (s : loopState)
    (hnew : NewEngine config = (some e, none))
    (hrun : (loopState.start e).exec Validate acts = some s)
    (hg : (loopState.start e).installedOnly Validate acts = true)
    (name : String) (err : error) (isFatal : error → Bool) (hd : s.eng.isDying = false)
    (hns : (s.eng.current.index name).stopped = false)
    (hf : s.eng.config.IsFatal = some isFatal) (hnf : isFatal err = false)
    (hcase : (s.eng.current.index name).stopping = true ∨
      (err ≠ none ∧ err ≠ some Err.ErrMissing)) :
    ∃ e1, s.eng.gotStopped name err = some e1 ∧
      e1.current.get? name = some ⟨true, false, none⟩ ∧
      ∃ g launched, g.name = name ∧ g.start = (s.eng.manifolds.index name).Start ∧
        g.delay = (if (s.eng.current.index name).stopping then s.eng.config.BounceDelay
          else s.eng.config.ErrorDelay) ∧
        e1.goroutines = s.eng.goroutines ++ g :: launched ∧ ∀ x ∈ launched, x.name ≠ name := by
  obtain ⟨m, hm⟩ := installed_of_not_stopped Validate config e acts s hnew hrun hg name hns
  have hself := not_self_dependent Validate hV s ⟨config, e, acts, hnew, hrun⟩ name
  have hidx : s.eng.manifolds.index name = m := by
    unfold Map.index
    rw [hm]
    rfl
  rw [hidx]
  exact engine.gotStopped_restart s.eng name err isFatal m hd hns hf hnf hm hself hcase

/-- C20, on the sample engine whose worker of `a` is running: the worker exits
with an error that is not fatal and is restarted after `ErrorDelay`. -/
theorem C20_restart_after_stop_witness :
    (∀ ms, HasCycle ms → strictValidate ms ≠ none) ∧
      (loopState.start sampleEngine).installedOnly strictValidate runningSteps = true ∧
      (sampleRun runningSteps).eng.isDying = false ∧
      ((sampleRun runningSteps).eng.current.index "a").stopped = false ∧
      sampleIsFatal (some transientError) = false ∧
      ∃ e1, (sampleRun runningSteps).eng.gotStopped "a" (some transientError) = some e1 ∧
        e1.current.get? "a" = some ⟨true, false, none⟩ ∧
        ∃ g launched, g.name = "a" ∧
          g.start = ((sampleRun runningSteps).eng.manifolds.index "a").Start ∧
          g.delay = (if ((sampleRun runningSteps).eng.current.index "a").stopping then
            (sampleRun runningSteps).eng.config.BounceDelay
            else (sampleRun runningSteps).eng.config.ErrorDelay) ∧
          e1.goroutines = (sampleRun runningSteps).eng.goroutines ++ g :: launched ∧
          ∀ x ∈ launched, x.name ≠ "a" :=
  ⟨strictValidate_rejects, by decide, rfl, rfl, rfl,
    C20_restart_after_stop strictValidate strictValidate_rejects sampleConfig sampleEngine
      runningSteps (sampleRun runningSteps) rfl rfl (by decide) "a" (some transientError)
      sampleIsFatal rfl rfl rfl rfl (Or.inr ⟨by decide, by decide⟩)⟩

/-- C27: the accessor built by `getResourceFunc` returns `ErrMissing`, for every
value of `out`, for every resource name whose snapshotted worker is absent; the
snapshot holds a worker only for listed inputs, so this includes every name that
is not listed in `inputs`, whatever worker the engine has recorded for it, and
every listed name without a recorded worker. -/
theorem C27_accessor_missing_without_worker (e : engine) (name : String) (inputs : List String)
    (resourceName : String) (out : Option Out) :
    ((e.snapshotWorkers inputs).index resourceName = none →
      e.getResourceFunc name inputs resourceName out = some Err.ErrMissing) ∧
    (resourceName ∉ inputs → (e.snapshotWorkers inputs).index resourceName = none ∧
      e.getResourceFunc name inputs resourceName out = some Err.ErrMissing) ∧
    ((e.current.index resourceName).worker = none →
      e.getResourceFunc name inputs resourceName out = some Err.ErrMissing) := by
  have h1 : (e.snapshotWorkers inputs).index resourceName = none →
      e.getResourceFunc name inputs resourceName out = some Err.ErrMissing := by
    intro h
    rw [engine.getResourceFunc_eq, h]
  refine ⟨h1, ?_, ?_⟩
  · intro hn
    have h2 : (e.snapshotWorkers inputs).index resourceName = none := by
      rw [engine.snapshotWorkers_index, if_neg hn]
    exact ⟨h2, h1 h2⟩
  · intro hw
    apply h1
    rw [engine.snapshotWorkers_index]
    split_ifs
    · exact hw
    · rfl

/-- C27, on the sample engine whose worker of `a` is running: an accessor built
for a manifold that does not list `a` returns `ErrMissing` for `a`. -/
theorem C27_accessor_missing_without_worker_witness :
    ((sampleRun runningSteps).eng.current.index "a").worker.isSome = true ∧
      "a" ∉ ([] : List String) ∧
      (sampleRun runningSteps).eng.getResourceFunc "b" [] "a" none = some Err.ErrMissing :=
  ⟨rfl, by decide,
    ((C27_accessor_missing_without_worker (sampleRun runningSteps).eng "b" [] "a" none).2.1
      (by decide)).2⟩

/-- C28: for a listed input whose worker is present in the snapshot and whose
manifold declares no output func, the accessor returns `ErrMissing` when it is
called with a non-nil `out`. -/
theorem C28_accessor_missing_without_output (e : engine) (name : String) (inputs : List String)
    (resourceName : String) (w : Worker) (out : Out)
    (hin : resourceName ∈ inputs) (hw : (e.current.index resourceName).worker = some w)
    (ho : (e.manifolds.index resourceName).Output = none) :
    (e.snapshotWorkers inputs).index resourceName = some w ∧
      (e.snapshotOutputs inputs).index resourceName = none ∧
      e.getResourceFunc name inputs resourceName (some out) = some Err.ErrMissing := by
  have h1 : (e.snapshotWorkers inputs).index resourceName = some w := by
    rw [engine.snapshotWorkers_index, if_pos hin, hw]
  have h2 : (e.snapshotOutputs inputs).index resourceName = none := by
    rw [engine.snapshotOutputs_index, if_pos hin, ho]
  refine ⟨h1, h2, ?_⟩
  rw [engine.getResourceFunc_eq, h1, h2]
  rfl

/-- C28, on the sample engine whose worker of `a` is running and whose manifold
`a` has no output func. -/
theorem C28_accessor_missing_without_output_witness :
    "a" ∈ ["a"] ∧ ((sampleRun runningSteps).eng.current.index "a").worker = some worker1 ∧
      ((sampleRun runningSteps).eng.manifolds.index "a").Output = none ∧
      (sampleRun runningSteps).eng.getResourceFunc "b" ["a"] "a" (some 7) = some Err.ErrMissing :=
  ⟨by decide, rfl, rfl,
    (C28_accessor_missing_without_output (sampleRun runningSteps).eng "b" ["a"] "a" worker1 7
      (by decide) rfl rfl).2.2⟩

/-- What the accessor does with a nil `out` for a listed input whose worker is
present in the snapshot: it returns nil when the manifold of the input declares
no output func, and otherwise returns what the output func returns for the
worker and the nil `out`. -/
theorem engine.getResourceFunc_nil_out (e : engine) (name : String) (inputs : List String)
    (resourceName : String) (w : Worker)
    (hin : resourceName ∈ inputs) (hw : (e.current.index resourceName).worker = some w) :
    ((e.manifolds.index resourceName).Output = none →
      e.getResourceFunc name inputs resourceName none = none) ∧
    (∀ convert, (e.manifolds.index resourceName).Output = some convert →
      e.getResourceFunc name inputs resourceName none = convert w none) := by
  have h1 : (e.snapshotWorkers inputs).index resourceName = some w := by
    rw [engine.snapshotWorkers_index, if_pos hin, hw]
  have h2 : (e.snapshotOutputs inputs).index resourceName = (e.manifolds.index resourceName).Output := by
    rw [engine.snapshotOutputs_index, if_pos hin]
  constructor
  · intro ho
    rw [engine.getResourceFunc_eq, h1, h2, ho]
    rfl
  · intro convert ho
    rw [engine.getResourceFunc_eq, h1, h2, ho]

/-- C29, evaluated: on the sample engine whose manifold `a` declares an output
func and whose worker is running, the accessor of a manifold that lists `a`,
called with a nil `out`, hands the nil `out` to the output func and returns its
error; on the engine whose manifold `a` declares no output func the same call
returns nil, as the comments in the accessor say of a caller that depends on
existence only. -/
theorem C29_nil_out_reaches_output_func :
    "a" ∈ ["a"] ∧
      ((sampleRun adapterSteps).eng.snapshotWorkers ["a"]).index "a" = some worker1 ∧
      ((sampleRun adapterSteps).eng.manifolds.index "a").Output.isSome = true ∧
      (sampleRun adapterSteps).eng.getResourceFunc "b" ["a"] "a" none =
        some (Err.New "out should be a pointer") ∧
      ((sampleRun runningSteps).eng.snapshotWorkers ["a"]).index "a" = some worker1 ∧
      ((sampleRun runningSteps).eng.manifolds.index "a").Output.isNone = true ∧
      (sampleRun runningSteps).eng.getResourceFunc "b" ["a"] "a" none = none :=
  ⟨by decide, rfl, rfl, by decide, rfl, rfl, by decide⟩

/-- C30: for a listed input whose worker is present in the snapshot and whose
manifold declares an output func, the accessor called with a non-nil `out`
returns exactly what the output func returns for that worker and that `out`. -/
theorem C30_accessor_calls_output (e : engine) (name : String) (inputs : List String)
    (resourceName : String) (w : Worker) (convert : OutputFunc) (out : Out)
    (hin : resourceName ∈ inputs) (hw : (e.current.index resourceName).worker = some w)
    (ho : (e.manifolds.index resourceName).Output = some convert) :
    (e.snapshotWorkers inputs).index resourceName = some w ∧
      (e.snapshotOutputs inputs).index resourceName = some convert ∧
      e.getResourceFunc name inputs resourceName (some out) = convert w (some out) := by
  have h1 : (e.snapshotWorkers inputs).index resourceName = some w := by
    rw [engine.snapshotWorkers_index, if_pos hin, hw]
  have h2 : (e.snapshotOutputs inputs).index resourceName = some convert := by
    rw [engine.snapshotOutputs_index, if_pos hin, ho]
  refine ⟨h1, h2, ?_⟩
  rw [engine.getResourceFunc_eq, h1, h2]

/-- C30, on the sample engine whose manifold `a` declares an output func and
whose worker is running. -/
theorem C30_accessor_calls_output_witness :
    "a" ∈ ["a"] ∧ ((sampleRun adapterSteps).eng.current.index "a").worker = some worker1 ∧
      ((sampleRun adapterSteps).eng.manifolds.index "a").Output = some sampleOutput ∧
      (sampleRun adapterSteps).eng.getResourceFunc "b" ["a"] "a" (some 7) =
        sampleOutput worker1 (some 7) :=
  ⟨by decide, rfl, rfl,
    (C30_accessor_calls_output (sampleRun adapterSteps).eng "b" ["a"] "a" worker1 sampleOutput 7
      (by decide) rfl rfl).2.2⟩

/-- C21: on a dying engine with a valid config, for every name (in particular
one whose info is not stopped), `gotStopped` returns for every error, assigns
`current[name]` the empty info, launches no runner and kills no worker, and
leaves the info of every other name unchanged. -/
theorem C21_stopped_while_dying (e : engine) (name : String) (err : error)
    (hd : e.isDying = true) (hv : e.config.Validate = none) :
    ∃ e1, e.gotStopped name err = some e1 ∧
      e1.current.get? name = some ⟨false, false, none⟩ ∧
      e1.goroutines = e.goroutines ∧ e1.kills = e.kills ∧
      (∀ other, other ≠ name → e1.current.get? other = e.current.get? other) := by
  obtain ⟨e0, h0⟩ := engine.stoppedChecks_some e name err hv (Or.inr hd)
  have hsome : ∃ e1, e.gotStopped name err = some e1 := by
    unfold engine.gotStopped
    rw [h0]
    exact ⟨_, rfl⟩
  obtain ⟨e1, h1⟩ := hsome
  obtain ⟨_, hc, hg, hk⟩ := engine.gotStopped_dying e e1 name err h1 hd
  refine ⟨e1, h1, ?_, hg, hk, ?_⟩
  · rw [hc]
    exact Map.get?_set_self _ _ _
  · intro other ho
    rw [hc, Map.get?_set_ne _ _ _ _ (Ne.symm ho)]

/-- C21, on the sample engine killed while the runner of `a` is starting: the
runner reports `ErrDying`. -/
theorem C21_stopped_while_dying_witness :
    (sampleRun killedWhileStartingSteps).eng.isDying = true ∧
      ((sampleRun killedWhileStartingSteps).eng.current.index "a").stopped = false ∧
      ∃ e1, (sampleRun killedWhileStartingSteps).eng.gotStopped "a" (some Err.ErrDying) = some e1 ∧
        e1.current.get? "a" = some ⟨false, false, none⟩ ∧
        e1.goroutines = (sampleRun killedWhileStartingSteps).eng.goroutines ∧
        e1.kills = (sampleRun killedWhileStartingSteps).eng.kills ∧
        (∀ other, other ≠ "a" →
          e1.current.get? other = (sampleRun killedWhileStartingSteps).eng.current.get? other) :=
  ⟨rfl, rfl,
    C21_stopped_while_dying (sampleRun killedWhileStartingSteps).eng "a" (some Err.ErrDying)
      rfl (by decide)⟩

/-- C24: `requestStop` returns the state it was given when `current[name]` is
already stopping or stopped; otherwise it sets `stopping` in `current[name]`,
keeping `starting` and `worker`, calls `Kill` on the worker exactly when one is
present, and changes nothing else.  A second call changes nothing more. -/
theorem C24_requestStop_idempotent (e : engine) (name : String) :
    (((e.current.index name).stopping = true ∨ (e.current.index name).stopped = true) →
      e.requestStop name = e) ∧
    ((e.current.index name).stopping = false → (e.current.index name).stopped = false →
      e.requestStop name =
        { e with
          current := e.current.set name
            ⟨(e.current.index name).starting, true, (e.current.index name).worker⟩
          kills := e.kills ++ (e.current.index name).worker.toList }) ∧
    (e.requestStop name).requestStop name = e.requestStop name := by
  have hnoop : ∀ x : engine,
      ((x.current.index name).stopping = true ∨ (x.current.index name).stopped = true) →
      x.requestStop name = x := by
    intro x h
    have hor : ((x.current.index name).stopping || (x.current.index name).stopped) = true := by
      rcases h with h | h <;> simp [h]
    unfold engine.requestStop
    simp only [hor, if_true]
  have h1 := hnoop e
  have h2 : (e.current.index name).stopping = false → (e.current.index name).stopped = false →
      e.requestStop name =
        { e with
          current := e.current.set name
            ⟨(e.current.index name).starting, true, (e.current.index name).worker⟩
          kills := e.kills ++ (e.current.index name).worker.toList } := by
    intro hs hst
    unfold engine.requestStop
    simp only [hs, hst, Bool.or_self, Bool.false_eq_true, if_false]
    cases (e.current.index name).worker with
    | none => simp
    | some w => rfl
  refine ⟨h1, h2, ?_⟩
  by_cases hc : (e.current.index name).stopping = true ∨ (e.current.index name).stopped = true
  · rw [h1 hc, h1 hc]
  · simp only [not_or, Bool.not_eq_true] at hc
    have h3 : ((e.requestStop name).current.index name).stopping = true := by
      rw [h2 hc.1 hc.2]
      simp
    exact hnoop _ (Or.inl h3)

/-- C24, on the sample engine whose worker of `a` is running: the first call
kills the worker once and the second call changes nothing. -/
theorem C24_requestStop_idempotent_witness :
    ((sampleRun runningSteps).eng.requestStop "a").kills = [worker1] ∧
      (((sampleRun runningSteps).eng.requestStop "a").current.index "a").stopping = true ∧
      ((sampleRun runningSteps).eng.requestStop "a").requestStop "a" =
        (sampleRun runningSteps).eng.requestStop "a" :=
  ⟨rfl, rfl, (C24_requestStop_idempotent (sampleRun runningSteps).eng "a").2.2⟩

/-- C25: when `requestStart` is called for a name that is not installed, or
whose info is not stopped, the engine is dying afterwards, no runner is
launched, and `current` is unchanged (no entry is created and `starting` is not
set); nothing but the tomb changes. -/
theorem C25_requestStart_violation (e : engine) (name : String) (delay : Duration)
    (h : e.manifolds.get? name = none ∨ (e.current.index name).stopped = false) :
    (e.requestStart name delay).isDying = true ∧
      (e.requestStart name delay).goroutines = e.goroutines ∧
      (e.requestStart name delay).current = e.current ∧
      (e.requestStart name delay).kills = e.kills ∧
      (e.requestStart name delay).manifolds = e.manifolds ∧
      (e.requestStart name delay).dependents = e.dependents ∧
      (e.requestStart name delay).worstError = e.worstError := by
  refine ⟨?_, ?_, ?_, engine.requestStart_kills e name delay,
    engine.requestStart_manifolds e name delay, engine.requestStart_dependents e name delay,
    engine.requestStart_worstError e name delay⟩
  · unfold engine.requestStart
    dsimp only
    cases hf : (e.manifolds.get? name).isNone <;>
      cases hs : (e.current.index name).stopped <;>
      cases hd : e.isDying <;>
      rcases h with h | h <;> simp_all
  · unfold engine.requestStart
    dsimp only
    cases hf : (e.manifolds.get? name).isNone <;>
      cases hs : (e.current.index name).stopped <;>
      cases hd : e.isDying <;>
      rcases h with h | h <;> simp_all
  · unfold engine.requestStart
    dsimp only
    cases hf : (e.manifolds.get? name).isNone <;>
      cases hs : (e.current.index name).stopped <;>
      cases hd : e.isDying <;>
      rcases h with h | h <;> simp_all

/-- C25, on the new sample engine: a start request for a name under which
nothing is installed. -/
theorem C25_requestStart_violation_witness :
    sampleEngine.manifolds.get? "x" = none ∧
      (sampleEngine.requestStart "x" 0).isDying = true ∧
      (sampleEngine.requestStart "x" 0).goroutines = sampleEngine.goroutines ∧
      (sampleEngine.requestStart "x" 0).current = sampleEngine.current :=
  have h := C25_requestStart_violation sampleEngine "x" 0 (Or.inl rfl)
  ⟨rfl, h.1, h.2.1, h.2.2.1⟩

/-- The two ways `gotStopped` ends on a live engine for an error that is not
fatal: it returns the state `pre` it has reached after the reset and the restart
decision when `current[name]` held no worker, and `bounceDependents(name)`
applied to `pre` when it held one.  In `pre` only the entry of `name` differs
from the entries before the call. -/
theorem engine.gotStopped_split (e : engine) (name : String) (err : error)
    (isFatal : error → Bool) (hd : e.isDying = false)
    (hf : e.config.IsFatal = some isFatal) (hnf : isFatal err = false) :
    ∃ pre e1, e.gotStopped name err = some e1 ∧
      e1 = (if (e.current.index name).worker.isSome then pre.bounceDependents name else pre) ∧
      pre.dependents = e.dependents ∧ pre.kills = e.kills ∧
      (∀ other, other ≠ name → pre.current.get? other = e.current.get? other) ∧
      ((e.current.index name).worker = none →
        ∀ other, other ≠ name → e1.current.get? other = e.current.get? other) := by
  have key : ∃ pre, e.gotStopped name err =
        some (if (e.current.index name).worker.isSome then pre.bounceDependents name else pre) ∧
      pre.dependents = e.dependents ∧ pre.kills = e.kills ∧
      (∀ other, other ≠ name → pre.current.get? other = e.current.get? other) := by
    by_cases hs : (e.current.index name).stopped = true
    · have hw : (e.current.index name).worker.isSome = false := by
        unfold workerInfo.stopped at hs
        cases hx : (e.current.index name).worker.isSome
        · rfl
        · simp [hx] at hs
      obtain ⟨e1, h1, hdy, _, _⟩ := engine.gotStopped_stopped e name err hs
      refine ⟨e1, ?_, h1.2.1, h1.2.2.1, ?_⟩
      · rw [hw]
        exact h1.1
      · intro other ho
        rw [h1.2.2.2, Map.get?_set_ne _ _ _ _ (Ne.symm ho)]
    · have hns : (e.current.index name).stopped = false := by simpa using hs
      refine ⟨({ e with current := e.current.set name default } : engine).stoppedRestart name
        (e.current.index name) err, ?_, ?_, ?_, ?_⟩
      · rw [engine.gotStopped_live e name err isFatal hd hns hf hnf]
      · rw [engine.stoppedRestart_dependents]
      · rw [engine.stoppedRestart_kills]
      · intro other ho
        rw [engine.stoppedRestart_get?_ne _ _ _ _ _ (Ne.symm ho)]
        exact Map.get?_set_ne _ _ _ _ (Ne.symm ho)
  obtain ⟨pre, h1, h2, h3, h4⟩ := key
  refine ⟨pre, _, h1, rfl, h2, h3, h4, ?_⟩
  intro hw other ho
  simp only [hw, Option.isSome_none, Bool.false_eq_true, if_false]
  exact h4 other ho

/-- C22: along every run from a new engine whose started and stopped tickets
name installed manifolds, in a state of a live engine and for an error that is
not fatal, `gotStopped` bounces the dependents of `name` exactly when
`current[name]` held a worker.  When it held none, no worker is killed and the
info of every other name, dependents included, is unchanged.  When it held one,
the engine stays live and every dependent other than `name` whose info was
stopped is starting, with a runner launched for it with the bounce delay, every
other such dependent is stopping with its worker, if it had one, still recorded
and killed, and the info of every name that is neither `name` nor a dependent
is unchanged. -/
theorem C22_bounce_iff_worker (config : EngineConfig) (e : engine) (acts : List action)
    (s : loopState) (hnew : NewEngine config = (some e, none))
    (hrun : (loopState.start e).exec Validate acts = some s)
    (hg : (loopState.start e).installedOnly Validate acts = true)
    (name : String) (err : error) (isFatal : error → Bool) (hd : s.eng.isDying = false)
    (hf : s.eng.config.IsFatal = some isFatal) (hnf : isFatal err = false) :
    ∃ e1, s.eng.gotStopped name err = some e1 ∧
      ((s.eng.current.index name).worker = none →
        e1.kills = s.eng.kills ∧
        ∀ other, other ≠ name → e1.current.get? other = s.eng.current.get? other) ∧
      (∀ w, (s.eng.current.index name).worker = some w →
        e1.isDying = false ∧
        ∃ launched killed, e1.goroutines = s.eng.goroutines ++ launched ∧
          e1.kills = s.eng.kills ++ killed ∧
          (∀ d ∈ s.eng.dependents.index name, d ≠ name →
            ((s.eng.current.index d).stopped = true →
              (e1.current.index d).starting = true ∧
              ∃ g ∈ launched, g.name = d ∧ g.delay = s.eng.config.BounceDelay) ∧
            ((s.eng.current.index d).stopped = false →
              (e1.current.index d).stopping = true ∧
              ∀ x, (s.eng.current.index d).worker = some x →
                (e1.current.index d).worker = some x ∧ x ∈ e1.kills)) ∧
          (∀ other, other ∉ s.eng.dependents.index name → other ≠ name →
            e1.current.get? other = s.eng.current.get? other)) := by
  have hreach : Reachable Validate s := ⟨config, e, acts, hnew, hrun⟩
  cases hwk : (s.eng.current.index name).worker with
  | none =>
    obtain ⟨pre, e1, h1, h2, _, h4, h5, _⟩ :=
      engine.gotStopped_split s.eng name err isFatal hd hf hnf
    rw [hwk] at h2
    have he1 : e1 = pre := h2
    subst he1
    refine ⟨e1, h1, fun _ => ⟨h4, h5⟩, ?_⟩
    intro w hw
    cases hw
  | some w0 =>
    have hns : (s.eng.current.index name).stopped = false := by
      unfold workerInfo.stopped
      rw [hwk]
      rfl
    obtain ⟨m, hm⟩ := installed_of_not_stopped Validate config e acts s hnew hrun hg name hns
    obtain ⟨pre, hpre⟩ : ∃ pre, pre =
        ({ s.eng with current := s.eng.current.set name default } : engine).stoppedRestart name
          (s.eng.current.index name) err := ⟨_, rfl⟩
    have hlive := engine.gotStopped_live s.eng name err isFatal hd hns hf hnf
    rw [← hpre, hwk] at hlive
    have hgot : s.eng.gotStopped name err = some (pre.bounceDependents name) := hlive
    have hdpre : pre.isDying = false := by
      rw [hpre]
      exact engine.stoppedRestart_live _ name _ err m hd hm (by
        show ((s.eng.current.set name default).index name).stopped = true
        rw [Map.index_set_self]
        rfl)
    have hdeps : pre.dependents = s.eng.dependents := by
      rw [hpre, engine.stoppedRestart_dependents]
    have hman : pre.manifolds = s.eng.manifolds := by
      rw [hpre, engine.stoppedRestart_manifolds]
    have hcfg : pre.config = s.eng.config := by
      rw [hpre, engine.stoppedRestart_config]
    have hkills : pre.kills = s.eng.kills := by
      rw [hpre, engine.stoppedRestart_kills]
    obtain ⟨l1, hl1⟩ : ∃ l1, pre.goroutines = s.eng.goroutines ++ l1 := by
      rw [hpre]
      exact engine.stoppedRestart_launched _ name _ err
    have hidx : ∀ d, d ≠ name → pre.current.index d = s.eng.current.index d := by
      intro d hne
      apply Map.index_congr
      rw [hpre, engine.stoppedRestart_get?_ne _ _ _ _ _ (Ne.symm hne)]
      exact Map.get?_set_ne _ _ _ _ (Ne.symm hne)
    have hget : ∀ d, d ≠ name → pre.current.get? d = s.eng.current.get? d := by
      intro d hne
      rw [hpre, engine.stoppedRestart_get?_ne _ _ _ _ _ (Ne.symm hne)]
      exact Map.get?_set_ne _ _ _ _ (Ne.symm hne)
    have hKR : ∀ n x,
        (({ s.eng with current := s.eng.current.set name default } :
          engine).current.index n).stopping = true →
        (({ s.eng with current := s.eng.current.set name default } :
          engine).current.index n).worker = some x →
        x ∈ ({ s.eng with current := s.eng.current.set name default } : engine).kills := by
      intro n x
      show ((s.eng.current.set name default).index n).stopping = true →
        ((s.eng.current.set name default).index n).worker = some x → x ∈ s.eng.kills
      by_cases hn : name = n
      · subst hn
        rw [Map.index_set_self]
        intro hst
        cases hst
      · rw [Map.index_set_ne _ _ _ _ hn]
        exact asked_to_stop_inv Validate s hreach n x
    have hKpre : ∀ n x, (pre.current.index n).stopping = true →
        (pre.current.index n).worker = some x → x ∈ pre.kills := by
      rw [hpre]
      exact engine.stoppedRestart_asked _ name _ err hKR
    have hinst : ∀ d ∈ pre.dependents.index name, (pre.manifolds.get? d).isSome = true := by
      intro d hdm
      rw [hdeps] at hdm
      rw [hman]
      exact dependents_installed Validate s hreach name d hdm
    obtain ⟨hl, launched, killed, hgo, hk, _, _, heff, hframe⟩ :=
      engine.bounceDependents_effect pre name hdpre hinst hKpre
    rw [hdeps] at heff hframe
    rw [hcfg] at heff
    refine ⟨_, hgot, ?_, ?_⟩
    · intro hnone
      cases hnone
    · intro w _
      refine ⟨hl, l1 ++ launched, killed, by rw [hgo, hl1, List.append_assoc],
        by rw [hk, hkills], ?_, ?_⟩
      · intro d hdm hne
        obtain ⟨j1, j2⟩ := heff d hdm
        rw [hidx d hne] at j1 j2
        refine ⟨?_, j2⟩
        intro hst
        obtain ⟨k1, g, hgm, hgn, hgd⟩ := j1 hst
        exact ⟨k1, g, List.mem_append_right _ hgm, hgn, hgd⟩
      · intro other ho hon
        rw [hframe other ho]
        exact hget other hon

/-- C22, on the sample engine in which `a` holds a worker and its dependent `b`
is stopped: the worker of `a` exits with an error that is not fatal, and the
bounce starts `b`. -/
theorem C22_bounce_iff_worker_witness :
    (loopState.start sampleEngine).installedOnly acceptAll stoppedDependentSteps = true ∧
      stoppedDependentState.eng.isDying = false ∧
      sampleIsFatal (some transientError) = false ∧
      (stoppedDependentState.eng.current.index "a").worker = some worker1 ∧
      stoppedDependentState.eng.dependents.index "a" = ["b"] ∧
      (stoppedDependentState.eng.current.index "b").stopped = true ∧
      ∃ e1, stoppedDependentState.eng.gotStopped "a" (some transientError) = some e1 ∧
        (e1.current.index "b").starting = true := by
  obtain ⟨e1, h1, _, h3⟩ :=
    C22_bounce_iff_worker acceptAll sampleConfig sampleEngine stoppedDependentSteps
      stoppedDependentState rfl rfl (by decide) "a" (some transientError) sampleIsFatal
      rfl rfl rfl
  obtain ⟨_, launched, killed, _, _, heff, _⟩ := h3 worker1 rfl
  exact ⟨by decide, rfl, rfl, rfl, by decide, rfl, e1, h1,
    ((heff "b" (by decide) (by decide)).1 rfl).1⟩

/-- C26: once the engine is dying no start attempt is launched.  In a dying
state `requestStart` launches no runner and changes nothing but the tomb (and
returns the state it was given when the name is installed and its info
stopped); every step taken in a dying state, whether a call of `Kill` or an
install, started, stopped, dying or report ticket, leaves the engine dying,
launches no runner and leaves every stopped info stopped; and along every run
from a dying state the trace of launched runners stays as it was. -/
theorem C26_no_start_while_dying (s : loopState) (hd : s.eng.isDying = true) :
    (∀ name delay,
      (s.eng.requestStart name delay).isDying = true ∧
      (s.eng.requestStart name delay).goroutines = s.eng.goroutines ∧
      (s.eng.requestStart name delay).current = s.eng.current ∧
      (s.eng.requestStart name delay).kills = s.eng.kills ∧
      (s.eng.requestStart name delay).manifolds = s.eng.manifolds ∧
      (s.eng.requestStart name delay).dependents = s.eng.dependents ∧
      (s.eng.requestStart name delay).worstError = s.eng.worstError) ∧
    (∀ name delay m, s.eng.manifolds.get? name = some m →
      (s.eng.current.index name).stopped = true → s.eng.requestStart name delay = s.eng) ∧
    (∀ a s1, s.step Validate a = some s1 →
      s1.eng.isDying = true ∧ s1.eng.goroutines = s.eng.goroutines ∧
      ∀ n, (s.eng.current.index n).stopped = true → (s1.eng.current.index n).stopped = true) ∧
    (∀ acts s1, s.exec Validate acts = some s1 →
      s1.eng.isDying = true ∧ s1.eng.goroutines = s.eng.goroutines) := by
  refine ⟨?_, ?_, ?_, ?_⟩
  · intro name delay
    obtain ⟨hc, hg⟩ := engine.requestStart_dying s.eng name delay hd
    exact ⟨engine.requestStart_isDying s.eng name delay hd, hg, hc,
      engine.requestStart_kills _ _ _, engine.requestStart_manifolds _ _ _,
      engine.requestStart_dependents _ _ _, engine.requestStart_worstError _ _ _⟩
  · intro name delay m hm hs
    exact engine.requestStart_dying_noop s.eng name delay m hd hm hs
  · intro a s1 h
    exact step_dying Validate s s1 a hd h
  · intro acts s1 h
    exact exec_dying Validate acts s s1 hd h

/-- C26, on the sample engine killed while the runner of `a` is starting: the
loop handles the dying signal, a second manifold is installed and the runner of
`a` reports its exit; no runner is launched. -/
theorem C26_no_start_while_dying_witness :
    (sampleRun killedWhileStartingSteps).eng.isDying = true ∧
      ((sampleRun killedWhileStartingSteps).exec strictValidate
        [action.recv ticket.dying, action.recv (ticket.install "b" leaf),
         action.recv (ticket.stopped "a" (some Err.ErrDying))]).isSome = true ∧
      ∀ s1, (sampleRun killedWhileStartingSteps).exec strictValidate
          [action.recv ticket.dying, action.recv (ticket.install "b" leaf),
           action.recv (ticket.stopped "a" (some Err.ErrDying))] = some s1 →
        s1.eng.isDying = true ∧
          s1.eng.goroutines = (sampleRun killedWhileStartingSteps).eng.goroutines :=
  ⟨rfl, by decide,
    (C26_no_start_while_dying strictValidate (sampleRun killedWhileStartingSteps) rfl).2.2.2 _⟩

/-- C23: in every reachable state of a live engine, after `bounceDependents`
for a name every dependent of the name whose info was stopped is starting, with
a runner launched for it with the bounce delay; every dependent whose info was
starting or held a worker is stopping, and its worker, if it had one, is still
recorded and has had its `Kill` method called; and the info of every name that
is not a dependent of the name is unchanged. -/
theorem C23_bounce_effect (s : loopState) (h : Reachable Validate s)
    (hd : s.eng.isDying = false) (name : String) :
    ∃ launched, (s.eng.bounceDependents name).goroutines = s.eng.goroutines ++ launched ∧
      (∀ g ∈ launched, g.name ∈ s.eng.dependents.index name ∧
        g.delay = s.eng.config.BounceDelay) ∧
      (∀ d ∈ s.eng.dependents.index name,
        ((s.eng.current.index d).stopped = true →
          ((s.eng.bounceDependents name).current.index d).starting = true ∧
          ∃ g ∈ launched, g.name = d) ∧
        ((s.eng.current.index d).stopped = false →
          ((s.eng.bounceDependents name).current.index d).stopping = true ∧
          ∀ w, (s.eng.current.index d).worker = some w →
            ((s.eng.bounceDependents name).current.index d).worker = some w ∧
            w ∈ (s.eng.bounceDependents name).kills)) ∧
      (∀ other, other ∉ s.eng.dependents.index name →
        (s.eng.bounceDependents name).current.get? other = s.eng.current.get? other) := by
  obtain ⟨hframe, hworker, _, _⟩ := engine.bounceDependents_frame s.eng name
  obtain ⟨_, launched, h1, h2, h3⟩ := engine.bounceLoop_effect (s.eng.dependents.index name)
    s.eng hd (fun d hdm => dependents_installed Validate s h name d hdm)
    (asked_to_stop_inv Validate s h)
  rw [← engine.bounceDependents_eq_loop] at h1 h3
  refine ⟨launched, h1, h2, ?_, hframe⟩
  intro d hdm
  obtain ⟨j1, j2⟩ := h3 d hdm
  refine ⟨j1, fun hns => ⟨(j2 hns).1, fun w hw => ⟨?_, (j2 hns).2 w hw⟩⟩⟩
  rw [hworker d]
  exact hw

/-- C23, on the sample engine with `b` and `c` depending on `a`, `b` stopped and
`c` running: after the bounce of the dependents of `a`, `b` is starting and `c`
is stopping with its worker killed. -/
theorem C23_bounce_effect_witness :
    Reachable acceptAll fanState ∧ fanState.eng.isDying = false ∧
      fanState.eng.dependents.index "a" = ["b", "c"] ∧
      (fanState.eng.current.index "b").stopped = true ∧
      (fanState.eng.current.index "c").worker = some worker2 ∧
      ((fanState.eng.bounceDependents "a").current.index "b").starting = true ∧
      ((fanState.eng.bounceDependents "a").current.index "c").stopping = true ∧
      (fanState.eng.bounceDependents "a").kills = [worker2] ∧
      ∃ launched, (fanState.eng.bounceDependents "a").goroutines =
          fanState.eng.goroutines ++ launched ∧
        (∀ g ∈ launched, g.name ∈ fanState.eng.dependents.index "a" ∧
          g.delay = fanState.eng.config.BounceDelay) ∧
        (∀ d ∈ fanState.eng.dependents.index "a",
          ((fanState.eng.current.index d).stopped = true →
            ((fanState.eng.bounceDependents "a").current.index d).starting = true ∧
            ∃ g ∈ launched, g.name = d) ∧
          ((fanState.eng.current.index d).stopped = false →
            ((fanState.eng.bounceDependents "a").current.index d).stopping = true ∧
            ∀ w, (fanState.eng.current.index d).worker = some w →
              ((fanState.eng.bounceDependents "a").current.index d).worker = some w ∧
              w ∈ (fanState.eng.bounceDependents "a").kills)) ∧
        (∀ other, other ∉ fanState.eng.dependents.index "a" →
          (fanState.eng.bounceDependents "a").current.get? other =
            fanState.eng.current.get? other) :=
  ⟨⟨sampleConfig, sampleEngine, fanSteps, rfl, rfl⟩, rfl, by decide, rfl, rfl, rfl, rfl, rfl,
    C23_bounce_effect acceptAll fanState ⟨sampleConfig, sampleEngine, fanSteps, rfl, rfl⟩ rfl "a"⟩

/-- C39: once `worstError` is non-nil no step changes it, whether a call of
`Kill` or any ticket, a stopped ticket with a fatal error included, and so it
stays along every run; whenever `gotStopped` does change `worstError` the old
value was nil and the new one is `MoreImportant(err, nil)`; and what
`gotStopped` records only depends on the values of `MoreImportant` whose second
argument is nil. -/
theorem C39_worstError_sticky (s : loopState) (x : Err) (hx : s.eng.worstError = some x) :
    (∀ a s1, s.step Validate a = some s1 → s1.eng.worstError = some x) ∧
    (∀ acts s1, s.exec Validate acts = some s1 → s1.eng.worstError = some x) ∧
    (∀ (e e4 : engine) name err, e.gotStopped name err = some e4 →
      e4.worstError = e.worstError ∨
        (e.worstError = none ∧ ∃ moreImportant,
          e.config.MoreImportant = some moreImportant ∧ e4.worstError = moreImportant err none)) ∧
    (∀ (e : engine) name err (mi1 mi2 : error → error → error),
      (∀ y, mi1 y none = mi2 y none) →
      ((e.withMoreImportant mi1).gotStopped name err).map engine.worstError =
        ((e.withMoreImportant mi2).gotStopped name err).map engine.worstError) := by
  refine ⟨?_, ?_, ?_, ?_⟩
  · intro a s1 h
    exact step_worstError Validate s s1 a x hx h
  · intro acts s1 h
    exact exec_inv Validate (fun y => y.eng.worstError = some x) (fun _ => True)
      (fun y a y1 _ hy hst => step_worstError Validate y y1 a x hy hst)
      acts s s1 (fun _ _ => trivial) hx h
  · intro e e4 name err h
    rcases engine.gotStopped_worstError e e4 name err h with h1 | ⟨_, mi, _, _, _, hn, hm, h4⟩
    · exact Or.inl h1
    · exact Or.inr ⟨hn, mi, hm, h4⟩
  · intro e name err mi1 mi2 hmi
    rw [engine.gotStopped_map_worstError, engine.gotStopped_map_worstError]
    exact engine.stoppedChecks_withMoreImportant e name err mi1 mi2 hmi

/-- C39, on the sample run with two fatal errors: after the low error is
recorded, the stopped ticket with the high error does not replace it. -/
theorem C39_worstError_sticky_witness :
    (sampleRun (twoFatalSteps.take 3)).eng.worstError = some fatalLow ∧
      sampleMoreImportant (some fatalHigh) (some fatalLow) = some fatalHigh ∧
      ∀ s1, (sampleRun (twoFatalSteps.take 3)).step strictValidate
          (action.recv (ticket.stopped "b" (some fatalHigh))) = some s1 →
        s1.eng.worstError = some fatalLow :=
  ⟨by decide, by decide,
    (C39_worstError_sticky strictValidate (sampleRun (twoFatalSteps.take 3)) fatalLow
      (by decide)).1 _⟩

/-- C38 as stated fails for the error `ErrDying` on an engine that is still
alive.  On the engine for which every error is fatal, after the install of "a",
no `worstError` is recorded, the info of "a" is not stopped and `IsFatal`
accepts `ErrDying`, but `gotStopped("a", ErrDying)` panics in `tomb.Kill`: it
does not return an engine that is dying with the info reset. -/
theorem C38_fatal_propagation_counterexample :
    ∃ s, fatalAllRun [action.recv (ticket.install "a" leaf)] = some s ∧
      s.eng.isDying = false ∧ s.eng.worstError = none ∧
      (s.eng.current.index "a").stopped = false ∧
      s.eng.config.IsFatal.map (fun isFatal => isFatal (some Err.ErrDying)) = some true ∧
      s.eng.gotStopped "a" (some Err.ErrDying) = none :=
  ⟨_, rfl, rfl, rfl, rfl, rfl, rfl⟩

/-- C38, amended: fatal propagation.  In an engine with no `worstError`
recorded, for a name whose info is not stopped and an error that `IsFatal`
accepts and that is not `ErrDying` unless the engine is already dying,
`gotStopped(name, err)` returns with the engine dying, with `worstError` equal
to `MoreImportant(err, nil)`, with `current[name]` reset to the empty info and
every other entry as it was, and with no runner launched and no worker killed,
whatever the stopping flag was.  When `MoreImportant(err, nil)` is `err`: the
loop turn that handles the ticket leaves `worstError` equal to `err`, `Wait`
returns `err` at once if every info is then stopped, and for a non-nil `err`
no later run changes what `Wait` returns. -/
theorem C38_fatal_propagation (e : engine) (name : String) (err : error)
    (isFatal : error → Bool) (moreImportant : error → error → error)
    (hw : e.worstError = none) (hns : (e.current.index name).stopped = false)
    (hf : e.config.IsFatal = some isFatal) (hfe : isFatal err = true)
    (hm : e.config.MoreImportant = some moreImportant)
    (hk : err ≠ some Err.ErrDying ∨ e.isDying = true) :
    ∃ e1, e.gotStopped name err = some e1 ∧
      e1.isDying = true ∧ e1.worstError = moreImportant err none ∧
      e1.current.get? name = some ⟨false, false, none⟩ ∧
      (∀ other, other ≠ name → e1.current.get? other = e.current.get? other) ∧
      e1.goroutines = e.goroutines ∧ e1.kills = e.kills ∧
      (moreImportant err none = err →
        (∀ s : loopState, s.eng = e → s.result = none →
          ∃ s1, s.turn Validate (ticket.stopped name err) = some s1 ∧
            s1.eng.worstError = err ∧
            (e1.allStopped = true → s1.eng.Wait = some err)) ∧
        (∀ x, err = some x → ∀ (s s2 : loopState) acts, s.eng = e1 →
          s.exec Validate acts = some s2 →
            s2.eng.worstError = err ∧ (s2.eng.tomb.dead = true → s2.eng.Wait = some err))) := by
  have hg := engine.gotStopped_fatal e name err isFatal moreImportant hw hns hf hfe hm hk
  refine ⟨_, hg, ?_, rfl, ?_, ?_, rfl, rfl, ?_⟩
  · show (e.tombKill err).isDying = true
    exact engine.tombKill_isDying e err
  · exact Map.get?_set_self _ _ _
  · intro other ho
    exact Map.get?_set_ne _ _ _ _ (Ne.symm ho)
  · intro hmi
    refine ⟨?_, ?_⟩
    · intro s hs hr
      have hd : (e.tombKill err).isDying = true := engine.tombKill_isDying e err
      have hsel : s.select Validate (ticket.stopped name err) =
          some { s with eng := { e with
            worstError := moreImportant err none
            tomb := e.tomb.killed err
            current := e.current.set name default } } := by
        simp only [loopState.select, hs, hg, Option.map_some']
      unfold loopState.turn
      rw [hsel]
      simp only [hr, Option.isSome_none, Bool.false_eq_true, if_false, Option.map_some']
      split_ifs with hx
      · refine ⟨_, rfl, hmi, ?_⟩
        intro _
        simp only [engine.Wait, Tomb.Done, if_true]
        rw [hmi]
      · refine ⟨_, rfl, hmi, ?_⟩
        intro hall
        exfalso
        apply hx
        simp only [Bool.and_eq_true]
        exact ⟨hd, hall⟩
    · intro x hx s s2 acts hs hrun
      have h1 : s.eng.worstError = some x := by
        rw [hs]
        show moreImportant err none = some x
        rw [hmi, hx]
      have h2 : s2.eng.worstError = some x :=
        exec_inv Validate (fun y => y.eng.worstError = some x) (fun _ => True)
          (fun y a y1 _ hy hst => step_worstError Validate y y1 a x hy hst)
          acts s s2 (fun _ _ => trivial) h1 hrun
      refine ⟨by rw [h2, hx], ?_⟩
      intro hdead
      simp only [engine.Wait, hdead, if_true]
      rw [h2, hx]

/-- C38, on the sample engine: the runner of "a" is starting when its stopped
ticket carries the low fatal error; the engine becomes dying, records that
error and launches no further runner. -/
theorem C38_fatal_propagation_witness :
    ((sampleRun startingSteps).eng.current.index "a").stopped = false ∧
      sampleIsFatal (some fatalLow) = true ∧
      ∃ e1, (sampleRun startingSteps).eng.gotStopped "a" (some fatalLow) = some e1 ∧
        e1.isDying = true ∧ e1.worstError = some fatalLow ∧ e1.goroutines.length = 1 := by
  obtain ⟨e1, h, hd, hw, _, _, hg, _⟩ :=
    C38_fatal_propagation strictValidate (sampleRun startingSteps).eng "a" (some fatalLow)
      sampleIsFatal sampleMoreImportant rfl (by decide) rfl (by decide) rfl
      (Or.inl (by decide))
  exact ⟨by decide, by decide, e1, h, hd, by rw [hw]; decide, by rw [hg]; decide⟩

/-- C31: the accessor is a frozen view.  Two engine states that agree on the
recorded worker and on the output func of every declared input yield equal
accessors, whatever else differs; the accessor `requestStart` hands to the
runner it launches is the one built from the workers and output funcs at that
call; and no later run of the loop, whatever installs, started and stopped
tickets it handles, changes a runner record already launched, so that its
accessor returns what it returned before. -/
theorem C31_accessor_frozen :
    (∀ (e1 e2 : engine) (name1 name2 : String) (inputs : List String),
      (∀ r ∈ inputs, (e1.current.index r).worker = (e2.current.index r).worker ∧
        (e1.manifolds.index r).Output = (e2.manifolds.index r).Output) →
      e1.getResourceFunc name1 inputs = e2.getResourceFunc name2 inputs) ∧
    (∀ (e : engine) (name : String) (delay : Duration) (m : Manifold),
      e.manifolds.get? name = some m → (e.current.index name).stopped = true →
      e.isDying = false →
      ∃ g : runWorkerCall, (e.requestStart name delay).goroutines = e.goroutines ++ [g] ∧
        g.name = name ∧ g.getResource = e.getResourceFunc name m.Inputs) ∧
    (∀ (s s1 : loopState) (acts : List action), s.exec Validate acts = some s1 →
      ∀ (i : Nat) (g : runWorkerCall), s.eng.goroutines[i]? = some g →
        s1.eng.goroutines[i]? = some g ∧
        ∀ r out, (s1.eng.goroutines[i]?.map fun x => x.getResource r out) =
          some (g.getResource r out)) := by
  refine ⟨engine.getResourceFunc_congr, ?_, ?_⟩
  · intro e name delay m hm hs hd
    rw [engine.requestStart_ok e name delay m hm hs hd]
    refine ⟨_, rfl, rfl, ?_⟩
    refine engine.getResourceFunc_congr _ e name name m.Inputs ?_
    intro r _
    refine ⟨?_, rfl⟩
    show ((e.current.set name { e.current.index name with starting := true }).index r).worker = _
    by_cases hr : name = r
    · subst hr
      rw [Map.index_set_self]
    · rw [Map.index_set_ne _ _ _ _ hr]
  · intro s s1 acts h i g hg
    obtain ⟨launched, hl⟩ := exec_launched Validate acts s s1 h
    obtain ⟨hi, _⟩ := List.getElem?_eq_some.mp hg
    have h1 : s1.eng.goroutines[i]? = some g := by
      rw [hl, List.getElem?_append_left hi]
      exact hg
    refine ⟨h1, ?_⟩
    intro r out
    rw [h1]
    rfl

/-- C31, on the sample run: the runner launched when "a" was installed is still
the first record after "b" is installed and the worker of "a" has started. -/
theorem C31_accessor_frozen_witness :
    ∃ g : runWorkerCall, (sampleRun startingSteps).eng.goroutines[0]? = some g ∧
      (sampleRun installSteps).eng.goroutines[0]? = some g ∧ g.name = "a" :=
  ⟨_, rfl,
    ((C31_accessor_frozen strictValidate).2.2 (sampleRun startingSteps) (sampleRun installSteps)
      [action.recv (ticket.install "b" ⟨["c"], none, none⟩),
        action.recv (ticket.started "a" worker1)] rfl 0 _ rfl).1, rfl⟩

/-- C35 as stated fails for a start func that returns neither a worker nor an
error, and for a nil start func: unless the dying channel wins against the
delay, the runner panics, at `worker.Kill()` or `worker.Wait()` or at the call
of the start func, and sends no stopped ticket. -/
theorem C35_runner_events_counterexample :
    engine.runWorker "a" 0 (some (fun _ => (none, none))) (fun _ _ => none) ⟨false, false⟩
        sampleWait = none ∧
      engine.runWorker "a" 0 (some (fun _ => (none, none))) (fun _ _ => none) ⟨false, true⟩
        sampleWait = none ∧
      engine.runWorker "a" 0 none (fun _ _ => none) ⟨false, false⟩ sampleWait = none :=
  ⟨rfl, rfl, rfl⟩

/-- C35, amended: whatever the delay/dying race and the started-send/dying race
come to, when the dying channel wins against the delay or the start func is not
nil and returns a worker whenever it returns no error, a single `runWorker`
call runs to its end and sends exactly one stopped ticket and at most one
started ticket, all for its own name: either the stopped ticket alone or the
started ticket followed by the stopped one, so every started ticket has the
stopped ticket after it and nothing follows the stopped one. -/
theorem C35_runner_events (name : String) (delay : Duration) (start : Option StartFunc)
    (getResource : GetResourceFunc) (race : runnerRace) (wait : Worker → error)
    (hc : race.dyingBeforeDelay = true ∨ ∃ f, start = some f ∧
      ((f getResource).2 = none → (f getResource).1.isSome = true)) :
    ∃ tr, engine.runWorker name delay start getResource race wait = some tr ∧
      tr.sent.countP ticket.isStopped = 1 ∧ tr.sent.countP ticket.isStarted ≤ 1 ∧
      (∃ err, tr.sent = [ticket.stopped name err] ∨
        ∃ w, tr.sent = [ticket.started name w, ticket.stopped name err]) ∧
      (∀ before t after, tr.sent = before ++ t :: after → t.isStarted = true →
        after.countP ticket.isStopped = 1) ∧
      (∀ before t after, tr.sent = before ++ t :: after → t.isStopped = true → after = []) := by
  obtain ⟨tr, h, err, hs⟩ := engine.runWorker_sent name delay start getResource race wait hc
  refine ⟨tr, h, ?_, ?_, ⟨err, hs⟩, ?_, ?_⟩
  · rcases hs with hs | ⟨w, hs⟩ <;> rw [hs] <;> rfl
  · rcases hs with hs | ⟨w, hs⟩
    · rw [hs]
      exact Nat.zero_le 1
    · rw [hs]
      exact Nat.le_refl 1
  · intro before t after ht hst
    rcases hs with hs | ⟨w, hs⟩
    · rw [hs] at ht
      rcases before with _ | ⟨p, before⟩
      · simp only [List.nil_append, List.cons.injEq] at ht
        rw [← ht.1] at hst
        cases hst
      · simp at ht
    · rw [hs] at ht
      rcases before with _ | ⟨p, _ | ⟨q, before⟩⟩
      · simp only [List.nil_append, List.cons.injEq] at ht
        rw [← ht.2]
        rfl
      · simp only [List.cons_append, List.nil_append, List.cons.injEq] at ht
        rw [← ht.2.1] at hst
        cases hst
      · simp at ht
  · intro before t after ht hst
    rcases hs with hs | ⟨w, hs⟩
    · rw [hs] at ht
      rcases before with _ | ⟨p, before⟩
      · simp only [List.nil_append, List.cons.injEq] at ht
        exact ht.2.symm
      · simp at ht
    · rw [hs] at ht
      rcases before with _ | ⟨p, _ | ⟨q, before⟩⟩
      · simp only [List.nil_append, List.cons.injEq] at ht
        rw [← ht.1] at hst
        cases hst
      · simp only [List.cons_append, List.nil_append, List.cons.injEq] at ht
        exact ht.2.2.symm
      · simp at ht

/-- C35 amended, for a runner of "a" whose start func returns the first sample
worker and that wins both races against the dying channel. -/
theorem C35_runner_events_witness :
    ∃ tr, engine.runWorker "a" 0 (some sampleStart) (fun _ _ => none) ⟨false, false⟩ sampleWait =
        some tr ∧
      tr.sent.countP ticket.isStopped = 1 ∧ tr.sent.countP ticket.isStarted ≤ 1 := by
  obtain ⟨tr, h, h1, h2, _⟩ :=
    C35_runner_events "a" 0 (some sampleStart) (fun _ _ => none) ⟨false, false⟩ sampleWait
      (Or.inr ⟨sampleStart, rfl, fun _ => rfl⟩)
  exact ⟨tr, h, h1, h2⟩

/-- C36: in a runner, if the dying channel wins against the delay, the start
func is not called, nothing is sent on the started channel and the stopped
ticket carries `ErrDying`; if the delay wins and the start func returns an
error, it was called once, nothing is sent on the started channel and the
stopped ticket carries that error; if it returns a worker without an error,
the stopped ticket carries the result of that worker's `Wait`, after the
started ticket or, when the dying channel wins against the send, after the
worker was killed instead. -/
theorem C36_runner_outcomes (name : String) (delay : Duration) (getResource : GetResourceFunc)
    (race : runnerRace) (wait : Worker → error) :
    (∀ start, race.dyingBeforeDelay = true →
      engine.runWorker name delay start getResource race wait =
        some ⟨0, [], [ticket.stopped name (some Err.ErrDying)]⟩) ∧
    (∀ (start : StartFunc) (err : Err), race.dyingBeforeDelay = false →
      (start getResource).2 = some err →
      engine.runWorker name delay (some start) getResource race wait =
        some ⟨1, [], [ticket.stopped name (some err)]⟩) ∧
    (∀ (start : StartFunc) (w : Worker), race.dyingBeforeDelay = false →
      start getResource = (some w, none) →
      engine.runWorker name delay (some start) getResource race wait =
        some ⟨1, if race.dyingBeforeSend then [w] else [],
          (if race.dyingBeforeSend then [] else [ticket.started name w]) ++
            [ticket.stopped name (wait w)]⟩) :=
  ⟨fun start hd => engine.runWorker_dying name delay start getResource race wait hd,
    fun start err hd hs => engine.runWorker_failed name delay start getResource race wait err hd hs,
    fun start w hd hs => engine.runWorker_started name delay start getResource race wait w hd hs⟩

/-- C36, for a runner of "a" whose start func fails: the stopped ticket carries
the error of the start func. -/
theorem C36_runner_outcomes_witness :
    engine.runWorker "a" 0 (some failingStart) (fun _ _ => none) ⟨false, true⟩ sampleWait =
      some ⟨1, [], [ticket.stopped "a" (some (Err.New "connection lost"))]⟩ :=
  (C36_runner_outcomes "a" 0 (fun _ _ => none) ⟨false, true⟩ sampleWait).2.1 failingStart
    (Err.New "connection lost") rfl rfl

/-- C34: when the loop handles the dying signal, which it does once and only on
a dying engine, afterwards every info in `current` is stopped or stopping; no
starting flag and no worker field has changed, nor have the keys of `current`,
the launched runners or the tomb; and `Kill` has been called exactly on the
workers recorded under an info that was not already stopping, once for each key
of `current`, the keys being distinct in every reachable state. -/
theorem C34_dying_signal (s s2 : loopState) (h : s.select Validate ticket.dying = some s2) :
    (s.oneShotDying = true ∧ s.eng.isDying = true ∧ s2.oneShotDying = false) ∧
    (∀ n, (s2.eng.current.index n).stopped = true ∨ (s2.eng.current.index n).stopping = true) ∧
    (∀ n, (s2.eng.current.index n).worker = (s.eng.current.index n).worker ∧
      (s2.eng.current.index n).starting = (s.eng.current.index n).starting) ∧
    s2.eng.current.keys = s.eng.current.keys ∧
    s2.eng.goroutines = s.eng.goroutines ∧ s2.eng.tomb = s.eng.tomb ∧
    (s.eng.current.keys.Nodup →
      s2.eng.kills = s.eng.kills ++ s.eng.current.keys.filterMap s.eng.toStop) ∧
    (Reachable Validate s →
      s.eng.current.keys.Nodup ∧
      s2.eng.kills = s.eng.kills ++ s.eng.current.keys.filterMap s.eng.toStop) := by
  simp only [loopState.select] at h
  split_ifs at h with hc
  simp only [Option.some.injEq] at h
  subst h
  simp only [Bool.and_eq_true] at hc
  obtain ⟨hw, hk, hg, ht, _, _⟩ := engine.stopAll_frame s.eng.current.keys s.eng
  refine ⟨⟨hc.1, hc.2, rfl⟩, ?_, hw, hk, hg, ht, ?_, ?_⟩
  · intro n
    by_cases hn : n ∈ s.eng.current.keys
    · exact (engine.stopAll_marked _ s.eng n (Or.inl hn)).symm
    · have hst : (s.eng.current.index n).stopped = true := by
        by_contra hns
        exact hn (engine.mem_keys_of_not_stopped s.eng n (by simpa using hns))
      exact (engine.stopAll_marked _ s.eng n (Or.inr (Or.inr hst))).symm
  · intro hnd
    exact engine.stopAll_kills _ s.eng hnd
  · intro hr
    have hnd := current_nodup_inv Validate s hr
    exact ⟨hnd, engine.stopAll_kills _ s.eng hnd⟩

/-- C34, on the sample engine: "a" holds a worker when the engine is killed;
handling the dying signal marks it stopping and kills that worker once. -/
theorem C34_dying_signal_witness :
    ∃ s2, (sampleRun (runningSteps ++ [action.Kill])).select strictValidate ticket.dying =
        some s2 ∧
      (s2.eng.kills =
        (sampleRun (runningSteps ++ [action.Kill])).eng.kills ++
          (sampleRun (runningSteps ++ [action.Kill])).eng.current.keys.filterMap
            (sampleRun (runningSteps ++ [action.Kill])).eng.toStop) ∧
      s2.eng.kills.map Worker.id = [1] ∧ (s2.eng.current.index "a").stopping = true :=
  ⟨sampleRun (runningSteps ++ [action.Kill, action.recv ticket.dying]), rfl,
    (C34_dying_signal strictValidate (sampleRun (runningSteps ++ [action.Kill]))
      (sampleRun (runningSteps ++ [action.Kill, action.recv ticket.dying])) rfl).2.2.2.2.2.2.1
      (by decide),
    by decide, by decide⟩

/-- C32: for every engine state the mapping `gotReport` returns has the three
keys is-dying, manifold-count and workers; manifold-count is the number of
installed manifolds, is-dying is the dying flag of the tomb, and workers is a
mapping that, the keys of `current` being distinct as they are in every
reachable state, has exactly the keys of `current`, each with a mapping that
holds the starting and the stopping flag of that info and holds a report key,
with the worker's report, exactly when the recorded worker is a reporter.  The
loop's state after a report ticket is the state before it. -/
theorem C32_report (e : engine) :
    e.gotReport.keys = ["is-dying", "manifold-count", "workers"] ∧
    e.gotReport.get? "manifold-count" = some (Value.int e.manifolds.len) ∧
    e.gotReport.get? "is-dying" = some (Value.bool e.isDying) ∧
    (∃ workers : Map Value, e.gotReport.get? "workers" = some (Value.map workers.entries) ∧
      (e.current.keys.Nodup →
        workers.keys = e.current.keys ∧
        ∀ k info, e.current.get? k = some info →
          ∃ worker : Map Value, workers.get? k = some (Value.map worker.entries) ∧
            worker.get? "starting" = some (Value.bool info.starting) ∧
            worker.get? "stopping" = some (Value.bool info.stopping) ∧
            worker.get? "report" = info.worker.bind Worker.report ∧
            ((worker.get? "report").isSome = true ↔
              ∃ w r, info.worker = some w ∧ w.report = some r) ∧
            worker.keys =
              if (info.worker.bind Worker.report).isSome then ["starting", "stopping", "report"]
              else ["starting", "stopping"])) ∧
    (∀ s : loopState, Reachable Validate s → s.eng.current.keys.Nodup) ∧
    (∀ s : loopState, s.select Validate ticket.report = some s) := by
  refine ⟨rfl, rfl, rfl, ⟨e.reportWorkers, rfl, ?_⟩, ?_, ?_⟩
  · intro hnd
    obtain ⟨hk, hg⟩ := engine.reportWorkers_spec e hnd
    refine ⟨hk, ?_⟩
    intro k info hinfo
    obtain ⟨h1, h2, h3, h4⟩ := workerInfo.reportMap_spec info
    refine ⟨info.reportMap, ?_, h1, h2, h3, ?_, h4⟩
    · rw [hg k, hinfo]
      rfl
    · rw [h3]
      constructor
      · intro hs
        cases hw : info.worker with
        | none => rw [hw] at hs; cases hs
        | some w =>
          rw [hw] at hs
          cases hr : w.report with
          | none =>
            have hb : (some w).bind Worker.report = w.report := rfl
            rw [hb, hr] at hs
            cases hs
          | some r => exact ⟨w, r, rfl, hr⟩
      · intro ⟨w, r, hw, hr⟩
        rw [hw]
        show (w.report).isSome = true
        rw [hr]
        rfl
  · intro s hs
    exact current_nodup_inv Validate s hs
  · intro s
    rfl

/-- C32, on the sample engine after "a" was installed and a reporter was
recorded as its worker. -/
theorem C32_report_witness :
    (sampleRun [action.recv (ticket.install "a" leaf),
        action.recv (ticket.started "a" reportingWorker)]).eng.gotReport.get? "manifold-count" =
      some (Value.int 1) :=
  (C32_report strictValidate (sampleRun [action.recv (ticket.install "a" leaf),
    action.recv (ticket.started "a" reportingWorker)]).eng).2.1

/-- C37 as stated fails.  First, on the sample config with a cycle check that
accepts everything and an input "a" that declares no output func: after the four
tickets "b" is starting with a runner at the bounce delay and the worker of "a"
is recorded, but the accessor of that runner still returns `ErrMissing` for "a"
when it is called with an `out`.  Second, on the config for which every error
is fatal: the stopped ticket of "b" with `ErrMissing` makes the loop return with
"b" stopped, and the install of "a" is no longer received. -/
theorem C37_missing_dependency_retry_counterexample :
    (∃ s g, (loopState.start sampleEngine).exec acceptAll
        [action.recv (ticket.install "b" ⟨["a"], none, none⟩),
          action.recv (ticket.stopped "b" (some Err.ErrMissing)),
          action.recv (ticket.install "a" leaf), action.recv (ticket.started "a" worker1)] =
        some s ∧
      s.eng.goroutines.getLast? = some g ∧ g.name = "b" ∧ g.delay = 10 ∧
      (s.eng.current.index "b").starting = true ∧
      (s.eng.current.index "a").worker = some worker1 ∧
      g.getResource "a" (some 7) = some Err.ErrMissing) ∧
    (∃ s, fatalAllRun [action.recv (ticket.install "b" ⟨["a"], none, none⟩),
          action.recv (ticket.stopped "b" (some Err.ErrMissing))] = some s ∧
      s.result.isSome = true ∧ (s.eng.current.index "b").stopped = true ∧
      s.eng.goroutines.length = 1 ∧
      s.turn acceptAll (ticket.install "a" leaf) = none) :=
  ⟨⟨_, _, rfl, rfl, rfl, rfl, rfl, rfl, rfl⟩, ⟨_, rfl, rfl, rfl, rfl, rfl⟩⟩

/-- C37, amended: missing dependency retry on bounce.  From a new engine with a
valid config for which `ErrMissing` is not fatal, and with a cycle check that
accepts both installs, the loop runs through the install of `b` with the single
input `a`, the stopped ticket of `b` with `ErrMissing`, the install of `a` and
the started ticket of `a` with the worker `w`.  It is then still running; the
info of `b` is starting and that of `a` holds `w`; three runners have been
launched, the first for `b` without delay with an accessor that returns
`ErrMissing` for everything, the last for `b` with the delay `BounceDelay`, the
start func of `b` and an accessor whose snapshot holds `w` for `a`: for `a` it
returns what the output func of `a` returns for `w`, or, if `a` has none, nil
for a nil `out` and `ErrMissing` for any other. -/
theorem C37_missing_dependency_retry (cfg : EngineConfig) (isFatal : error → Bool)
    (a b : String) (mA mB : Manifold) (w : Worker) (hab : a ≠ b)
    (hv : cfg.Validate = none)
    (hf : cfg.IsFatal = some isFatal) (hnf : isFatal (some Err.ErrMissing) = false)
    (hB : mB.Inputs = [a])
    (hV1 : Validate ((Map.empty : Manifolds).set b mB) = none)
    (hV2 : Validate (((Map.empty : Manifolds).set a mA).set b mB) = none) :
    ∃ (e0 : engine) (s : loopState) (g0 gA g : runWorkerCall),
      NewEngine cfg = (some e0, none) ∧
      (loopState.start e0).exec Validate
        [action.recv (ticket.install b mB), action.recv (ticket.stopped b (some Err.ErrMissing)),
          action.recv (ticket.install a mA), action.recv (ticket.started a w)] = some s ∧
      s.result = none ∧ s.eng.isDying = false ∧
      s.eng.current.get? b = some ⟨true, false, none⟩ ∧
      (s.eng.current.index a).worker = some w ∧
      s.eng.goroutines = [g0, gA, g] ∧
      (g0.name = b ∧ g0.delay = 0 ∧ ∀ r out, g0.getResource r out = some Err.ErrMissing) ∧
      (gA.name = a ∧ gA.delay = 0) ∧
      g.name = b ∧ g.delay = cfg.BounceDelay ∧ g.start = mB.Start ∧
      g.getResource = s.eng.getResourceFunc b mB.Inputs ∧
      (s.eng.snapshotWorkers mB.Inputs).index a = some w ∧
      (∀ out, g.getResource a out =
        match mA.Output with
        | none => if out.isSome then some Err.ErrMissing else none
        | some convert => convert w out) ∧
      (mA.Output = none → g.getResource a none = none) := by
  obtain ⟨e1, e2, e3, e4, g0, gA, g, h1, h2, h3, h4, hd1, hd2, hd3, hd4, hb, ha, hg, hg0,
      hgA, hn, hdl, hst, hacc, hsw, hso⟩ :=
    late_dependency_states Validate cfg isFatal a b mA mB w hab hf hnf hB hV1 hV2
  have hnew : NewEngine cfg =
      (some ⟨Tomb.alive, cfg, none, Map.empty, Map.empty, Map.empty, [], []⟩, none) := by
    unfold NewEngine
    rw [hv]
  have t1 : (loopState.start
      ⟨Tomb.alive, cfg, none, Map.empty, Map.empty, Map.empty, [], []⟩).turn Validate
      (ticket.install b mB) = some ⟨e1, true, none⟩ := by
    refine turn_live Validate _ _ _ rfl ?_ hd1
    show some _ = some _
    rw [← h1]
    rfl
  have t2 : (⟨e1, true, none⟩ : loopState).turn Validate
      (ticket.stopped b (some Err.ErrMissing)) = some ⟨e2, true, none⟩ := by
    refine turn_live Validate _ _ _ rfl ?_ hd2
    show (e1.gotStopped b (some Err.ErrMissing)).map _ = some _
    rw [h2]
    rfl
  have t3 : (⟨e2, true, none⟩ : loopState).turn Validate (ticket.install a mA) =
      some ⟨e3, true, none⟩ := by
    refine turn_live Validate _ _ _ rfl ?_ hd3
    show some _ = some _
    rw [← h3]
  have t4 : (⟨e3, true, none⟩ : loopState).turn Validate (ticket.started a w) =
      some ⟨e4, true, none⟩ := by
    refine turn_live Validate _ _ _ rfl ?_ hd4
    show some _ = some _
    rw [← h4]
  have hacc2 : ∀ out, g.getResource a out =
      match mA.Output with
      | none => if out.isSome then some Err.ErrMissing else none
      | some convert => convert w out := by
    intro out
    rw [hacc, engine.getResourceFunc_eq, hsw, hso]
  refine ⟨_, ⟨e4, true, none⟩, g0, gA, g, hnew, ?_, rfl, hd4, hb, ha, hg, hg0, hgA, hn, hdl,
    hst, hacc, hsw, hacc2, ?_⟩
  · simp only [loopState.exec, loopState.step, t1, t2, t3, t4, Option.some_bind]
  · intro hno
    rw [hacc2 none, hno]
    rfl

/-- C37 amended, on the sample config with a cycle check that accepts
everything: the three runners launched are those of "b", of "a" and, at the
bounce delay, of "b" again. -/
theorem C37_missing_dependency_retry_witness :
    ∃ s : loopState,
      (loopState.start sampleEngine).exec acceptAll
        [action.recv (ticket.install "b" ⟨["a"], none, none⟩),
          action.recv (ticket.stopped "b" (some Err.ErrMissing)),
          action.recv (ticket.install "a" leaf), action.recv (ticket.started "a" worker1)] =
        some s ∧
      s.eng.goroutines.map (fun g => (g.name, g.delay)) = [("b", 0), ("a", 0), ("b", 10)] ∧
      (s.eng.current.index "b").starting = true := by
  obtain ⟨e0, s, g0, gA, g, hnew, hrun, _, _, hb, _, hg, hg0, hgA, hn, hd, _⟩ :=
    C37_missing_dependency_retry acceptAll sampleConfig sampleIsFatal "a" "b" leaf
      ⟨["a"], none, none⟩ worker1 (by decide) rfl rfl (by decide) rfl rfl rfl
  have he0 : e0 = sampleEngine := by
    have h := (newEngine_eq sampleConfig e0 hnew).1
    rw [h]
    rfl
  refine ⟨s, by rw [← he0]; exact hrun, ?_, ?_⟩
  · rw [hg]
    simp only [List.map_cons, List.map_nil, hg0.1, hg0.2.1, hgA.1, hgA.2, hn, hd]
    rfl
  · unfold Map.index
    rw [hb]
    rfl

/-- C33: along every run from a new engine, the loop has returned only if the
engine is dying and every info is stopped, so that no info is starting or
holds a worker; `Wait` returns only once the loop has returned; while the info
of some name is not stopped the loop has not returned and `Wait` blocks; and
the runners are accounted for: at most one runner launched for a name has not
yet had its stopped ticket handled, and while there is one, the info of that
name is not stopped, the loop has not returned and `Wait` blocks. -/
theorem C33_loop_exit (config : EngineConfig) (e : engine) (acts : List action)
    (s : loopState) (hnew : NewEngine config = (some e, none))
    (hrun : (loopState.start e).exec Validate acts = some s) :
    (s.result.isSome = true →
      s.eng.isDying = true ∧ s.eng.allStopped = true ∧
      ∀ n, (s.eng.current.index n).starting = false ∧ (s.eng.current.index n).worker = none) ∧
    (∀ x, s.eng.Wait = some x → s.result.isSome = true) ∧
    (∀ n, (s.eng.current.index n).stopped = false → s.result = none ∧ s.eng.Wait = none) ∧
    (∀ n, s.eng.launched n ≤ stoppedTickets n acts + 1) ∧
    (∀ n, stoppedTickets n acts < s.eng.launched n →
      (s.eng.current.index n).stopped = false ∧ s.result = none ∧ s.eng.Wait = none) := by
  have h0 := (newEngine_eq config e hnew).1
  have hexit := exec_exit Validate acts (loopState.start e) s hrun
    ⟨fun hr => (by cases hr), fun hd => (by rw [h0] at hd; cases hd)⟩
  have hacc := exec_accounted Validate acts (loopState.start e) s (fun _ => 0) hrun
    (by
      intro n
      rw [h0]
      exact ⟨Nat.zero_le _, fun _ => rfl⟩)
  have hwait : ∀ x, s.eng.Wait = some x → s.result.isSome = true := by
    intro x hx
    apply hexit.2
    unfold engine.Wait at hx
    split_ifs at hx with hd
    exact hd
  have hbusy : ∀ n, (s.eng.current.index n).stopped = false →
      s.result = none ∧ s.eng.Wait = none := by
    intro n hn
    have hr : s.result = none := by
      cases hres : s.result with
      | none => rfl
      | some x =>
        have hall := (hexit.1 (by rw [hres]; rfl)).2
        rw [engine.stopped_of_allStopped s.eng hall n] at hn
        cases hn
    refine ⟨hr, ?_⟩
    cases hw : s.eng.Wait with
    | none => rfl
    | some x =>
      have := hwait x hw
      rw [hr] at this
      cases this
  refine ⟨?_, hwait, hbusy, ?_, ?_⟩
  · intro hr
    obtain ⟨hd, hall⟩ := hexit.1 hr
    refine ⟨hd, hall, ?_⟩
    intro n
    have hst := engine.stopped_of_allStopped s.eng hall n
    refine ⟨?_, engine.worker_of_stopped _ hst⟩
    unfold workerInfo.stopped at hst
    cases hs : (s.eng.current.index n).starting with
    | false => rfl
    | true =>
      rw [hs] at hst
      simp at hst
  · intro n
    have h1 := (hacc n).1
    simp only [Nat.zero_add] at h1
    split_ifs at h1 <;> omega
  · intro n hn
    have h1 := (hacc n).1
    simp only [Nat.zero_add] at h1
    have hns : (s.eng.current.index n).stopped = false := by
      cases hst : (s.eng.current.index n).stopped with
      | false => rfl
      | true =>
        rw [hst] at h1
        simp only [if_true] at h1
        omega
    exact ⟨hns, hbusy n hns⟩

/-- C33, on the sample engine: the runner of "a" has been launched and has not
delivered its stopped ticket when the engine is killed; `Wait` blocks. -/
theorem C33_loop_exit_witness :
    stoppedTickets "a" killedWhileStartingSteps <
        (sampleRun killedWhileStartingSteps).eng.launched "a" ∧
      (sampleRun killedWhileStartingSteps).eng.isDying = true ∧
      (sampleRun killedWhileStartingSteps).eng.Wait = none :=
  ⟨by decide, by decide,
    ((C33_loop_exit strictValidate sampleConfig sampleEngine killedWhileStartingSteps
      (sampleRun killedWhileStartingSteps) rfl rfl).2.2.2.2 "a" (by decide)).2.2⟩

end claims

end Dependency
